import Mathlib

/-!
# Intel 8086 emulator core (`i8086.cxx`): shallow embedding and verified properties

Machine integers are natural numbers; every assignment to a `uint8_t`, `uint16_t`,
`uint32_t` or `uint64_t` location is followed by an explicit reduction modulo
`2^8`, `2^16`, `2^32` or `2^64`.  The flag booleans of the `i8086` object are
collected in `Flags`; the arithmetic primitives read and write only those, so they
are functions `Flags → operands → result × Flags`.  A primitive or handler that
reaches an operation without a defined value in the source (a division by zero, a
shift by a negative count) yields no result there and returns an `Option`.

`i8086.hxx` is not among the sources.  The helpers it declares inline and that the
code below calls (`set_PZS8`, `flatten`, `get_seg_value`, `decode_instruction`, ...)
are modelled from the specification and marked as such.
-/

namespace I8086

/-! ## Flags and arithmetic primitives -/

/-- The nine flag booleans of the `i8086` object. -/
structure Flags where
  fCarry : Bool
  fParityEven : Bool
  fAuxCarry : Bool
  fZero : Bool
  fSign : Bool
  fOverflow : Bool
  fDirection : Bool
  fInterrupt : Bool
  fTrap : Bool
deriving DecidableEq, Repr

/-- Modelled from the spec: `is_parity_even8` (declared in `i8086.hxx`) is true when
the low eight bits of the value hold an even number of one bits. -/
def is_parity_even8 (v : Nat) : Bool :=
  ((List.range 8).filter (fun i => v.testBit i)).length % 2 == 0

/-- Modelled from the spec: `set_PZS8` (declared in `i8086.hxx`) sets P, Z and S from
a byte result: parity of the byte, result equal to zero, bit 7. -/
def set_PZS8 (f : Flags) (val : Nat) : Flags :=
  { f with fParityEven := is_parity_even8 (val &&& 0xff),
           fZero := (val == 0),
           fSign := ((0x80 &&& val) != 0) }

/-- Modelled from the spec: `set_PZS16` (declared in `i8086.hxx`) sets P, Z and S from
a word result: parity of the low byte, result equal to zero, bit 15. -/
def set_PZS16 (f : Flags) (val : Nat) : Flags :=
  { f with fParityEven := is_parity_even8 (val &&& 0xff),
           fZero := (val == 0),
           fSign := ((0x8000 &&& val) != 0) }

/-- The C expression `~x` stored into a `uint8_t`. -/
def compl8 (x : Nat) : Nat := 0xff - x % 0x100

/-- The C expression `~x` stored into a `uint16_t`. -/
def compl16 (x : Nat) : Nat := 0xffff - x % 0x10000

/-- Embedding of `i8086::op_sub8`. -/
def op_sub8 (f : Flags) (lhs rhs : Nat) (borrow : Bool) : Nat × Flags :=
  let com_rhs : Nat := compl8 rhs
  let borrow_int : Nat := if borrow then 0 else 1
  let res16 : Nat := (lhs + com_rhs + borrow_int) % 0x10000
  let res8 : Nat := (res16 &&& 0xff) % 0x100
  let f := { f with fCarry := ((res16 &&& 0x100) == 0) }
  let f := set_PZS8 f res8
  let f := { f with fOverflow :=
    (((lhs ^^^ com_rhs) &&& 0x80) == 0) && (((lhs ^^^ res8) &&& 0x80) != 0) }
  let f := { f with fAuxCarry :=
    ((((lhs &&& 0xf) + (com_rhs &&& 0xf) + borrow_int) &&& 0x10) != 0) }
  (res8, f)

/-- Embedding of `i8086::op_sub16`. -/
def op_sub16 (f : Flags) (lhs rhs : Nat) (borrow : Bool) : Nat × Flags :=
  let com_rhs : Nat := compl16 rhs
  let borrow_int : Nat := if borrow then 0 else 1
  let res32 : Nat := (lhs + com_rhs + borrow_int) % 0x100000000
  let res16 : Nat := (res32 &&& 0xffff) % 0x10000
  let f := { f with fCarry := ((res32 &&& 0x10000) == 0) }
  let f := set_PZS16 f res16
  let f := { f with fOverflow :=
    (((lhs ^^^ com_rhs) &&& 0x8000) == 0) && (((lhs ^^^ res16) &&& 0x8000) != 0) }
  let f := { f with fAuxCarry :=
    ((((lhs &&& 0xfff) + (com_rhs &&& 0xfff) + borrow_int) &&& 0x1000) != 0) }
  (res16, f)

/-- Embedding of `i8086::op_add16`. -/
def op_add16 (f : Flags) (lhs rhs : Nat) (carry : Bool) : Nat × Flags :=
  let carry_int : Nat := if carry then 1 else 0
  let r32 : Nat := (lhs + rhs + carry_int) % 0x100000000
  let r16 : Nat := (r32 &&& 0xffff) % 0x10000
  let f := { f with fCarry := ((r32 &&& 0x010000) != 0) }
  let f := { f with fAuxCarry :=
    ((((0xfff &&& lhs) + (0xfff &&& rhs) + carry_int) &&& 0x1000) != 0) }
  let f := set_PZS16 f r16
  let f := { f with fOverflow :=
    (((lhs ^^^ rhs) &&& 0x8000) == 0) && (((lhs ^^^ r16) &&& 0x8000) != 0) }
  (r16, f)

/-- Embedding of `i8086::op_add8`. -/
def op_add8 (f : Flags) (lhs rhs : Nat) (carry : Bool) : Nat × Flags :=
  let carry_int : Nat := if carry then 1 else 0
  let r16 : Nat := (lhs + rhs + carry_int) % 0x10000
  let r8 : Nat := (r16 &&& 0xff) % 0x100
  let f := { f with fCarry := ((r16 &&& 0x0100) != 0) }
  let f := { f with fAuxCarry :=
    ((((0xf &&& lhs) + (0xf &&& rhs) + carry_int) &&& 0x10) != 0) }
  let f := set_PZS8 f r8
  let f := { f with fOverflow :=
    (((lhs ^^^ rhs) &&& 0x80) == 0) && (((lhs ^^^ r8) &&& 0x80) != 0) }
  (r8, f)

/-- Value of a byte read as a two's-complement number. -/
def signed8 (x : Nat) : Int := if x < 0x80 then (x : Int) else (x : Int) - 0x100

/-- Value of a word read as a two's-complement number. -/
def signed16 (x : Nat) : Int := if x < 0x8000 then (x : Int) else (x : Int) - 0x10000

/-- Sign bit of a byte. -/
def sign8 (x : Nat) : Bool := x.testBit 7

/-- Sign bit of a word. -/
def sign16 (x : Nat) : Bool := x.testBit 15

/-! ## Increment, decrement, shift and rotate primitives -/

/-- Embedding of `i8086::op_inc8`. -/
def op_inc8 (f : Flags) (val : Nat) : Nat × Flags :=
  let f := { f with fOverflow := (0x7f == val) }
  let val := (val + 1) % 0x100
  let f := { f with fAuxCarry := (0 == (val &&& 0xf)) }
  (val, set_PZS8 f val)

/-- Embedding of `i8086::op_dec8`: the test for O follows the decrement. -/
def op_dec8 (f : Flags) (val : Nat) : Nat × Flags :=
  let val := (val + 0xff) % 0x100
  let f := { f with fOverflow := (0x80 == val) }
  let f := { f with fAuxCarry := (0xf == (val &&& 0xf)) }
  (val, set_PZS8 f val)

/-- Embedding of `i8086::op_inc16`. -/
def op_inc16 (f : Flags) (val : Nat) : Nat × Flags :=
  let f := { f with fOverflow := (0x7fff == val) }
  let val := (val + 1) % 0x10000
  let f := { f with fAuxCarry := (0 == (val &&& 0xfff)) }
  (val, set_PZS16 f val)

/-- Embedding of `i8086::op_dec16`: the test for O follows the decrement. -/
def op_dec16 (f : Flags) (val : Nat) : Nat × Flags :=
  let val := (val + 0xffff) % 0x10000
  let f := { f with fOverflow := (0x8000 == val) }
  let f := { f with fAuxCarry := (0xfff == (val &&& 0xfff)) }
  (val, set_PZS16 f val)

/-- One pass of the `for` loop of `op_rol16`, on the local `val` and the flags. -/
def rol16_step (p : Nat × Flags) : Nat × Flags :=
  let highBit := ((0x8000 &&& p.1) != 0)
  let val := (p.1 <<< 1) % 0x10000
  let val := if highBit then val ||| 1 else val &&& 0xfffe
  (val, { p.2 with fCarry := highBit })

/-- Embedding of `i8086::op_rol16`: the operand after the call and the flags.  The
loop runs `shift` times (`sh` and `shift` are both `uint8_t`). -/
def op_rol16 (f : Flags) (val shift : Nat) : Nat × Flags :=
  if shift = 0 then (val, f)
  else
    let r := rol16_step^[shift] (val, f)
    let f := if shift = 1 then { r.2 with fOverflow := xor ((r.1 &&& 0x8000) != 0) r.2.fCarry } else r.2
    (r.1, f)

/-- One pass of the `for` loop of `op_ror16`. -/
def ror16_step (p : Nat × Flags) : Nat × Flags :=
  let lowBit := ((1 &&& p.1) != 0)
  let val := p.1 >>> 1
  let val := if lowBit then val ||| 0x8000 else val &&& 0x7fff
  (val, { p.2 with fCarry := lowBit })

/-- Embedding of `i8086::op_ror16`, with its `else fOverflow = true`. -/
def op_ror16 (f : Flags) (val shift : Nat) : Nat × Flags :=
  if shift = 0 then (val, f)
  else
    let r := ror16_step^[shift] (val, f)
    let f := if shift = 1 then { r.2 with fOverflow := xor ((r.1 &&& 0x8000) != 0) ((r.1 &&& 0x4000) != 0) } else { r.2 with fOverflow := true }
    (r.1, f)

/-- One pass of the `for` loop of `op_rcl16`. -/
def rcl16_step (p : Nat × Flags) : Nat × Flags :=
  let newCarry := ((0x8000 &&& p.1) != 0)
  let val := (p.1 <<< 1) % 0x10000
  let val := if p.2.fCarry then val ||| 1 else val &&& 0xfffe
  (val, { p.2 with fCarry := newCarry })

/-- Embedding of `i8086::op_rcl16`. -/
def op_rcl16 (f : Flags) (val shift : Nat) : Nat × Flags :=
  if shift = 0 then (val, f)
  else
    let r := rcl16_step^[shift] (val, f)
    let f := if shift = 1 then { r.2 with fOverflow := xor ((r.1 &&& 0x8000) != 0) r.2.fCarry } else r.2
    (r.1, f)

/-- One pass of the `for` loop of `op_rcr16`. -/
def rcr16_step (p : Nat × Flags) : Nat × Flags :=
  let newCarry := ((1 &&& p.1) != 0)
  let val := p.1 >>> 1
  let val := if p.2.fCarry then val ||| 0x8000 else val &&& 0x7fff
  (val, { p.2 with fCarry := newCarry })

/-- Embedding of `i8086::op_rcr16`. -/
def op_rcr16 (f : Flags) (val shift : Nat) : Nat × Flags :=
  if shift = 0 then (val, f)
  else
    let r := rcr16_step^[shift] (val, f)
    let f := if shift = 1 then { r.2 with fOverflow := xor ((r.1 &&& 0x8000) != 0) ((r.1 &&& 0x4000) != 0) } else r.2
    (r.1, f)

/-- Embedding of `i8086::op_sal16`.  The function has no test for a zero count: the
first statement then shifts by `shift - 1 = -1`, which is undefined in the source, and
the result is `none` (as it is for a count above 32, where `shift - 1` reaches the
width of `int`).  A left shift whose value exceeds `int` is taken modulo `2^32`, as
the compilers of the source's targets produce, and stored into the `uint16_t`. -/
def op_sal16 (f : Flags) (val shift : Nat) : Option (Nat × Flags) :=
  if shift = 0 ∨ 32 < shift then none
  else
    let val := (val <<< (shift - 1)) % 0x10000
    let f := { f with fCarry := ((val &&& 0x8000) != 0) }
    let val := (val <<< 1) % 0x10000
    let f := if shift = 1 then { f with fOverflow := !(((val &&& 0x8000) != 0) == f.fCarry) } else f
    some (val, set_PZS16 f val)

/-- Embedding of `i8086::op_shr16`.  The function has no test for a zero count: the
shift by `shift - 1 = -1` is undefined in the source and the result is `none` (as it
is for a count above 32). -/
def op_shr16 (f : Flags) (val shift : Nat) : Option (Nat × Flags) :=
  let f := { f with fOverflow := ((val &&& 0x8000) != 0) }
  if shift = 0 ∨ 32 < shift then none
  else
    let val := val >>> (shift - 1)
    let f := { f with fCarry := ((val &&& 1) != 0) }
    let val := val >>> 1
    some (val, set_PZS16 f val)

/-- One pass of the `for` loop of `op_sar16`; `highBit` is computed before the loop. -/
def sar16_step (highBit : Bool) (p : Nat × Flags) : Nat × Flags :=
  let f := { p.2 with fCarry := ((1 &&& p.1) != 0) }
  let val := p.1 >>> 1
  let val := if highBit then val ||| 0x8000 else val &&& 0x7fff
  (val, f)

/-- Embedding of `i8086::op_sar16`. -/
def op_sar16 (f : Flags) (val shift : Nat) : Nat × Flags :=
  if shift = 0 then (val, f)
  else
    let highBit := ((val &&& 0x8000) != 0)
    let r := (sar16_step highBit)^[shift] (val, f)
    let f := if shift = 1 then { r.2 with fOverflow := false } else r.2
    (r.1, set_PZS16 f r.1)

/-- One pass of the `for` loop of `op_rol8`. -/
def rol8_step (p : Nat × Flags) : Nat × Flags :=
  let highBit := ((0x80 &&& p.1) != 0)
  let val := (p.1 <<< 1) % 0x100
  let val := if highBit then val ||| 1 else val &&& 0xfe
  (val, { p.2 with fCarry := highBit })

/-- Embedding of `i8086::op_rol8`, which has no test for a zero count: the loop then
makes no pass. -/
def op_rol8 (f : Flags) (val shift : Nat) : Nat × Flags :=
  let r := rol8_step^[shift] (val, f)
  let f := if shift = 1 then { r.2 with fOverflow := xor ((r.1 &&& 0x80) != 0) r.2.fCarry } else r.2
  (r.1, f)

/-- One pass of the `for` loop of `op_ror8`. -/
def ror8_step (p : Nat × Flags) : Nat × Flags :=
  let lowBit := ((1 &&& p.1) != 0)
  let val := p.1 >>> 1
  let val := if lowBit then val ||| 0x80 else val &&& 0x7f
  (val, { p.2 with fCarry := lowBit })

/-- Embedding of `i8086::op_ror8`. -/
def op_ror8 (f : Flags) (val shift : Nat) : Nat × Flags :=
  if shift = 0 then (val, f)
  else
    let r := ror8_step^[shift] (val, f)
    let f := if shift = 1 then { r.2 with fOverflow := xor ((r.1 &&& 0x80) != 0) ((r.1 &&& 0x40) != 0) } else r.2
    (r.1, f)

/-- One pass of the `for` loop of `op_rcl8`. -/
def rcl8_step (p : Nat × Flags) : Nat × Flags :=
  let newCarry := ((0x80 &&& p.1) != 0)
  let val := (p.1 <<< 1) % 0x100
  let val := if p.2.fCarry then val ||| 1 else val &&& 0xfe
  (val, { p.2 with fCarry := newCarry })

/-- Embedding of `i8086::op_rcl8`. -/
def op_rcl8 (f : Flags) (val shift : Nat) : Nat × Flags :=
  if shift = 0 then (val, f)
  else
    let r := rcl8_step^[shift] (val, f)
    let f := if shift = 1 then { r.2 with fOverflow := xor ((r.1 &&& 0x80) != 0) r.2.fCarry } else r.2
    (r.1, f)

/-- One pass of the `for` loop of `op_rcr8`. -/
def rcr8_step (p : Nat × Flags) : Nat × Flags :=
  let newCarry := ((1 &&& p.1) != 0)
  let val := p.1 >>> 1
  let val := if p.2.fCarry then val ||| 0x80 else val &&& 0x7f
  (val, { p.2 with fCarry := newCarry })

/-- Embedding of `i8086::op_rcr8`. -/
def op_rcr8 (f : Flags) (val shift : Nat) : Nat × Flags :=
  if shift = 0 then (val, f)
  else
    let r := rcr8_step^[shift] (val, f)
    let f := if shift = 1 then { r.2 with fOverflow := xor ((r.1 &&& 0x80) != 0) ((r.1 &&& 0x40) != 0) } else r.2
    (r.1, f)

/-- Embedding of `i8086::op_sal8`, with the test of the byte against `0x8000` for O.
A zero count is undefined as in `op_sal16`. -/
def op_sal8 (f : Flags) (val shift : Nat) : Option (Nat × Flags) :=
  if shift = 0 ∨ 32 < shift then none
  else
    let val := (val <<< (shift - 1)) % 0x100
    let f := { f with fCarry := ((val &&& 0x80) != 0) }
    let val := (val <<< 1) % 0x100
    let f := if shift = 1 then { f with fOverflow := !(((val &&& 0x8000) != 0) == f.fCarry) } else f
    some (val, set_PZS8 f val)

/-- Embedding of `i8086::op_shr8`.  A zero count is undefined as in `op_shr16`. -/
def op_shr8 (f : Flags) (val shift : Nat) : Option (Nat × Flags) :=
  let f := { f with fOverflow := ((val &&& 0x80) != 0) }
  if shift = 0 ∨ 32 < shift then none
  else
    let val := val >>> (shift - 1)
    let f := { f with fCarry := ((val &&& 1) != 0) }
    let val := val >>> 1
    some (val, set_PZS8 f val)

/-- One pass of the `for` loop of `op_sar8`; `highBit` is computed before the loop. -/
def sar8_step (highBit : Bool) (p : Nat × Flags) : Nat × Flags :=
  let f := { p.2 with fCarry := ((1 &&& p.1) != 0) }
  let val := p.1 >>> 1
  let val := if highBit then val ||| 0x80 else val &&& 0x7f
  (val, f)

/-- Embedding of `i8086::op_sar8`, which ends with `set_PZS16( val )`. -/
def op_sar8 (f : Flags) (val shift : Nat) : Nat × Flags :=
  if shift = 0 then (val, f)
  else
    let highBit := ((val &&& 0x80) != 0)
    let r := (sar8_step highBit)^[shift] (val, f)
    let f := if shift = 1 then { r.2 with fOverflow := false } else r.2
    (r.1, set_PZS16 f r.1)

/-! ## Logical primitives and the immediate-arithmetic group -/

/-- Modelled from the spec: `reset_carry_overflow` (declared in `i8086.hxx`) clears C
and O. -/
def reset_carry_overflow (f : Flags) : Flags := { f with fCarry := false, fOverflow := false }

/-- Embedding of `i8086::op_and16`. -/
def op_and16 (f : Flags) (lhs rhs : Nat) : Nat × Flags :=
  let lhs := (lhs &&& rhs) % 0x10000
  (lhs, reset_carry_overflow (set_PZS16 f lhs))

/-- Embedding of `i8086::op_and8`. -/
def op_and8 (f : Flags) (lhs rhs : Nat) : Nat × Flags :=
  let lhs := (lhs &&& rhs) % 0x100
  (lhs, reset_carry_overflow (set_PZS8 f lhs))

/-- Embedding of `i8086::op_or16`. -/
def op_or16 (f : Flags) (lhs rhs : Nat) : Nat × Flags :=
  let lhs := (lhs ||| rhs) % 0x10000
  (lhs, reset_carry_overflow (set_PZS16 f lhs))

/-- Embedding of `i8086::op_xor16`. -/
def op_xor16 (f : Flags) (lhs rhs : Nat) : Nat × Flags :=
  let lhs := (lhs ^^^ rhs) % 0x10000
  (lhs, reset_carry_overflow (set_PZS16 f lhs))

/-- Embedding of `i8086::op_or8`. -/
def op_or8 (f : Flags) (lhs rhs : Nat) : Nat × Flags :=
  let lhs := (lhs ||| rhs) % 0x100
  (lhs, reset_carry_overflow (set_PZS8 f lhs))

/-- Embedding of `i8086::op_xor8`. -/
def op_xor8 (f : Flags) (lhs rhs : Nat) : Nat × Flags :=
  let lhs := (lhs ^^^ rhs) % 0x100
  (lhs, reset_carry_overflow (set_PZS8 f lhs))

/-- Embedding of `i8086::do_math8`: the byte at `*psrc` after the call and the flags.
`op_add8` and `op_sub8` called with two arguments take the default `false` for the
carry or borrow.  `math` is at most 7 (the source asserts it). -/
def do_math8 (math : Nat) (f : Flags) (src rhs : Nat) : Nat × Flags :=
  if math = 0 then op_add8 f src rhs false
  else if math = 1 then op_or8 f src rhs
  else if math = 2 then op_add8 f src rhs f.fCarry
  else if math = 3 then op_sub8 f src rhs f.fCarry
  else if math = 4 then op_and8 f src rhs
  else if math = 5 then op_sub8 f src rhs false
  else if math = 6 then op_xor8 f src rhs
  else (src, (op_sub8 f src rhs false).2)

/-- Embedding of `i8086::do_math16`: the word at `*psrc` after the call and the flags.
For `6 == math` the source calls `op_xor16` without assigning its result. -/
def do_math16 (math : Nat) (f : Flags) (src rhs : Nat) : Nat × Flags :=
  if math = 0 then op_add16 f src rhs false
  else if math = 1 then op_or16 f src rhs
  else if math = 2 then op_add16 f src rhs f.fCarry
  else if math = 3 then op_sub16 f src rhs f.fCarry
  else if math = 4 then op_and16 f src rhs
  else if math = 5 then op_sub16 f src rhs false
  else if math = 6 then (src, (op_xor16 f src rhs).2)
  else (src, (op_sub16 f src rhs false).2)

/-! ## Machine state -/

/-- The `i8086` object (registers, flags, prefix tags and the decoder's scratch
members), together with the two globals the interpreter touches: the `memory` array
and `g_State`.  Memory is a total map from linear addresses to bytes; the source array
has `1024 * 1024` entries and accesses are unchecked. -/
structure Cpu where
  ax : Nat
  bx : Nat
  cx : Nat
  dx : Nat
  si : Nat
  di : Nat
  bp : Nat
  sp : Nat
  ip : Nat
  es : Nat
  cs : Nat
  ss : Nat
  ds : Nat
  f : Flags
  last_interrupt : Nat
  prefix_segment_override : Nat
  prefix_repeat_opcode : Nat
  _pcode : Nat
  _bc : Nat
  _b0 : Nat
  _b1 : Nat
  _b12 : Nat
  _mod : Nat
  _reg : Nat
  _rm : Nat
  _isword : Bool
  memory : Nat → Nat
  g_State : Nat

/-- The constant `stateTraceInstructions`. -/
def stateTraceInstructions : Nat := 1

/-- The constant `stateEndEmulation`. -/
def stateEndEmulation : Nat := 2

/-- Read of a `uint8_t` cell of the memory array. -/
def read8 (m : Nat → Nat) (a : Nat) : Nat := m a % 0x100

/-- Read of a `uint16_t` through a pointer into the memory array (little-endian). -/
def read16 (m : Nat → Nat) (a : Nat) : Nat := read8 m a + 0x100 * read8 m (a + 1)

/-- Store of a `uint8_t` into the memory array. -/
def write8 (m : Nat → Nat) (a v : Nat) : Nat → Nat :=
  fun x => if x = a then v % 0x100 else m x

/-- Store of a `uint16_t` through a pointer into the memory array (little-endian). -/
def write16 (m : Nat → Nat) (a v : Nat) : Nat → Nat :=
  write8 (write8 m a (v % 0x100)) (a + 1) (v / 0x100 % 0x100)

/-- Modelled from the spec: `flatten` (declared in `i8086.hxx`) gives the linear
address `seg*16 + offset`; for a 16-bit segment and offset the sum is below `2^21`,
so 32-bit arithmetic does not wrap. -/
def flatten (seg off : Nat) : Nat := seg * 16 + off

/-- Modelled from the spec: `flat_ip` (declared in `i8086.hxx`) is the linear address
of CS:IP. -/
def flat_ip (s : Cpu) : Nat := flatten s.cs s.ip

/-- Modelled from the spec: `get_seg_value` (declared in `i8086.hxx`) returns the
default segment unless a segment-override prefix is pending, in which case the
overriding segment register replaces it.  The tags are the ones the prefix handlers of
`emulate` store: 0 = ES, 1 = CS, 2 = SS, 3 = DS, 0xff = none. -/
def get_seg_value (s : Cpu) (default_value : Nat) : Nat :=
  if s.prefix_segment_override = 0xff then default_value
  else if s.prefix_segment_override = 0 then s.es
  else if s.prefix_segment_override = 1 then s.cs
  else if s.prefix_segment_override = 2 then s.ss
  else s.ds

/-- Modelled from the spec: `al()` (declared in `i8086.hxx`) is the low byte of AX. -/
def al (s : Cpu) : Nat := s.ax &&& 0xff

/-- Modelled from the spec: `set_al` (declared in `i8086.hxx`) replaces the low byte
of AX and leaves AH unchanged. -/
def set_al (s : Cpu) (v : Nat) : Cpu :=
  { s with ax := ((s.ax &&& 0xff00) ||| (v % 0x100)) % 0x10000 }

/-- Modelled from the spec: `decode_instruction` (declared in `i8086.hxx`) reads the
opcode byte, the following byte and little-endian word, the ModR/M fields and the
word bit, and starts the byte count at the length of the opcode byte itself (the
one-byte handlers of `emulate` leave `_bc` alone, the others add to it). -/
def decode_instruction (s : Cpu) (pcode : Nat) : Cpu :=
  let b0 := read8 s.memory pcode
  let b1 := read8 s.memory (pcode + 1)
  { s with _pcode := pcode,
           _bc := 1,
           _b0 := b0,
           _b1 := b1,
           _b12 := b1 + 0x100 * read8 s.memory (pcode + 2),
           _mod := b1 >>> 6,
           _reg := (b1 >>> 3) &&& 7,
           _rm := b1 &&& 7,
           _isword := ((b0 &&& 1) != 0) }

/-- The statement `x--` on a `uint16_t`. -/
def dec16 (x : Nat) : Nat := (x + 0xffff) % 0x10000

/-- The statement `x++` on a `uint16_t`. -/
def inc16 (x : Nat) : Nat := (x + 1) % 0x10000

/-- The statement `x -= 2` on a `uint16_t`. -/
def dec16by2 (x : Nat) : Nat := (x + 0xfffe) % 0x10000

/-- The statement `x += 2` on a `uint16_t`. -/
def inc16by2 (x : Nat) : Nat := (x + 2) % 0x10000

/-! ## String primitives -/

/-- Embedding of `i8086::update_rep_sidi16`. -/
def update_rep_sidi16 (s : Cpu) : Cpu :=
  if s.f.fDirection then { s with si := dec16by2 s.si, di := dec16by2 s.di }
  else { s with si := inc16by2 s.si, di := inc16by2 s.di }

/-- Embedding of `i8086::update_rep_sidi8`. -/
def update_rep_sidi8 (s : Cpu) : Cpu :=
  if s.f.fDirection then { s with si := dec16 s.si, di := dec16 s.di }
  else { s with si := inc16 s.si, di := inc16 s.di }

/-- Embedding of `i8086::op_cmps16`. -/
def op_cmps16 (s : Cpu) : Cpu :=
  let r := op_sub16 s.f (read16 s.memory (flatten (get_seg_value s s.ds) s.si))
    (read16 s.memory (flatten s.es s.di)) false
  update_rep_sidi16 { s with f := r.2 }

/-- Embedding of `i8086::op_cmps8`. -/
def op_cmps8 (s : Cpu) : Cpu :=
  let r := op_sub8 s.f (read8 s.memory (flatten (get_seg_value s s.ds) s.si))
    (read8 s.memory (flatten s.es s.di)) false
  update_rep_sidi8 { s with f := r.2 }

/-- Embedding of `i8086::op_movs16`. -/
def op_movs16 (s : Cpu) : Cpu :=
  let v := read16 s.memory (flatten (get_seg_value s s.ds) s.si)
  update_rep_sidi16 { s with memory := write16 s.memory (flatten s.es s.di) v }

/-- Embedding of `i8086::op_movs8`. -/
def op_movs8 (s : Cpu) : Cpu :=
  let v := read8 s.memory (flatten (get_seg_value s s.ds) s.si)
  update_rep_sidi8 { s with memory := write8 s.memory (flatten s.es s.di) v }

/-- Embedding of `i8086::op_sto16`. -/
def op_sto16 (s : Cpu) : Cpu :=
  let s := { s with memory := write16 s.memory (flatten s.es s.di) s.ax }
  if s.f.fDirection then { s with di := dec16by2 s.di } else { s with di := inc16by2 s.di }

/-- Embedding of `i8086::op_sto8`. -/
def op_sto8 (s : Cpu) : Cpu :=
  let s := { s with memory := write8 s.memory (flatten s.es s.di) (al s) }
  if s.f.fDirection then { s with di := dec16 s.di } else { s with di := inc16 s.di }

/-- Embedding of `i8086::op_lods16`. -/
def op_lods16 (s : Cpu) : Cpu :=
  let s := { s with ax := read16 s.memory (flatten (get_seg_value s s.ds) s.si) }
  if s.f.fDirection then { s with si := dec16by2 s.si } else { s with si := inc16by2 s.si }

/-- Embedding of `i8086::op_lods8`. -/
def op_lods8 (s : Cpu) : Cpu :=
  let s := set_al s (read8 s.memory (flatten (get_seg_value s s.ds) s.si))
  if s.f.fDirection then { s with si := dec16 s.si } else { s with si := inc16 s.si }

/-- Embedding of `i8086::op_scas16`. -/
def op_scas16 (s : Cpu) : Cpu :=
  let r := op_sub16 s.f s.ax (read16 s.memory (flatten (get_seg_value s s.es) s.di)) false
  let s := { s with f := r.2 }
  if s.f.fDirection then { s with di := dec16by2 s.di } else { s with di := inc16by2 s.di }

/-- Embedding of `i8086::op_scas8`. -/
def op_scas8 (s : Cpu) : Cpu :=
  let r := op_sub8 s.f (al s) (read8 s.memory (flatten (get_seg_value s s.es) s.di)) false
  let s := { s with f := r.2 }
  if s.f.fDirection then { s with di := dec16 s.di } else { s with di := inc16 s.di }

/-! ## The execution loop -/

/-- The host callbacks `emulate` calls, and the handlers of the opcodes that are not
embedded below.  `other` receives the decoded state of an opcode that is none of the
prefix bytes and not `HLT`, and returns the state with which control is back at the
loop head (after the handler's `continue`, or after its `break` and `ip += _bc`), or
`none` when the process ends (`exit( 1 )` on an unhandled instruction). -/
structure Host where
  i8086_invoke_halt : Cpu → Cpu
  other : Cpu → Option Cpu

/-- Where control goes after the `switch` of one pass through the loop body:
`loop_head` after a `continue`, or after a `break` and the closing `ip += _bc`;
`prefix_seen` after `goto _after_prefix`; `all_done` after `goto _all_done`;
`exit_process` after `exit( 1 )`. -/
inductive Outcome where
  | loop_head (s : Cpu)
  | prefix_seen (s : Cpu)
  | all_done (s : Cpu)
  | exit_process

/-- The statement `cx--`. -/
def dec_cx (s : Cpu) : Cpu := { s with cx := dec16 s.cx }

/-- The loop `while ( 0 != cx ) { prim(); cx--; }` of the MOVS, STOS and LODS
handlers.  The first argument bounds the number of iterations; the handlers pass the
value of CX, which no string primitive changes, so the loop ends by its own test
`0 != cx` and never by the bound (`rep_loop_cx`). -/
def rep_loop (prim : Cpu → Cpu) : Nat → Cpu → Cpu
  | 0, s => s
  | fuel + 1, s => if s.cx = 0 then s else rep_loop prim fuel (dec_cx (prim s))

/-- The loop `while ( 0 != cx ) { prim(); cx--; if ( fZero ) break; }` (`z = true`,
prefix 0xf2) or `... if ( !fZero ) break; }` (`z = false`, prefix 0xf3) of the CMPS and
SCAS handlers, bounded like `rep_loop` (`rep_loop_break_count`). -/
def rep_loop_break (prim : Cpu → Cpu) (z : Bool) : Nat → Cpu → Cpu
  | 0, s => s
  | fuel + 1, s =>
    if s.cx = 0 then s
    else
      let s1 := dec_cx (prim s)
      if s1.f.fZero = z then s1 else rep_loop_break prim z fuel s1

/-- The handlers `case 0xa4`, `0xa5`, `0xaa`, `0xab`, `0xac`, `0xad`: MOVS, STOS and
LODS repeat until CX is zero under either repeat prefix. -/
def case_rep_string (prim : Cpu → Cpu) (s : Cpu) : Cpu :=
  if s.prefix_repeat_opcode = 0xf3 ∨ s.prefix_repeat_opcode = 0xf2 then rep_loop prim s.cx s
  else prim s

/-- The handlers `case 0xa6`, `0xa7`, `0xae`, `0xaf`: CMPS and SCAS repeat with a break
on the zero flag. -/
def case_rep_compare (prim : Cpu → Cpu) (s : Cpu) : Cpu :=
  if s.prefix_repeat_opcode = 0xf2 then rep_loop_break prim true s.cx s
  else if s.prefix_repeat_opcode = 0xf3 then rep_loop_break prim false s.cx s
  else prim s

/-- The cast `(int) (char) b` (and `(int16_t) (int8_t) b`) of a byte, `char` being
signed on the x86 targets of the source. -/
def sext8 (b : Nat) : Int := if b % 0x100 < 0x80 then (b % 0x100 : Int) else (b % 0x100 : Int) - 0x100

/-- The statement `ip += d` for a signed `d` on the `uint16_t` IP. -/
def ip_add (ip : Nat) (d : Int) : Nat := (((ip : Int) + d) % 0x10000).toNat

/-- The statement `ip += _bc` that ends every pass that leaves the `switch` by
`break`. -/
def advance_ip (s : Cpu) : Cpu := { s with ip := (s.ip + s._bc) % 0x10000 }

/-- The inner `switch( jmp )` of the conditional jumps. -/
def takejmp (jmp : Nat) (f : Flags) : Bool :=
  match jmp with
  | 0 => f.fOverflow
  | 1 => !f.fOverflow
  | 2 => f.fCarry
  | 3 => !f.fCarry
  | 4 => f.fZero
  | 5 => !f.fZero
  | 6 => f.fCarry || f.fZero
  | 7 => !f.fCarry && !f.fZero
  | 8 => f.fSign
  | 9 => !f.fSign
  | 10 => f.fParityEven
  | 11 => !f.fParityEven
  | 12 => (f.fSign != f.fOverflow)
  | 13 => (f.fSign == f.fOverflow)
  | 14 => f.fZero || (f.fSign != f.fOverflow)
  | 15 => !f.fZero && (f.fSign == f.fOverflow)
  | _ => false

/-- The branch `_b0 >= 0x70 && _b0 <= 0x7f` of `emulate`: conditional short jumps. -/
def jcc (s : Cpu) : Outcome :=
  let s := { s with _bc := 2 }
  let jmp := s._b0 &&& 0xf
  if takejmp jmp s.f then
    Outcome.loop_head { s with ip := ip_add s.ip (2 + sext8 s._b1) }
  else
    Outcome.loop_head (advance_ip s)

/-! ## Registers, operands, stack and flags word -/

/-- Modelled from the spec: `ah()` (declared in `i8086.hxx`) is the high byte of AX. -/
def ah (s : Cpu) : Nat := s.ax / 0x100 % 0x100

/-- Modelled from the spec: `set_ah` (declared in `i8086.hxx`) replaces the high byte of
AX and leaves AL unchanged. -/
def set_ah (s : Cpu) (v : Nat) : Cpu :=
  { s with ax := (v % 0x100) * 0x100 + s.ax % 0x100 }

/-- What a pointer returned by `get_preg8`, `get_preg16` or `get_rm_ptr` points to: a
byte register, a word register, or a cell of the memory array. -/
inductive Ptr where
  | reg8 (i : Nat)
  | reg16 (i : Nat)
  | mem (a : Nat)

/-- Modelled from the spec: the byte registers in the order of the `reg` and `rm`
fields: AL, CL, DL, BL, AH, CH, DH, BH. -/
def reg8_value (s : Cpu) (i : Nat) : Nat :=
  match i with
  | 0 => s.ax % 0x100
  | 1 => s.cx % 0x100
  | 2 => s.dx % 0x100
  | 3 => s.bx % 0x100
  | 4 => s.ax / 0x100 % 0x100
  | 5 => s.cx / 0x100 % 0x100
  | 6 => s.dx / 0x100 % 0x100
  | _ => s.bx / 0x100 % 0x100

/-- Modelled from the spec: the word registers in the order of the `reg` and `rm`
fields: AX, CX, DX, BX, SP, BP, SI, DI. -/
def reg16_value (s : Cpu) (i : Nat) : Nat :=
  match i with
  | 0 => s.ax
  | 1 => s.cx
  | 2 => s.dx
  | 3 => s.bx
  | 4 => s.sp
  | 5 => s.bp
  | 6 => s.si
  | _ => s.di

/-- Modelled from the spec: `get_preg8` (declared in `i8086.hxx`) points to the byte
register with the given index. -/
def get_preg8 (i : Nat) : Ptr := Ptr.reg8 i

/-- Modelled from the spec: `get_preg16` (declared in `i8086.hxx`) points to the word
register with the given index. -/
def get_preg16 (i : Nat) : Ptr := Ptr.reg16 i

/-- The expression `* (uint8_t *) p`.  Through a pointer to a word register it reads
the low byte (the host is little-endian). -/
def load8 (s : Cpu) (p : Ptr) : Nat :=
  match p with
  | Ptr.reg8 i => reg8_value s i
  | Ptr.reg16 i => reg16_value s i % 0x100
  | Ptr.mem a => read8 s.memory a

/-- The expression `* (uint16_t *) p`.  No handler embedded here reads a word through
a pointer to a byte register; for such a pointer only the addressed byte is returned. -/
def load16 (s : Cpu) (p : Ptr) : Nat :=
  match p with
  | Ptr.reg8 i => reg8_value s i
  | Ptr.reg16 i => reg16_value s i
  | Ptr.mem a => read16 s.memory a

/-- Modelled from the spec: the base and index registers selected by `rm` when
`mod` is not 3: BX+SI, BX+DI, BP+SI, BP+DI, SI, DI, BP, BX. -/
def rm_base (s : Cpu) (rm : Nat) : Nat :=
  match rm with
  | 0 => s.bx + s.si
  | 1 => s.bx + s.di
  | 2 => s.bp + s.si
  | 3 => s.bp + s.di
  | 4 => s.si
  | 5 => s.di
  | 6 => s.bp
  | _ => s.bx

/-- Modelled from the spec: the number of displacement bytes that follow the ModR/M
byte: 2 for `[disp16]` (mod 0, rm 6) and for mod 2, 1 for mod 1, none otherwise. -/
def displacement_bytes (s : Cpu) (rm : Nat) : Nat :=
  if s._mod = 0 ∧ rm = 6 then 2
  else if s._mod = 1 then 1
  else if s._mod = 2 then 2
  else 0

/-- Modelled from the spec: `get_rm_ea` (declared in `i8086.hxx`) gives the 16-bit
effective-address offset of a memory operand: base and index by `rm`, plus a
sign-extended byte displacement (mod 1) or a word displacement (mod 2), or the direct
16-bit offset (mod 0, rm 6). -/
def get_rm_ea (s : Cpu) (rm : Nat) : Nat :=
  if s._mod = 0 ∧ rm = 6 then read16 s.memory (s._pcode + 2)
  else if s._mod = 1 then ip_add (rm_base s rm) (sext8 (read8 s.memory (s._pcode + 2)))
  else if s._mod = 2 then (rm_base s rm + read16 s.memory (s._pcode + 2)) % 0x10000
  else rm_base s rm % 0x10000

/-- Modelled from the spec: the default segment of a memory operand is DS, except
when the base register is BP, in which case it is SS. -/
def rm_default_segment (s : Cpu) (rm : Nat) : Nat :=
  if rm = 2 ∨ rm = 3 ∨ (rm = 6 ∧ s._mod ≠ 0) then s.ss else s.ds

/-- Modelled from the spec: `get_rm_ptr` (declared in `i8086.hxx`) resolves the r/m
operand: for mod 3 the byte or word register `rm` (per `_isword`), otherwise the cell
at the effective address in the default or overriding segment.  It adds the
displacement bytes it consumes to `_bc` (the handlers of `emulate` read an immediate
that follows the operand at `_pcode[ _bc ]`); the second component is the state with
that `_bc`. -/
def get_rm_ptr (s : Cpu) (rm : Nat) : Ptr × Cpu :=
  (if s._mod = 3 then (if s._isword then Ptr.reg16 rm else Ptr.reg8 rm)
    else Ptr.mem (flatten (get_seg_value s (rm_default_segment s rm)) (get_rm_ea s rm)),
    { s with _bc := s._bc + displacement_bytes s rm })

/-- Modelled from the spec: `push` (declared in `i8086.hxx`) decreases SP by 2 and
stores the word at SS:SP. -/
def push (s : Cpu) (val : Nat) : Cpu :=
  { s with sp := dec16by2 s.sp,
           memory := write16 s.memory (flatten s.ss (dec16by2 s.sp)) (val % 0x10000) }

/-- Modelled from the spec: `pop` (declared in `i8086.hxx`) reads the word at SS:SP and
increases SP by 2. -/
def pop (s : Cpu) : Nat × Cpu :=
  (read16 s.memory (flatten s.ss s.sp), { s with sp := inc16by2 s.sp })

/-- Modelled from the spec: `materializeFlags` (declared in `i8086.hxx`) forms the
16-bit FLAGS word: C bit 0, bit 1 set, P bit 2, A bit 4, Z bit 6, S bit 7, T bit 8,
I bit 9, D bit 10, O bit 11, bits 12..15 set.  The source keeps the word in the member
`flags`, which every user writes immediately before reading; here it is passed as a
value. -/
def materializeFlags (f : Flags) : Nat :=
  0xf002 + f.fCarry.toNat + 0x4 * f.fParityEven.toNat + 0x10 * f.fAuxCarry.toNat +
    0x40 * f.fZero.toNat + 0x80 * f.fSign.toNat + 0x100 * f.fTrap.toNat +
    0x200 * f.fInterrupt.toNat + 0x400 * f.fDirection.toNat + 0x800 * f.fOverflow.toNat

/-- Modelled from the spec: `unmaterializeFlags` (declared in `i8086.hxx`) decomposes
the low 12 bits of the FLAGS word into the nine flag booleans. -/
def unmaterializeFlags (w : Nat) : Flags :=
  { fCarry := w.testBit 0,
    fParityEven := w.testBit 2,
    fAuxCarry := w.testBit 4,
    fZero := w.testBit 6,
    fSign := w.testBit 7,
    fTrap := w.testBit 8,
    fInterrupt := w.testBit 9,
    fDirection := w.testBit 10,
    fOverflow := w.testBit 11 }

/-- Conversion of a C `int` to `uint8_t`. -/
def to_u8 (x : Int) : Nat := (x % 0x100).toNat

/-- Conversion of a C `int` to `uint16_t`. -/
def to_u16 (x : Int) : Nat := (x % 0x10000).toNat

/-- The cast `(int32_t) x` of a `uint32_t`. -/
def signed32 (x : Nat) : Int :=
  if x < 0x80000000 then (x : Int) else (x : Int) - 0x100000000

/-! ## Far call, far return, interrupt and interrupt return -/

/-- The handler `case 0x9a` (call far proc), up to its `continue`. -/
def case_9a (s : Cpu) : Cpu :=
  let s := push s s.cs
  let s := push s (s.ip + 5)
  let s := { s with ip := s._b12 }
  { s with cs := (read8 s.memory (s._pcode + 3) ||| (read8 s.memory (s._pcode + 4) <<< 8)) % 0x10000 }

/-- The handler `case 0xcb` (retf), up to its `continue`. -/
def case_cb (s : Cpu) : Cpu :=
  let r := pop s
  let s := { r.2 with ip := r.1 }
  let r := pop s
  { r.2 with cs := r.1 }

/-- The handler `case 0xcd` (int), up to its `continue`.  `vectorItem` is computed
before the pushes and dereferenced after them. -/
def case_cd (s : Cpu) : Cpu :=
  let s := { s with last_interrupt := s._b1 }
  let vectorItem := 4 * s._b1
  let s := push s (materializeFlags s.f)
  let s := push s s.cs
  let s := push s (s.ip + 2)
  let s := { s with ip := read16 s.memory vectorItem }
  { s with cs := read16 s.memory (vectorItem + 2) }

/-- The handler `case 0xcf` (iret), up to its `continue`. -/
def case_cf (s : Cpu) : Cpu :=
  let r := pop s
  let s := { r.2 with ip := r.1 }
  let r := pop s
  let s := { r.2 with cs := r.1 }
  let r := pop s
  { r.2 with f := unmaterializeFlags r.1 }

/-! ## Multiplication and division (opcodes 0xf6 and 0xf7) -/

/-- The branch `4 == _reg` of `case 0xf6`: mul, `ax = al * r/m8`. -/
def mul_rm8 (s : Cpu) : Cpu :=
  let r := get_rm_ptr s s._rm
  let rhs := load8 r.2 r.1
  let s := { r.2 with ax := (al r.2 * rhs) % 0x10000 }
  let s := { s with f := set_PZS16 s.f s.ax }
  { s with f := { s.f with fCarry := false, fOverflow := false } }

/-- The branch `5 == _reg` of `case 0xf6`: imul.  The operands are the `uint8_t`
values `al()` and `rhs` cast to `int16_t`, so the product is that of two numbers in
0..255. -/
def imul_rm8 (s : Cpu) : Cpu :=
  let r := get_rm_ptr s s._rm
  let rhs := load8 r.2 r.1
  let result := (al r.2 * rhs) % 0x100000000
  let s := { r.2 with ax := (result &&& 0xffff) % 0x10000 }
  let s := { s with f := set_PZS16 s.f s.ax }
  let result := result &&& 0xffff8000
  let c := (result != 0) && (result != 0xffff8000)
  { s with f := { s.f with fCarry := c, fOverflow := c } }

/-- The body of `if ( 0 != rhs )` in the branch `6 == _reg` of `case 0xf6`. -/
def div_rm8_body (s : Cpu) (rhs : Nat) : Cpu :=
  let lhs := s.ax % 0x10000
  let s := set_al s ((lhs / rhs) % 0x100)
  let s := set_ah s (lhs % rhs)
  { s with f := set_PZS8 s.f (al s) }

/-- The branch `6 == _reg` of `case 0xf6`: div.  The divisor is read through
`get_preg8( _rm )`. -/
def div_rm8 (s : Cpu) : Cpu :=
  let rhs := load8 s (get_preg8 s._rm)
  if rhs ≠ 0 then div_rm8_body s rhs else s

/-- The branch `7 == _reg` of `case 0xf6`: idiv.  The dividend is `(int16_t) ax`, the
divisor the `uint8_t` operand cast to `int16_t`.  There is no test for a zero divisor:
the division is then undefined in the source and the result is `none`. -/
def idiv_rm8 (s : Cpu) : Option Cpu :=
  let r := get_rm_ptr s s._rm
  let rhs := load8 r.2 r.1
  let lhs := signed16 (r.2.ax % 0x10000)
  if rhs = 0 then none
  else
    let s := set_al r.2 (to_u8 (lhs.tdiv (rhs : Int)) &&& 0xff)
    let s := set_ah s (to_u8 (lhs.tmod (rhs : Int)))
    some { s with f := set_PZS8 s.f (al s) }

/-- The branches `4 == _reg` .. `7 == _reg` of `case 0xf6`, after the leading `_bc++`.
The branches for TEST, NOT and NEG (`_reg` 0, 2, 3) and the failing assertion
(`_reg` 1) are not embedded: those instructions are handed to `Host.other`. -/
def case_f6 (h : Host) (s : Cpu) : Outcome :=
  if s._reg = 4 then Outcome.loop_head (advance_ip (mul_rm8 { s with _bc := s._bc + 1 }))
  else if s._reg = 5 then Outcome.loop_head (advance_ip (imul_rm8 { s with _bc := s._bc + 1 }))
  else if s._reg = 6 then Outcome.loop_head (advance_ip (div_rm8 { s with _bc := s._bc + 1 }))
  else if s._reg = 7 then
    match idiv_rm8 { s with _bc := s._bc + 1 } with
    | some t => Outcome.loop_head (advance_ip t)
    | none => Outcome.exit_process
  else
    match h.other s with
    | some s1 => Outcome.loop_head s1
    | none => Outcome.exit_process

/-- The branch `4 == _reg` of `case 0xf7`: mul, `dx:ax = ax * src`. -/
def mul_rm16 (s : Cpu) : Cpu :=
  let r := get_rm_ptr s s._rm
  let rhs := load16 r.2 r.1
  let result := (r.2.ax * rhs) % 0x100000000
  let s := { r.2 with dx := (result >>> 16) % 0x10000 }
  let s := { s with ax := (result &&& 0xffff) % 0x10000 }
  let s := { s with f := set_PZS16 s.f s.ax }
  let c := decide (result > 0xffff)
  { s with f := { s.f with fCarry := c, fOverflow := c } }

/-- The branch `5 == _reg` of `case 0xf7`: imul.  The operands are the `uint16_t`
values `ax` and `rhs` cast to `int32_t`, so the product is that of two numbers in
0..65535, stored into a `uint32_t` (a product above `2^31 - 1` overflows `int32_t` in
the source; it is taken modulo `2^32`, as the compilers of its targets produce). -/
def imul_rm16 (s : Cpu) : Cpu :=
  let r := get_rm_ptr s s._rm
  let rhs := load16 r.2 r.1
  let result := (r.2.ax * rhs) % 0x100000000
  let s := { r.2 with dx := (result >>> 16) % 0x10000 }
  let s := { s with ax := (result &&& 0xffff) % 0x10000 }
  let s := { s with f := set_PZS16 s.f s.ax }
  let result := result &&& 0xffff8000
  let c := (result != 0) && (result != 0xffff8000)
  { s with f := { s.f with fCarry := c, fOverflow := c } }

/-- The body of `if ( 0 != rhs )` in the branch `6 == _reg` of `case 0xf7`. -/
def div_rm16_body (s : Cpu) (rhs : Nat) : Cpu :=
  let lhs := ((s.dx <<< 16) + s.ax) % 0x100000000
  let s := { s with ax := (lhs / rhs) % 0x10000 }
  let s := { s with dx := (lhs % rhs) % 0x10000 }
  { s with f := set_PZS16 s.f s.ax }

/-- The branch `6 == _reg` of `case 0xf7`: div, `dx:ax / src`. -/
def div_rm16 (s : Cpu) : Cpu :=
  let r := get_rm_ptr s s._rm
  let rhs := load16 r.2 r.1
  if rhs ≠ 0 then div_rm16_body r.2 rhs else r.2

/-- The branch `7 == _reg` of `case 0xf7`: idiv.  The quotient divides
`(int32_t) lhs` by `(int32_t) (int16_t) rhs`, the remainder by `(int32_t) rhs`, the
`uint16_t` operand without the cast to `int16_t`.  The quotient of `-2^31` by `-1`
overflows `int32_t`: the division is then undefined in the source and the result is
`none`. -/
def idiv_rm16 (s : Cpu) : Option Cpu :=
  let r := get_rm_ptr s s._rm
  let rhs := load16 r.2 r.1
  if rhs ≠ 0 then
    let lhs := ((r.2.dx <<< 16) + r.2.ax) % 0x100000000
    if signed32 lhs = -0x80000000 ∧ signed16 (rhs % 0x10000) = -1 then none
    else
      let s := { r.2 with ax := to_u16 ((signed32 lhs).tdiv (signed16 (rhs % 0x10000))) }
      let s := { s with dx := to_u16 ((signed32 lhs).tmod (rhs : Int)) }
      some { s with f := set_PZS16 s.f s.ax }
  else some r.2

/-- The branches `4 == _reg` .. `7 == _reg` of `case 0xf7`, after the leading `_bc++`.
The branches for TEST, NOT and NEG (`_reg` 0, 2, 3) and the failing assertion
(`_reg` 1) are not embedded: those instructions are handed to `Host.other`. -/
def case_f7 (h : Host) (s : Cpu) : Outcome :=
  if s._reg = 4 then Outcome.loop_head (advance_ip (mul_rm16 { s with _bc := s._bc + 1 }))
  else if s._reg = 5 then Outcome.loop_head (advance_ip (imul_rm16 { s with _bc := s._bc + 1 }))
  else if s._reg = 6 then Outcome.loop_head (advance_ip (div_rm16 { s with _bc := s._bc + 1 }))
  else if s._reg = 7 then
    match idiv_rm16 { s with _bc := s._bc + 1 } with
    | some t => Outcome.loop_head (advance_ip t)
    | none => Outcome.exit_process
  else
    match h.other s with
    | some s1 => Outcome.loop_head s1
    | none => Outcome.exit_process

/-! ## Decimal adjust and the AH flag transfers -/

/-- The handler `case 0x27` (daa), up to its `break`. -/
def case_27 (s : Cpu) : Cpu :=
  let loNibble := (al s &&& 0xf) % 0x100
  let toadd := if s.f.fAuxCarry ∨ loNibble > 9 then 6 else 0
  let carry := s.f.fCarry
  let hiNibble := (al s &&& 0xf0) % 0x100
  let adjust := hiNibble > 0x90 ∨ (hiNibble ≥ 0x90 ∧ loNibble > 0x9) ∨ carry = true
  let toadd := if adjust then (toadd ||| 0x60) % 0x100 else toadd
  let carry := if adjust then true else carry
  let r := op_add8 s.f (al s) toadd false
  let s := { set_al s r.1 with f := r.2 }
  { s with f := { s.f with fCarry := carry } }

/-- The handler `case 0x9e` (sahf), up to its `break`. -/
def case_9e (s : Cpu) : Cpu :=
  let fl := ah s
  let f := { s.f with fSign := ((fl &&& 0x80) != 0) }
  let f := { f with fZero := ((fl &&& 0x40) != 0) }
  let f := { f with fAuxCarry := ((fl &&& 0x20) != 0) }
  let f := { f with fParityEven := ((fl &&& 0x04) != 0) }
  let f := { f with fCarry := ((fl &&& 1) != 0) }
  { s with f := f }

/-- The handler `case 0x9f` (lahf), up to its `break`. -/
def case_9f (s : Cpu) : Cpu :=
  let fl := 0x02
  let fl := if s.f.fSign then fl ||| 0x80 else fl
  let fl := if s.f.fZero then fl ||| 0x40 else fl
  let fl := if s.f.fAuxCarry then fl ||| 0x10 else fl
  let fl := if s.f.fParityEven then fl ||| 0x04 else fl
  let fl := if s.f.fCarry then fl ||| 1 else fl
  set_ah s fl

/-- The dispatch on `_b0` of `emulate`, for a decoded instruction.  Embedded handlers:
the six prefix bytes, DAA, NOP, far CALL, SAHF, LAHF, the string opcodes 0xa4..0xa7 and
0xaa..0xaf, RETF, INT, IRET, HLT, the MUL, IMUL, DIV and IDIV branches of 0xf6 and
0xf7, and the conditional jumps; every other opcode is handed to `Host.other`, whose
handlers all end in `break` or `continue`. -/
def dispatch (h : Host) (s : Cpu) : Outcome :=
  if s._b0 = 0x26 then
    Outcome.prefix_seen { s with prefix_segment_override := 0, ip := inc16 s.ip }
  else if s._b0 = 0x27 then Outcome.loop_head (advance_ip (case_27 s))
  else if s._b0 = 0x2e then
    Outcome.prefix_seen { s with prefix_segment_override := 1, ip := inc16 s.ip }
  else if s._b0 = 0x36 then
    Outcome.prefix_seen { s with prefix_segment_override := 2, ip := inc16 s.ip }
  else if s._b0 = 0x3e then
    Outcome.prefix_seen { s with prefix_segment_override := 3, ip := inc16 s.ip }
  else if s._b0 = 0x90 then Outcome.loop_head (advance_ip s)
  else if s._b0 = 0x9a then Outcome.loop_head (case_9a s)
  else if s._b0 = 0x9e then Outcome.loop_head (advance_ip (case_9e s))
  else if s._b0 = 0x9f then Outcome.loop_head (advance_ip (case_9f s))
  else if s._b0 = 0xa4 then Outcome.loop_head (advance_ip (case_rep_string op_movs8 s))
  else if s._b0 = 0xa5 then Outcome.loop_head (advance_ip (case_rep_string op_movs16 s))
  else if s._b0 = 0xa6 then Outcome.loop_head (advance_ip (case_rep_compare op_cmps8 s))
  else if s._b0 = 0xa7 then Outcome.loop_head (advance_ip (case_rep_compare op_cmps16 s))
  else if s._b0 = 0xaa then Outcome.loop_head (advance_ip (case_rep_string op_sto8 s))
  else if s._b0 = 0xab then Outcome.loop_head (advance_ip (case_rep_string op_sto16 s))
  else if s._b0 = 0xac then Outcome.loop_head (advance_ip (case_rep_string op_lods8 s))
  else if s._b0 = 0xad then Outcome.loop_head (advance_ip (case_rep_string op_lods16 s))
  else if s._b0 = 0xae then Outcome.loop_head (advance_ip (case_rep_compare op_scas8 s))
  else if s._b0 = 0xaf then Outcome.loop_head (advance_ip (case_rep_compare op_scas16 s))
  else if s._b0 = 0xcb then Outcome.loop_head (case_cb s)
  else if s._b0 = 0xcd then Outcome.loop_head (case_cd s)
  else if s._b0 = 0xcf then Outcome.loop_head (case_cf s)
  else if s._b0 = 0xf2 then
    Outcome.prefix_seen { s with prefix_repeat_opcode := s._b0, ip := inc16 s.ip }
  else if s._b0 = 0xf3 then
    Outcome.prefix_seen { s with prefix_repeat_opcode := s._b0, ip := inc16 s.ip }
  else if s._b0 = 0xf4 then Outcome.all_done (h.i8086_invoke_halt s)
  else if s._b0 = 0xf6 then case_f6 h s
  else if s._b0 = 0xf7 then case_f7 h s
  else if 0x70 ≤ s._b0 ∧ s._b0 ≤ 0x7f then jcc s
  else
    match h.other s with
    | some s1 => Outcome.loop_head s1
    | none => Outcome.exit_process

/-- Fetch, decode and dispatch of the instruction at CS:IP: the part of the loop body
from `decode_instruction( memptr( flat_ip() ) )` to the end of the pass. -/
def exec (h : Host) (s : Cpu) : Outcome := dispatch h (decode_instruction s (flat_ip s))

/-- How a call of `emulate` ends. -/
inductive Run where
  | returned (cycles : Nat) (prefixes : Nat) (s : Cpu)
  | exited
  | out_of_fuel

/-- The two assignments at the top of the `while` body, which a pass entered at
`_after_prefix` skips. -/
def reset_prefixes (at_head : Bool) (s : Cpu) : Cpu :=
  if at_head then { s with prefix_segment_override := 0xff, prefix_repeat_opcode := 0xff }
  else s

/-- The test `0 != g_State` followed by `g_State & stateEndEmulation`. -/
def end_requested (s : Cpu) : Prop := s.g_State ≠ 0 ∧ s.g_State &&& stateEndEmulation ≠ 0

instance (s : Cpu) : Decidable (end_requested s) := by
  unfold end_requested
  exact inferInstance

/-- The statement `g_State &= ~stateEndEmulation` on the 32-bit `g_State`. -/
def clear_end_request (s : Cpu) : Cpu :=
  { s with g_State := s.g_State &&& (0xffffffff - stateEndEmulation) }

/-- Embedding of the loop of `i8086::emulate`.  `at_head = true` is the `while` test,
`at_head = false` is the label `_after_prefix`.  `fuel` bounds the number of passes
through `cycles++` (a code segment filled with prefix bytes never leaves the
`goto _after_prefix` cycle).  `prefixes` is a specification counter, not a variable of
the source: it counts the `goto _after_prefix` jumps taken.  The trace hook only
reads the state and is left out. -/
def emulate_from (h : Host) (maxcycles : Nat) : Nat → Bool → Cpu → Nat → Nat → Run
  | 0, _, _, _, _ => Run.out_of_fuel
  | fuel + 1, at_head, s, cycles, prefixes =>
    if at_head = true ∧ ¬ cycles < maxcycles then Run.returned cycles prefixes s
    else if end_requested (reset_prefixes at_head s) then
      Run.returned ((cycles + 1) % 0x10000000000000000) prefixes
        (clear_end_request (reset_prefixes at_head s))
    else
      match exec h (reset_prefixes at_head s) with
      | Outcome.loop_head s1 =>
        emulate_from h maxcycles fuel true s1 ((cycles + 1) % 0x10000000000000000) prefixes
      | Outcome.prefix_seen s1 =>
        emulate_from h maxcycles fuel false s1 ((cycles + 1) % 0x10000000000000000)
          (prefixes + 1)
      | Outcome.all_done s1 => Run.returned ((cycles + 1) % 0x10000000000000000) prefixes s1
      | Outcome.exit_process => Run.exited

/-- Embedding of `i8086::emulate`: the loop entered at the `while` test with
`cycles = 0`. -/
def emulate (h : Host) (maxcycles : Nat) (fuel : Nat) (s : Cpu) : Run :=
  emulate_from h maxcycles fuel true s 0 0

/-- The instructions decoded by the passes of `emulate_from`, in order: the state
right after each `decode_instruction( memptr( flat_ip() ) )`.  The list is a
specification log of the loop, not a variable of the source; it follows the loop of
`emulate_from` pass by pass. -/
def emulate_fetches (h : Host) (maxcycles : Nat) : Nat → Bool → Cpu → Nat → List Cpu
  | 0, _, _, _ => []
  | fuel + 1, at_head, s, cycles =>
    if at_head = true ∧ ¬ cycles < maxcycles then []
    else if end_requested (reset_prefixes at_head s) then []
    else
      decode_instruction (reset_prefixes at_head s) (flat_ip (reset_prefixes at_head s)) ::
        match exec h (reset_prefixes at_head s) with
        | Outcome.loop_head s1 =>
          emulate_fetches h maxcycles fuel true s1 ((cycles + 1) % 0x10000000000000000)
        | Outcome.prefix_seen s1 =>
          emulate_fetches h maxcycles fuel false s1 ((cycles + 1) % 0x10000000000000000)
        | Outcome.all_done _ => []
        | Outcome.exit_process => []

/-- The number of prefix bytes of the instruction that `emulate_from` executed last:
the `goto _after_prefix` jumps taken since the `while` test was last passed.  Like
`prefixes` it is a specification counter, not a variable of the source; the function
follows the loop of `emulate_from` pass by pass, with the counter `last` set to zero
where the body is entered through the `while` test and increased at each
`goto _after_prefix`. -/
def emulate_last_prefixes (h : Host) (maxcycles : Nat) : Nat → Bool → Cpu → Nat → Nat → Nat
  | 0, _, _, _, last => last
  | fuel + 1, at_head, s, cycles, last =>
    if at_head = true ∧ ¬ cycles < maxcycles then last
    else if end_requested (reset_prefixes at_head s) then (if at_head then 0 else last)
    else
      match exec h (reset_prefixes at_head s) with
      | Outcome.loop_head s1 =>
        emulate_last_prefixes h maxcycles fuel true s1 ((cycles + 1) % 0x10000000000000000)
          (if at_head then 0 else last)
      | Outcome.prefix_seen s1 =>
        emulate_last_prefixes h maxcycles fuel false s1 ((cycles + 1) % 0x10000000000000000)
          ((if at_head then 0 else last) + 1)
      | Outcome.all_done _ => if at_head then 0 else last
      | Outcome.exit_process => if at_head then 0 else last

/-- The number of prefix bytes of the last instruction executed by a call of
`emulate`. -/
def last_prefixes (h : Host) (maxcycles : Nat) (fuel : Nat) (s : Cpu) : Nat :=
  emulate_last_prefixes h maxcycles fuel true s 0 0

/-- One executed string primitive followed by `cx--`: the part of a repeat loop's
body before its break test. -/
def rep_step (prim : Cpu → Cpu) (s : Cpu) : Cpu := dec_cx (prim s)

/-! ## Specification-side definitions -/

/-- The string primitive of the CMPS and SCAS opcodes: 0xA6 CMPSB, 0xA7 CMPSW,
0xAE SCASB, 0xAF SCASW. -/
def compare_primitive (op : Nat) : Cpu → Cpu :=
  if op = 0xa6 then op_cmps8
  else if op = 0xa7 then op_cmps16
  else if op = 0xae then op_scas8
  else op_scas16


/-- The sixteen conditional-jump predicates as the specification lists them:
JO, JNO, JB, JNB, JZ, JNZ, JBE, JNBE, JS, JNS, JP, JNP, JL, JNL, JLE, JNLE. -/
def jcc_predicate (k : Nat) (f : Flags) : Prop :=
  (k = 0 ∧ f.fOverflow = true) ∨ (k = 1 ∧ f.fOverflow = false) ∨
  (k = 2 ∧ f.fCarry = true) ∨ (k = 3 ∧ f.fCarry = false) ∨
  (k = 4 ∧ f.fZero = true) ∨ (k = 5 ∧ f.fZero = false) ∨
  (k = 6 ∧ (f.fCarry = true ∨ f.fZero = true)) ∨
  (k = 7 ∧ f.fCarry = false ∧ f.fZero = false) ∨
  (k = 8 ∧ f.fSign = true) ∨ (k = 9 ∧ f.fSign = false) ∨
  (k = 10 ∧ f.fParityEven = true) ∨ (k = 11 ∧ f.fParityEven = false) ∨
  (k = 12 ∧ f.fSign ≠ f.fOverflow) ∨ (k = 13 ∧ f.fSign = f.fOverflow) ∨
  (k = 14 ∧ (f.fZero = true ∨ f.fSign ≠ f.fOverflow)) ∨
  (k = 15 ∧ f.fZero = false ∧ f.fSign = f.fOverflow)

/-- Two states agree on every register other than IP, on the flags, on the memory and
on `g_State`. -/
def same_but_ip (s t : Cpu) : Prop :=
  t.ax = s.ax ∧ t.bx = s.bx ∧ t.cx = s.cx ∧ t.dx = s.dx ∧ t.si = s.si ∧ t.di = s.di ∧
  t.bp = s.bp ∧ t.sp = s.sp ∧ t.es = s.es ∧ t.cs = s.cs ∧ t.ss = s.ss ∧ t.ds = s.ds ∧
  t.f = s.f ∧ t.last_interrupt = s.last_interrupt ∧
  t.prefix_segment_override = s.prefix_segment_override ∧
  t.prefix_repeat_opcode = s.prefix_repeat_opcode ∧ t.memory = s.memory ∧
  t.g_State = s.g_State

/-- The operand `* get_preg8( _rm )` of the instruction at CS:IP: the byte register
selected by the `rm` field of its ModR/M byte. -/
def preg8_operand (s : Cpu) : Nat :=
  load8 (decode_instruction s (flat_ip s)) (get_preg8 (decode_instruction s (flat_ip s))._rm)

/-- The operand `* (uint8_t *) get_rm_ptr( _rm )` of the instruction at CS:IP. -/
def rm8_operand (s : Cpu) : Nat :=
  load8 (decode_instruction s (flat_ip s))
    (get_rm_ptr (decode_instruction s (flat_ip s)) (decode_instruction s (flat_ip s))._rm).1

/-- The operand `* (uint16_t *) get_rm_ptr( _rm )` of the instruction at CS:IP. -/
def rm16_operand (s : Cpu) : Nat :=
  load16 (decode_instruction s (flat_ip s))
    (get_rm_ptr (decode_instruction s (flat_ip s)) (decode_instruction s (flat_ip s))._rm).1

/-- The length in bytes of an instruction made of an opcode byte, a ModR/M byte and
the displacement that the ModR/M byte calls for. -/
def modrm_length (s : Cpu) : Nat :=
  2 + displacement_bytes (decode_instruction s (flat_ip s)) (decode_instruction s (flat_ip s))._rm

/-- The `w`-bit value `v` rotated left by `m` bit positions (`m` at most `w`). -/
def rotate_left (w v m : Nat) : Nat := ((v <<< m) ||| (v >>> (w - m))) % 2 ^ w

/-- The `w`-bit value `v` rotated right by `m` bit positions (`m` at most `w`). -/
def rotate_right (w v m : Nat) : Nat := ((v >>> m) ||| (v <<< (w - m))) % 2 ^ w

/-- The `w + 1`-bit value `c:v` formed by the carry on top of a `w`-bit operand. -/
def with_carry (w : Nat) (c : Bool) (v : Nat) : Nat := c.toNat * 2 ^ w + v

/-- Addition of two words as a byte-wise carry chain: `op_add8` on the low bytes with
the carry-in, then `op_add8` on the high bytes with the carry produced by the first;
the result is high:low and the flags are those left by the second. -/
def add16_bytewise (f : Flags) (a b : Nat) (c : Bool) : Nat × Flags :=
  let lo := op_add8 f (a % 0x100) (b % 0x100) c
  let hi := op_add8 lo.2 (a / 0x100 % 0x100) (b / 0x100 % 0x100) lo.2.fCarry
  (hi.1 * 0x100 + lo.1, hi.2)

/-- Subtraction of two words as a byte-wise borrow chain: `op_sub8` on the low bytes
with the borrow-in, then `op_sub8` on the high bytes with the borrow produced by the
first; the result is high:low and the flags are those left by the second. -/
def sub16_bytewise (f : Flags) (a b : Nat) (c : Bool) : Nat × Flags :=
  let lo := op_sub8 f (a % 0x100) (b % 0x100) c
  let hi := op_sub8 lo.2 (a / 0x100 % 0x100) (b / 0x100 % 0x100) lo.2.fCarry
  (hi.1 * 0x100 + lo.1, hi.2)

/-- The byte is packed BCD: each nibble is at most 9. -/
def packed_bcd (a : Nat) : Prop := a < 0x100 ∧ a / 16 ≤ 9 ∧ a % 16 ≤ 9

/-- The number 0..99 that a packed-BCD byte encodes. -/
def bcd_value (a : Nat) : Nat := 10 * (a / 16) + a % 16

/-- The packed-BCD byte that encodes a number 0..99. -/
def bcd_encode (n : Nat) : Nat := 16 * (n / 10) + n % 10

/-- The state in which the DAA handler runs after `set_al( op_add8( a, b, c ) )`: AL
holds the sum and the flags are those left by `op_add8`. -/
def after_add8 (s : Cpu) (a b : Nat) (c : Bool) : Cpu :=
  { set_al s (op_add8 s.f a b c).1 with f := (op_add8 s.f a b c).2 }

/-! ## Concrete states used to instantiate the theorems -/

/-- All flags clear. -/
def flags0 : Flags := ⟨false, false, false, false, false, false, false, false, false⟩

/-- All registers zero, no prefix pending, memory zero. -/
def cpu0 : Cpu :=
  { ax := 0, bx := 0, cx := 0, dx := 0, si := 0, di := 0, bp := 0, sp := 0, ip := 0,
    es := 0, cs := 0, ss := 0, ds := 0, f := flags0, last_interrupt := 0,
    prefix_segment_override := 0xff, prefix_repeat_opcode := 0xff,
    _pcode := 0, _bc := 0, _b0 := 0, _b1 := 0, _b12 := 0, _mod := 0, _reg := 0, _rm := 0,
    _isword := false, memory := fun _ => 0, g_State := 0 }

/-- A host whose halt callback does nothing and that has no further opcode handlers. -/
def host0 : Host := ⟨fun s => s, fun _ => none⟩

/-- The memory `m` with the bytes of `l` stored from address `base` on. -/
def load (l : List Nat) (base : Nat) (m : Nat → Nat) : Nat → Nat :=
  fun a => if base ≤ a ∧ a < base + l.length then l.getD (a - base) 0 else m a

/-- The machine state with which a call of `emulate` returned (`cpu0` when it did not
return). -/
def Run.final : Run → Cpu
  | Run.returned _ _ s => s
  | Run.exited => cpu0
  | Run.out_of_fuel => cpu0

/-- The state before `JZ -2` (bytes 74 FE) at CS:IP = 0:0x10 with Z set. -/
def jz_state : Cpu :=
  { cpu0 with ip := 0x10, f := { flags0 with fZero := true }, memory := load [0x74, 0xfe] 0x10 (fun _ => 0) }

/-- The state of the specification's string-move scenario: DS = ES = 0, SI = 0x0100,
DI = 0x0200, CX = 4, D = 0, bytes DE AD BE EF at 0x0100 and the program F3 A4 F4
(REP MOVSB; HLT) at CS:IP = 0:0. -/
def rep_movsb_program : Cpu :=
  { cpu0 with si := 0x100, di := 0x200, cx := 4, memory := load [0xf3, 0xa4, 0xf4] 0 (load [0xde, 0xad, 0xbe, 0xef] 0x100 (fun _ => 0)) }

/-- The string-move scenario after its prefix byte F3 has been executed: IP = 1 and the
repeat prefix recorded. -/
def rep_movsb_pending : Cpu :=
  { rep_movsb_program with ip := 1, prefix_repeat_opcode := 0xf3 }

/-- The state before the CMPSB of F3 A6 (REPE CMPSB) at CS:IP = 0:0, the prefix F3
executed: CX = 4, the bytes 01 02 03 04 at DS:SI = 0:0x0100 and 01 02 09 04 at
ES:DI = 0:0x0200. -/
def repe_cmpsb_pending : Cpu :=
  { cpu0 with ip := 1, prefix_repeat_opcode := 0xf3, si := 0x100, di := 0x200, cx := 4, memory := load [0xf3, 0xa6, 0xf4] 0 (load [1, 2, 3, 4] 0x100 (load [1, 2, 9, 4] 0x200 (fun _ => 0))) }

/-- The pointer value the specification gives after one string primitive of operand
width `w` bytes: `x + w` modulo 65536 when D = 0, `x - w` modulo 65536 when D = 1. -/
def pointer_after (d : Bool) (w : Nat) (x : Nat) : Int :=
  if d then ((x : Int) - w) % 65536 else ((x : Int) + w) % 65536

/-- The state before the program 3E AE F4 (DS: SCASB; HLT) at CS:IP = 0:0: AL = 5,
ES = 0, DS = 0x10, DI = 0x20, the byte at ES:DI (linear 0x20) is 5 and the byte at
DS:DI (linear 0x120) is 7. -/
def scasb_override_program : Cpu :=
  { cpu0 with ax := 5, ds := 0x10, di := 0x20, memory := load [0x3e, 0xae, 0xf4] 0 (load [5] 0x20 (load [7] 0x120 (fun _ => 0))) }

/-- The linear address of the stack word `k` bytes below SS:SP, SP counted modulo
65536. -/
def stack_slot (s : Cpu) (k : Nat) : Nat := flatten s.ss ((s.sp + 0x10000 - k) % 0x10000)

/-- The state before INT 0x21 (bytes CD 21) at CS:IP = 0x10:0 with SS:SP = 0x20:0x100
and the flags I and T set; vector 0x21 (linear 0x84) holds 0x0030:0x0000 and the byte
at 0x0030:0x0000 is CF (IRET). -/
def int21_program : Cpu :=
  { cpu0 with cs := 0x10, ss := 0x20, sp := 0x100, f := { flags0 with fInterrupt := true, fTrap := true }, memory := load [0xcd, 0x21] 0x100 (load [0x00, 0x00, 0x30, 0x00] 0x84 (load [0xcf] 0x300 (fun _ => 0))) }

/-- The state before the far CALL 9A 10 00 34 12 (call 0x1234:0x0010) at
CS:IP = 0x10:0 with SS:SP = 0x20:0x100; the byte at 0x1234:0x0010 is CB (RETF) and
the byte after the CALL is F4 (HLT). -/
def far_call_program : Cpu :=
  { cpu0 with cs := 0x10, ss := 0x20, sp := 0x100, memory := load [0x9a, 0x10, 0x00, 0x34, 0x12, 0xf4] 0x100 (load [0xcb] 0x12350 (fun _ => 0)) }

/-- The state before the far CALL 9A 10 00 34 12 at CS:IP = 0:0 with SS:SP = 0:5, so
that the word pushed first lies on bytes 3 and 4 of the instruction; the byte at
0x1234:0x0010 is CB (RETF). -/
def far_call_on_stack : Cpu :=
  { cpu0 with sp := 5, memory := load [0x9a, 0x10, 0x00, 0x34, 0x12] 0 (load [0xcb] 0x12350 (fun _ => 0)) }

/-- The state before DIV BL (bytes F6 F3) at CS:IP = 0x10:0 with AX = 0x0100, BL = 0
and SS:SP = 0x20:0x100; vector 0 (linear 0) holds 0x0030:0x0008. -/
def div_bl_zero : Cpu :=
  { cpu0 with ax := 0x100, cs := 0x10, ss := 0x20, sp := 0x100, memory := load [0xf6, 0xf3, 0xf4] 0x100 (load [0x08, 0x00, 0x30, 0x00] 0 (fun _ => 0)) }

/-- The state before DIV BX (bytes F7 F3) at CS:IP = 0x10:0 with DX:AX = 0x0001:0x0000,
BX = 1 and SS:SP = 0x20:0x100: the quotient 0x10000 does not fit in 16 bits. -/
def div_bx_overflow : Cpu :=
  { cpu0 with dx := 1, bx := 1, cs := 0x10, ss := 0x20, sp := 0x100, memory := load [0xf7, 0xf3, 0xf4] 0x100 (load [0x08, 0x00, 0x30, 0x00] 0 (fun _ => 0)) }

/-- The state before IDIV BL (bytes F6 FB) at CS:IP = 0:0 with AX = 6 and BL = 0xFE
(the signed byte -2). -/
def idiv_bl_negative : Cpu :=
  { cpu0 with ax := 6, bx := 0xfe, memory := load [0xf6, 0xfb, 0xf4] 0 (fun _ => 0) }

/-- The state before IDIV BX (bytes F7 FB) at CS:IP = 0:0 with DX:AX = 0:7 and
BX = 0xFFFE (the signed word -2). -/
def idiv_bx_negative : Cpu :=
  { cpu0 with ax := 7, bx := 0xfffe, memory := load [0xf7, 0xfb, 0xf4] 0 (fun _ => 0) }

/-- The state before MUL BL (bytes F6 E3) at CS:IP = 0:0 with AL = 0x10 and
BL = 0x10. -/
def mul_bl_state : Cpu :=
  { cpu0 with ax := 0x10, bx := 0x10, memory := load [0xf6, 0xe3, 0xf4] 0 (fun _ => 0) }

/-- The state before IMUL BL (bytes F6 EB) at CS:IP = 0:0 with AL = 0xFF and
BL = 0xFF (both the signed byte -1). -/
def imul_bl_state : Cpu :=
  { cpu0 with ax := 0xff, bx := 0xff, memory := load [0xf6, 0xeb, 0xf4] 0 (fun _ => 0) }

/-- The state before IMUL BX (bytes F7 EB) at CS:IP = 0:0 with AX = 0xFFFF and
BX = 0xFFFF (both the signed word -1). -/
def imul_bx_state : Cpu :=
  { cpu0 with ax := 0xffff, bx := 0xffff, memory := load [0xf7, 0xeb, 0xf4] 0 (fun _ => 0) }

/-- The state before MUL word [0x0200] (bytes F7 26 00 02) at CS:IP = 0:0 with
AX = 0x1234, DS = 0 and the word 0x0100 at DS:0x0200. -/
def mul_mem_state : Cpu :=
  { cpu0 with ax := 0x1234, memory := load [0xf7, 0x26, 0x00, 0x02, 0xf4] 0 (load [0x00, 0x01] 0x200 (fun _ => 0)) }

/-- The state before LAHF; SAHF; HLT (bytes 9F 9E F4) at CS:IP = 0:0 with the flags S,
Z, A, P and C all set. -/
def lahf_sahf_program : Cpu :=
  { cpu0 with f := { flags0 with fSign := true, fZero := true, fAuxCarry := true, fParityEven := true, fCarry := true }, memory := load [0x9f, 0x9e, 0xf4] 0 (fun _ => 0) }

/-- The state before DIV byte [0x0200] (bytes F6 36 00 02) at CS:IP = 0:0 with
AX = 100, DS = 0, the byte 10 at DS:0x0200 and DH = 5 (DH is the byte register with
index 6, the `rm` field of the ModR/M byte 0x36). -/
def div_mem_state : Cpu :=
  { cpu0 with ax := 100, dx := 0x0500, memory := load [0xf6, 0x36, 0x00, 0x02, 0xf4] 0 (load [10] 0x200 (fun _ => 0)) }

/-- The state before REP MOVSB; NOP; HLT (bytes F3 A4 90 F4) at CS:IP = 0:0 with
CX = 0. -/
def rep_then_nop_program : Cpu :=
  { cpu0 with memory := load [0xf3, 0xa4, 0x90, 0xf4] 0 (fun _ => 0) }

/-- The state before four REP NOP and a HLT (bytes F3 90 F3 90 F3 90 F3 90 F4) at
CS:IP = 0:0. -/
def rep_nop_program : Cpu :=
  { cpu0 with memory := load [0xf3, 0x90, 0xf3, 0x90, 0xf3, 0x90, 0xf3, 0x90, 0xf4] 0 (fun _ => 0) }

/-- All flags clear except C. -/
def carry_set : Flags := { flags0 with fCarry := true }

/-! ## Bit-level helper lemmas -/

theorem and_pow_ne_zero_iff (x k : Nat) : (x &&& 2 ^ k ≠ 0) ↔ x / 2 ^ k % 2 = 1 := by
  constructor
  · intro h
    by_contra hc
    apply h
    apply Nat.eq_of_testBit_eq
    intro i
    simp only [Nat.testBit_and, Nat.testBit_two_pow, Nat.zero_testBit]
    by_cases hik : k = i
    · subst hik
      simp [Nat.testBit_to_div_mod, hc]
    · simp [hik]
  · intro h hz
    have h2 : (x &&& 2 ^ k).testBit k = true := by
      rw [Nat.testBit_and, Nat.testBit_two_pow_self, Nat.testBit_to_div_mod]
      simp [h]
    rw [hz] at h2
    simp at h2

theorem xor_bit (x y k : Nat) :
    (x ^^^ y) / 2 ^ k % 2 = (x / 2 ^ k % 2 + y / 2 ^ k % 2) % 2 := by
  have h := Nat.testBit_xor x y k
  simp only [Nat.testBit_to_div_mod] at h
  have hx : x / 2 ^ k % 2 < 2 := Nat.mod_lt _ (by decide)
  have hy : y / 2 ^ k % 2 < 2 := Nat.mod_lt _ (by decide)
  have hz : (x ^^^ y) / 2 ^ k % 2 < 2 := Nat.mod_lt _ (by decide)
  by_cases a : x / 2 ^ k % 2 = 1 <;> by_cases b : y / 2 ^ k % 2 = 1 <;>
    by_cases c : (x ^^^ y) / 2 ^ k % 2 = 1 <;> simp [a, b, c] at h ⊢ <;> omega

theorem and_pow_bne (x k : Nat) : ((x &&& 2 ^ k) != 0) = decide (x / 2 ^ k % 2 = 1) := by
  by_cases h : x / 2 ^ k % 2 = 1
  · have := (and_pow_ne_zero_iff x k).2 h
    simp [h, this]
  · have : x &&& 2 ^ k = 0 := by
      by_contra hc
      exact h ((and_pow_ne_zero_iff x k).1 hc)
    simp [h, this]

theorem and_pow_beq (x k : Nat) : ((x &&& 2 ^ k) == 0) = decide (x / 2 ^ k % 2 = 0) := by
  have h := and_pow_bne x k
  have hlt : x / 2 ^ k % 2 < 2 := Nat.mod_lt _ (by decide)
  by_cases h0 : x / 2 ^ k % 2 = 0
  · have h1 : ¬ x / 2 ^ k % 2 = 1 := by omega
    simp [h1] at h
    simp [h0, h]
  · have h1 : x / 2 ^ k % 2 = 1 := by omega
    simp [h1] at h
    simp [h0, h]

/-- The single-bit tests `( x & 2^k ) != 0` of the source, as arithmetic. -/
theorem and_lit_bne (x : Nat) :
    ((x &&& 0x10) != 0) = decide (x / 16 % 2 = 1) ∧
    ((x &&& 0x80) != 0) = decide (x / 128 % 2 = 1) ∧
    ((x &&& 0x100) != 0) = decide (x / 256 % 2 = 1) ∧
    ((x &&& 0x1000) != 0) = decide (x / 4096 % 2 = 1) ∧
    ((x &&& 0x8000) != 0) = decide (x / 32768 % 2 = 1) ∧
    ((x &&& 0x10000) != 0) = decide (x / 65536 % 2 = 1) :=
  ⟨and_pow_bne x 4, and_pow_bne x 7, and_pow_bne x 8, and_pow_bne x 12, and_pow_bne x 15,
    and_pow_bne x 16⟩

/-- The single-bit tests `0 == ( x & 2^k )` of the source, as arithmetic. -/
theorem and_lit_beq (x : Nat) :
    ((x &&& 0x80) == 0) = decide (x / 128 % 2 = 0) ∧
    ((x &&& 0x100) == 0) = decide (x / 256 % 2 = 0) ∧
    ((x &&& 0x8000) == 0) = decide (x / 32768 % 2 = 0) ∧
    ((x &&& 0x10000) == 0) = decide (x / 65536 % 2 = 0) :=
  ⟨and_pow_beq x 7, and_pow_beq x 8, and_pow_beq x 15, and_pow_beq x 16⟩

/-- The low-bit masks of the source, as remainders. -/
theorem and_mask (x : Nat) :
    x &&& 0xf = x % 16 ∧ x &&& 0xff = x % 256 ∧ x &&& 0xfff = x % 4096 ∧
    x &&& 0xffff = x % 65536 ∧ 0xf &&& x = x % 16 ∧ 0xfff &&& x = x % 4096 :=
  ⟨Nat.and_pow_two_sub_one_eq_mod x 4, Nat.and_pow_two_sub_one_eq_mod x 8,
   Nat.and_pow_two_sub_one_eq_mod x 12, Nat.and_pow_two_sub_one_eq_mod x 16,
   by rw [Nat.and_comm]; exact Nat.and_pow_two_sub_one_eq_mod x 4,
   by rw [Nat.and_comm]; exact Nat.and_pow_two_sub_one_eq_mod x 12⟩

theorem xor_bit7 (x y : Nat) : (x ^^^ y) / 128 % 2 = (x / 128 % 2 + y / 128 % 2) % 2 :=
  xor_bit x y 7

theorem xor_bit15 (x y : Nat) :
    (x ^^^ y) / 32768 % 2 = (x / 32768 % 2 + y / 32768 % 2) % 2 :=
  xor_bit x y 15

/-! ## Addition and subtraction primitives -/

theorem op_add8_result_carry (f : Flags) (lhs rhs : Nat) (carry : Bool)
    (hl : lhs < 256) (hr : rhs < 256) :
    (op_add8 f lhs rhs carry).1 = (lhs + rhs + carry.toNat) % 256 ∧
    ((op_add8 f lhs rhs carry).2.fCarry = true ↔ 256 ≤ lhs + rhs + carry.toNat) := by
  simp only [op_add8, set_PZS8, (and_lit_bne _).2.2.1, (and_mask _).2.1, decide_eq_true_eq]
  cases carry <;> simp <;> omega

theorem op_add16_result_carry (f : Flags) (lhs rhs : Nat) (carry : Bool)
    (hl : lhs < 65536) (hr : rhs < 65536) :
    (op_add16 f lhs rhs carry).1 = (lhs + rhs + carry.toNat) % 65536 ∧
    ((op_add16 f lhs rhs carry).2.fCarry = true ↔ 65536 ≤ lhs + rhs + carry.toNat) := by
  simp only [op_add16, set_PZS16, (and_lit_bne _).2.2.2.2.2, (and_mask _).2.2.2.1,
    decide_eq_true_eq]
  cases carry <;> simp <;> omega

/-- C1: for all byte operands and every carry-in, `op_add8` returns
`(lhs + rhs + carry_in) mod 256` and sets C exactly when `lhs + rhs + carry_in >= 256`;
for all word operands `op_add16` returns `(lhs + rhs + carry_in) mod 65536` and sets C
exactly when `lhs + rhs + carry_in >= 65536`. -/
theorem op_add_result_and_carry (f : Flags) (carry : Bool) (a8 b8 a16 b16 : Nat)
    (ha8 : a8 < 256) (hb8 : b8 < 256) (ha16 : a16 < 65536) (hb16 : b16 < 65536) :
    ((op_add8 f a8 b8 carry).1 = (a8 + b8 + carry.toNat) % 256 ∧
      ((op_add8 f a8 b8 carry).2.fCarry = true ↔ 256 ≤ a8 + b8 + carry.toNat)) ∧
    ((op_add16 f a16 b16 carry).1 = (a16 + b16 + carry.toNat) % 65536 ∧
      ((op_add16 f a16 b16 carry).2.fCarry = true ↔ 65536 ≤ a16 + b16 + carry.toNat)) :=
  ⟨op_add8_result_carry f a8 b8 carry ha8 hb8, op_add16_result_carry f a16 b16 carry ha16 hb16⟩

/-- Instance of C1: 0xC8 + 0x64 + 1 and 0x9C40 + 0x7530 + 1. -/
theorem op_add_result_and_carry_witness :
    ((op_add8 flags0 200 100 true).1 = (200 + 100 + true.toNat) % 256 ∧
      ((op_add8 flags0 200 100 true).2.fCarry = true ↔ 256 ≤ 200 + 100 + true.toNat)) ∧
    ((op_add16 flags0 40000 30000 true).1 = (40000 + 30000 + true.toNat) % 65536 ∧
      ((op_add16 flags0 40000 30000 true).2.fCarry = true ↔
        65536 ≤ 40000 + 30000 + true.toNat)) :=
  op_add_result_and_carry flags0 true 200 100 40000 30000 (by decide) (by decide) (by decide)
    (by decide)

theorem op_sub8_result_borrow (f : Flags) (lhs rhs : Nat) (c : Bool)
    (hl : lhs < 256) (hr : rhs < 256) :
    (((op_sub8 f lhs rhs c).1 : Int) = ((lhs : Int) - rhs - c.toNat) % 256) ∧
    ((op_sub8 f lhs rhs c).2.fCarry = true ↔ lhs < rhs + c.toNat) := by
  simp only [op_sub8, set_PZS8, compl8, (and_lit_beq _).2.1, (and_mask _).2.1,
    decide_eq_true_eq]
  cases c <;> simp <;> omega

theorem op_sub16_result_borrow (f : Flags) (lhs rhs : Nat) (c : Bool)
    (hl : lhs < 65536) (hr : rhs < 65536) :
    (((op_sub16 f lhs rhs c).1 : Int) = ((lhs : Int) - rhs - c.toNat) % 65536) ∧
    ((op_sub16 f lhs rhs c).2.fCarry = true ↔ lhs < rhs + c.toNat) := by
  simp only [op_sub16, set_PZS16, compl16, (and_lit_beq _).2.2.2, (and_mask _).2.2.2.1,
    decide_eq_true_eq]
  cases c <;> simp <;> omega

/-- C2: for all operands of the width and every borrow-in, `op_sub8` returns
`(lhs - rhs - borrow_in) mod 256` and `op_sub16` returns
`(lhs - rhs - borrow_in) mod 65536`, and in both C is set exactly when
`lhs < rhs + borrow_in` as natural numbers. -/
theorem op_sub_result_and_borrow (f : Flags) (borrow : Bool) (a8 b8 a16 b16 : Nat)
    (ha8 : a8 < 256) (hb8 : b8 < 256) (ha16 : a16 < 65536) (hb16 : b16 < 65536) :
    ((((op_sub8 f a8 b8 borrow).1 : Int) = ((a8 : Int) - b8 - borrow.toNat) % 256) ∧
      ((op_sub8 f a8 b8 borrow).2.fCarry = true ↔ a8 < b8 + borrow.toNat)) ∧
    ((((op_sub16 f a16 b16 borrow).1 : Int) = ((a16 : Int) - b16 - borrow.toNat) % 65536) ∧
      ((op_sub16 f a16 b16 borrow).2.fCarry = true ↔ a16 < b16 + borrow.toNat)) :=
  ⟨op_sub8_result_borrow f a8 b8 borrow ha8 hb8,
    op_sub16_result_borrow f a16 b16 borrow ha16 hb16⟩

/-- Instance of C2: 0x10 - 0x20 - 1 and 0x1000 - 0x0fff - 1. -/
theorem op_sub_result_and_borrow_witness :
    ((((op_sub8 flags0 16 32 true).1 : Int) = ((16 : Nat) - (32 : Nat) - true.toNat) % 256) ∧
      ((op_sub8 flags0 16 32 true).2.fCarry = true ↔ 16 < 32 + true.toNat)) ∧
    ((((op_sub16 flags0 4096 4095 true).1 : Int) =
        ((4096 : Nat) - (4095 : Nat) - true.toNat) % 65536) ∧
      ((op_sub16 flags0 4096 4095 true).2.fCarry = true ↔ 4096 < 4095 + true.toNat)) :=
  op_sub_result_and_borrow flags0 true 16 32 4096 4095 (by decide) (by decide) (by decide)
    (by decide)

/-- C3, the claim as stated fails: for `a = 0`, `b = 0`, `c = false` the byte
subtraction clears C while the addition of the complement with the inverted carry
sets it, so the two do not agree on every flag. -/
theorem op_sub8_add8_complement_disagree :
    ¬ ((op_sub8 flags0 0 0 false).1 = (op_add8 flags0 0 (compl8 0) (!false)).1 ∧
       (op_sub8 flags0 0 0 false).2.fCarry = (op_add8 flags0 0 (compl8 0) (!false)).2.fCarry ∧
       (op_sub8 flags0 0 0 false).2.fAuxCarry =
         (op_add8 flags0 0 (compl8 0) (!false)).2.fAuxCarry ∧
       (op_sub8 flags0 0 0 false).2.fOverflow =
         (op_add8 flags0 0 (compl8 0) (!false)).2.fOverflow ∧
       (op_sub8 flags0 0 0 false).2.fZero = (op_add8 flags0 0 (compl8 0) (!false)).2.fZero ∧
       (op_sub8 flags0 0 0 false).2.fSign = (op_add8 flags0 0 (compl8 0) (!false)).2.fSign ∧
       (op_sub8 flags0 0 0 false).2.fParityEven =
         (op_add8 flags0 0 (compl8 0) (!false)).2.fParityEven) := by
  decide

/-- C3 as amended: for all `a`, `b` and every boolean `c`, at 8 and at 16 bits,
`op_sub(a, b, c)` equals `op_add(a, ~b, !c)` on the returned result and on the flags
O, Z, S and P, and its C flag is the negation of the C flag of `op_add(a, ~b, !c)`. -/
theorem op_sub_eq_add_complement (f : Flags) (a b : Nat) (c : Bool) :
    ((op_sub8 f a b c).1 = (op_add8 f a (compl8 b) (!c)).1 ∧
      (op_sub8 f a b c).2.fCarry = !(op_add8 f a (compl8 b) (!c)).2.fCarry ∧
      (op_sub8 f a b c).2.fOverflow = (op_add8 f a (compl8 b) (!c)).2.fOverflow ∧
      (op_sub8 f a b c).2.fZero = (op_add8 f a (compl8 b) (!c)).2.fZero ∧
      (op_sub8 f a b c).2.fSign = (op_add8 f a (compl8 b) (!c)).2.fSign ∧
      (op_sub8 f a b c).2.fParityEven = (op_add8 f a (compl8 b) (!c)).2.fParityEven) ∧
    ((op_sub16 f a b c).1 = (op_add16 f a (compl16 b) (!c)).1 ∧
      (op_sub16 f a b c).2.fCarry = !(op_add16 f a (compl16 b) (!c)).2.fCarry ∧
      (op_sub16 f a b c).2.fOverflow = (op_add16 f a (compl16 b) (!c)).2.fOverflow ∧
      (op_sub16 f a b c).2.fZero = (op_add16 f a (compl16 b) (!c)).2.fZero ∧
      (op_sub16 f a b c).2.fSign = (op_add16 f a (compl16 b) (!c)).2.fSign ∧
      (op_sub16 f a b c).2.fParityEven =
        (op_add16 f a (compl16 b) (!c)).2.fParityEven) := by
  cases c <;> simp [op_sub8, op_add8, op_sub16, op_add16, set_PZS8, set_PZS16, bne]

theorem op_sub8_overflow (f : Flags) (lhs rhs : Nat) (c : Bool)
    (hl : lhs < 256) (hr : rhs < 256) :
    ((op_sub8 f lhs rhs c).2.fOverflow = true ↔
      (signed8 lhs - signed8 rhs - c.toNat < -128 ∨
        127 < signed8 lhs - signed8 rhs - c.toNat)) := by
  simp only [op_sub8, set_PZS8, compl8, signed8, (and_lit_beq _).1, (and_lit_bne _).2.1,
    (and_mask _).2.1, xor_bit7, Bool.and_eq_true, decide_eq_true_eq]
  cases c <;> simp <;> split <;> split <;> omega

theorem op_sub16_overflow (f : Flags) (lhs rhs : Nat) (c : Bool)
    (hl : lhs < 65536) (hr : rhs < 65536) :
    ((op_sub16 f lhs rhs c).2.fOverflow = true ↔
      (signed16 lhs - signed16 rhs - c.toNat < -32768 ∨
        32767 < signed16 lhs - signed16 rhs - c.toNat)) := by
  simp only [op_sub16, set_PZS16, compl16, signed16, (and_lit_beq _).2.2.1,
    (and_lit_bne _).2.2.2.2.1, (and_mask _).2.2.2.1, xor_bit15, Bool.and_eq_true,
    decide_eq_true_eq]
  cases c <;> simp <;> split <;> split <;> omega

/-- C4: for all operands of the width and every borrow-in, `op_sub8` (resp. `op_sub16`)
sets O exactly when `signed(lhs) - signed(rhs) - borrow_in` lies outside
`[-128, 127]` (resp. `[-32768, 32767]`). -/
theorem op_sub_signed_overflow (f : Flags) (borrow : Bool) (a8 b8 a16 b16 : Nat)
    (ha8 : a8 < 256) (hb8 : b8 < 256) (ha16 : a16 < 65536) (hb16 : b16 < 65536) :
    ((op_sub8 f a8 b8 borrow).2.fOverflow = true ↔
      (signed8 a8 - signed8 b8 - borrow.toNat < -128 ∨
        127 < signed8 a8 - signed8 b8 - borrow.toNat)) ∧
    ((op_sub16 f a16 b16 borrow).2.fOverflow = true ↔
      (signed16 a16 - signed16 b16 - borrow.toNat < -32768 ∨
        32767 < signed16 a16 - signed16 b16 - borrow.toNat)) :=
  ⟨op_sub8_overflow f a8 b8 borrow ha8 hb8, op_sub16_overflow f a16 b16 borrow ha16 hb16⟩

/-- Instance of C4: 0x80 - 0x01 (that is -128 - 1) and 0x7fff - 0xffff - 1
(that is 32767 + 1 - 1). -/
theorem op_sub_signed_overflow_witness :
    ((op_sub8 flags0 128 1 true).2.fOverflow = true ↔
      (signed8 128 - signed8 1 - true.toNat < -128 ∨
        127 < signed8 128 - signed8 1 - true.toNat)) ∧
    ((op_sub16 flags0 32767 65535 true).2.fOverflow = true ↔
      (signed16 32767 - signed16 65535 - true.toNat < -32768 ∨
        32767 < signed16 32767 - signed16 65535 - true.toNat)) :=
  op_sub_signed_overflow flags0 true 128 1 32767 65535 (by decide) (by decide) (by decide)
    (by decide)

/-- What `op_sub8` and `op_sub16` store in A: the carry out of the low nibble (low 12
bits) of `lhs + ~rhs + (1 - borrow_in)`, which is set exactly when no borrow occurs. -/
theorem op_sub_aux_is_no_borrow (f : Flags) (borrow : Bool) (a8 b8 a16 b16 : Nat)
    (hb8 : b8 < 256) (hb16 : b16 < 65536) :
    ((op_sub8 f a8 b8 borrow).2.fAuxCarry = true ↔ ¬ (a8 % 16 < b8 % 16 + borrow.toNat)) ∧
    ((op_sub16 f a16 b16 borrow).2.fAuxCarry = true ↔
      ¬ (a16 % 4096 < b16 % 4096 + borrow.toNat)) := by
  simp only [op_sub8, op_sub16, set_PZS8, set_PZS16, compl8, compl16, (and_lit_bne _).1,
    (and_lit_bne _).2.2.2.1, (and_mask _).1, (and_mask _).2.2.1, decide_eq_true_eq]
  cases borrow <;> simp <;> omega

/-- C5, the code at `lhs = 0`, `rhs = 0`, `borrow_in = false`: nothing is borrowed out
of the low nibble (low 12 bits), yet `op_sub8` and `op_sub16` set A. -/
theorem op_sub_aux_set_without_borrow :
    ((op_sub8 flags0 0 0 false).2.fAuxCarry = true ∧
      ¬ ((0 &&& 0xf) < (0 &&& 0xf) + false.toNat)) ∧
    ((op_sub16 flags0 0 0 false).2.fAuxCarry = true ∧
      ¬ ((0 &&& 0xfff) < (0 &&& 0xfff) + false.toNat)) := by
  decide

/-- C6: for every lhs, rhs and carry-in, `op_add8` and `op_add16` set O exactly when
lhs and rhs have the same sign bit and the truncated result has a sign bit different
from that of lhs. -/
theorem op_add_overflow_sign_rule (f : Flags) (lhs rhs : Nat) (carry : Bool) :
    ((op_add8 f lhs rhs carry).2.fOverflow = true ↔
      (sign8 lhs = sign8 rhs ∧ sign8 (op_add8 f lhs rhs carry).1 ≠ sign8 lhs)) ∧
    ((op_add16 f lhs rhs carry).2.fOverflow = true ↔
      (sign16 lhs = sign16 rhs ∧ sign16 (op_add16 f lhs rhs carry).1 ≠ sign16 lhs)) := by
  constructor
  · simp only [op_add8, set_PZS8, sign8, Nat.testBit_to_div_mod, (and_lit_beq _).1,
      (and_lit_bne _).2.1, (and_mask _).2.1, xor_bit7, Bool.and_eq_true, decide_eq_true_eq]
    simp
    omega
  · simp only [op_add16, set_PZS16, sign16, Nat.testBit_to_div_mod, (and_lit_beq _).2.2.1,
      (and_lit_bne _).2.2.2.2.1, (and_mask _).2.2.2.1, xor_bit15, Bool.and_eq_true,
      decide_eq_true_eq]
    simp
    omega

/-! ## Dispatch -/

theorem dispatch_jcc (h : Host) (s : Cpu) (hlo : 0x70 ≤ s._b0) (hhi : s._b0 ≤ 0x7f) :
    dispatch h s = jcc s := by
  obtain ⟨k, hk, hb⟩ : ∃ k, k < 16 ∧ s._b0 = 0x70 + k := ⟨s._b0 - 0x70, by omega, by omega⟩
  interval_cases k <;> simp [dispatch, hb]

theorem takejmp_iff_predicate (k : Nat) (f : Flags) (hk : k < 16) :
    takejmp k f = true ↔ jcc_predicate k f := by
  interval_cases k <;> simp [takejmp, jcc_predicate]

theorem low_nibble_of_jcc (k : Nat) (hk : k < 16) : (0x70 + k) &&& 0xf = k := by
  interval_cases k <;> rfl

theorem jcc_eq_loop_head (s : Cpu) :
    jcc s = Outcome.loop_head
      (if takejmp (s._b0 &&& 0xf) s.f then
        { s with _bc := 2, ip := ip_add s.ip (2 + sext8 s._b1) }
      else advance_ip { s with _bc := 2 }) := by
  unfold jcc
  by_cases ht : takejmp (s._b0 &&& 0xf) s.f = true <;> simp [ht]

/-- C7: for every opcode `0x70 + k` (`k` in 0..15), every flag state, every IP and every
displacement byte `d`, the pass through the loop body returns to the loop head; the
jump is taken (the source's `takejmp`) iff predicate `k` holds on the current flags;
the new IP is `(IP + 2 + sign_extend(d)) mod 65536` when it holds and
`(IP + 2) mod 65536` when it does not; no flag and no other register changes. -/
theorem jcc_taken_iff_predicate (h : Host) (s : Cpu) (k d : Nat) (hk : k < 16)
    (hop : read8 s.memory (flat_ip s) = 0x70 + k)
    (hd : read8 s.memory (flat_ip s + 1) = d) :
    ∃ t, exec h s = Outcome.loop_head t ∧
      (takejmp ((decode_instruction s (flat_ip s))._b0 &&& 0xf) s.f = true ↔
        jcc_predicate k s.f) ∧
      (jcc_predicate k s.f → (t.ip : Int) = ((s.ip : Int) + 2 + signed8 d) % 65536) ∧
      (¬ jcc_predicate k s.f → t.ip = (s.ip + 2) % 65536) ∧
      same_but_ip s t := by
  have hb0 : (decode_instruction s (flat_ip s))._b0 = 0x70 + k := hop
  have hb1 : (decode_instruction s (flat_ip s))._b1 = d := hd
  have hf : (decode_instruction s (flat_ip s)).f = s.f := rfl
  have hip : (decode_instruction s (flat_ip s)).ip = s.ip := rfl
  have hdlt : d < 256 := by rw [← hd]; exact Nat.mod_lt _ (by decide)
  have hnib := low_nibble_of_jcc k hk
  have hiff := takejmp_iff_predicate k s.f hk
  rw [exec, dispatch_jcc h _ (by omega) (by omega), jcc_eq_loop_head, hb0, hnib, hf, hb1, hip]
  refine ⟨_, rfl, hiff, ?_, ?_, ?_⟩
  · intro hp
    rw [if_pos (hiff.2 hp)]
    simp only [ip_add, sext8, signed8, Nat.mod_eq_of_lt hdlt]
    split <;> omega
  · intro hp
    have ht : ¬ takejmp k s.f = true := fun hc => hp (hiff.1 hc)
    rw [if_neg ht]
    simp [advance_ip, decode_instruction]
  · by_cases ht : takejmp k s.f = true
    · rw [if_pos ht]
      simp [same_but_ip, decode_instruction]
    · rw [if_neg ht]
      simp [same_but_ip, advance_ip, decode_instruction]

/-- Instance of C7: `JZ -2` (bytes 74 FE) at CS:IP = 0:0x10 with Z set. -/
theorem jcc_taken_iff_predicate_witness :
    ∃ t, exec host0 jz_state = Outcome.loop_head t ∧
      (takejmp ((decode_instruction jz_state (flat_ip jz_state))._b0 &&& 0xf) jz_state.f = true ↔
        jcc_predicate 4 jz_state.f) ∧
      (jcc_predicate 4 jz_state.f →
        (t.ip : Int) = ((jz_state.ip : Int) + 2 + signed8 0xfe) % 65536) ∧
      (¬ jcc_predicate 4 jz_state.f → t.ip = (jz_state.ip + 2) % 65536) ∧
      same_but_ip jz_state t :=
  jcc_taken_iff_predicate host0 jz_state 4 0xfe (by decide) (by decide) (by decide)

/-! ## The instruction budget -/

/-- The count of `emulate_from` stays within the budget plus the prefix jumps taken
since the `while` test was last passed: at the loop head `cycles <= maxcycles + last`,
and at `_after_prefix`, where the jump has been counted and the increment is still to
come, `cycles + 1 <= maxcycles + last`.  These jumps are among all the prefix jumps of
the call. -/
theorem emulate_from_count (h : Host) (maxcycles : Nat) :
    ∀ (fuel : Nat) (at_head : Bool) (s : Cpu) (cycles prefixes last c p : Nat) (t : Cpu),
      (at_head = true → cycles ≤ maxcycles + last) →
      (at_head = false → cycles + 1 ≤ maxcycles + last) →
      last ≤ prefixes →
      emulate_from h maxcycles fuel at_head s cycles prefixes = Run.returned c p t →
      c ≤ maxcycles + emulate_last_prefixes h maxcycles fuel at_head s cycles last ∧
      emulate_last_prefixes h maxcycles fuel at_head s cycles last ≤ p := by
  intro fuel
  induction fuel with
  | zero =>
    intro at_head s cycles prefixes last c p t _ _ _ hr
    simp [emulate_from] at hr
  | succ n ih =>
    intro at_head s cycles prefixes last c p t hhead hpre hlast hr
    have hstep : (cycles + 1) % 0x10000000000000000 ≤ cycles + 1 := Nat.mod_le _ _
    rw [emulate_from] at hr
    rw [emulate_last_prefixes]
    by_cases hret : at_head = true ∧ ¬ cycles < maxcycles
    · rw [if_pos hret] at hr
      rw [if_pos hret]
      injection hr with hc hp _
      have := hhead hret.1
      omega
    · rw [if_neg hret] at hr
      rw [if_neg hret]
      have hinv : (cycles + 1) % 0x10000000000000000 ≤
          maxcycles + (if at_head = true then 0 else last) := by
        cases at_head with
        | true =>
          have hlt : cycles < maxcycles := by
            by_contra hc
            exact hret ⟨rfl, hc⟩
          rw [if_pos rfl]
          omega
        | false =>
          have := hpre rfl
          rw [if_neg (by decide)]
          omega
      have hle : (if at_head = true then 0 else last) ≤ prefixes := by
        split <;> omega
      generalize (if at_head = true then 0 else last) = k at hinv hle ⊢
      by_cases hend : end_requested (reset_prefixes at_head s)
      · rw [if_pos hend] at hr
        rw [if_pos hend]
        injection hr with hc hp _
        omega
      · rw [if_neg hend] at hr
        rw [if_neg hend]
        cases hx : exec h (reset_prefixes at_head s) with
        | loop_head s1 =>
          rw [hx] at hr
          exact ih true s1 _ _ k c p t (fun _ => hinv) (fun hc => by cases hc) hle hr
        | prefix_seen s1 =>
          rw [hx] at hr
          exact ih false s1 _ _ (k + 1) c p t (fun hc => by cases hc) (fun _ => by omega)
            (by omega) hr
        | all_done s1 =>
          rw [hx] at hr
          injection hr with hc hp _
          simp only []
          omega
        | exit_process =>
          rw [hx] at hr
          cases hr

/-- C8, the claim as stated fails: with a budget of 1 the program F3 A4 F4
(REP MOVSB; HLT) makes `emulate` return the count 2, because the prefix byte
re-enters the loop body at `_after_prefix`, past the `while` test. -/
theorem emulate_count_exceeds_budget :
    ∃ c p t, emulate host0 1 3 rep_movsb_program = Run.returned c p t ∧ ¬ c ≤ 1 :=
  ⟨2, 1, _, rfl, by decide⟩

/-- C8 as amended: for every machine state, memory image and budget `maxcycles`, the
count returned by `emulate(maxcycles)` is at most `maxcycles` plus the number of prefix
bytes of the last instruction executed, which re-entered the loop body at
`_after_prefix` after the `while` test was last passed; the prefix bytes of the
earlier instructions do not add to the excess.  In particular the count is at most
`maxcycles` when the last instruction executed carries no prefix byte. -/
theorem emulate_count_le_budget_plus_last_prefixes (h : Host) (maxcycles fuel : Nat)
    (s : Cpu) (c p : Nat) (t : Cpu)
    (hr : emulate h maxcycles fuel s = Run.returned c p t) :
    c ≤ maxcycles + last_prefixes h maxcycles fuel s ∧
    (last_prefixes h maxcycles fuel s = 0 → c ≤ maxcycles) ∧
    last_prefixes h maxcycles fuel s ≤ p := by
  have hb := emulate_from_count h maxcycles fuel true s 0 0 0 c p t (fun _ => by omega)
    (fun hc => by cases hc) (Nat.le_refl 0) hr
  exact ⟨hb.1, fun h0 => by have := hb.1; unfold last_prefixes at h0; omega, hb.2⟩

/-- Instance of C8 as amended, in which the bound is attained: four REP NOP run with a
budget of 7 return the count 8 after four prefix bytes, one of them in the last
instruction executed. -/
theorem emulate_count_le_budget_plus_last_prefixes_witness :
    emulate host0 7 20 rep_nop_program =
        Run.returned 8 4 (Run.final (emulate host0 7 20 rep_nop_program)) ∧
      last_prefixes host0 7 20 rep_nop_program = 1 ∧
      (8 ≤ 7 + last_prefixes host0 7 20 rep_nop_program ∧
        (last_prefixes host0 7 20 rep_nop_program = 0 → 8 ≤ 7) ∧
        last_prefixes host0 7 20 rep_nop_program ≤ 4) :=
  ⟨rfl, by decide, emulate_count_le_budget_plus_last_prefixes host0 7 20 rep_nop_program 8 4
    (Run.final (emulate host0 7 20 rep_nop_program)) rfl⟩

/-- The run of F3 A4 90 F4 (REP MOVSB; NOP; HLT) with CX = 0 and a budget of 3 returns
the count 3 after one prefix byte: the prefix byte belongs to the first instruction,
the last instruction executed (NOP) has none, and the count stays within the
budget. -/
theorem scenario_budget_earlier_prefix :
    emulate host0 3 20 rep_then_nop_program =
        Run.returned 3 1 (Run.final (emulate host0 3 20 rep_then_nop_program)) ∧
      last_prefixes host0 3 20 rep_then_nop_program = 0 :=
  ⟨rfl, by decide⟩

/-! ## Repeated string move -/

/-- The loop `while ( 0 != cx ) { prim(); cx--; }` entered with a 16-bit CX ends with
CX = 0, that is by its own test, for every primitive that leaves CX alone. -/
theorem rep_loop_cx (prim : Cpu → Cpu) (hprim : ∀ u, (prim u).cx = u.cx) :
    ∀ (n : Nat) (s : Cpu), s.cx = n → n < 65536 → (rep_loop prim n s).cx = 0 := by
  intro n
  induction n with
  | zero =>
    intro s hcx _
    simpa [rep_loop] using hcx
  | succ m ih =>
    intro s hcx hn
    have hne : ¬ s.cx = 0 := by omega
    simp only [rep_loop, if_neg hne]
    apply ih
    · simp only [dec_cx, dec16, hprim, hcx]
      omega
    · omega

theorem read8_mod (m : Nat → Nat) (a : Nat) : read8 m a % 0x100 = read8 m a := by
  unfold read8
  omega

/-- The loop `while ( 0 != cx ) { op_movs8(); cx--; }` with D = 0, on source and
destination ranges that neither wrap the 16-bit offset nor overlap. -/
theorem rep_movs8_forward :
    ∀ (n : Nat) (s : Cpu), s.cx = n → n < 65536 → s.f.fDirection = false →
      s.si < 65536 → s.di < 65536 → s.si + n ≤ 65536 → s.di + n ≤ 65536 →
      (flatten (get_seg_value s s.ds) s.si + n ≤ flatten s.es s.di ∨
        flatten s.es s.di + n ≤ flatten (get_seg_value s s.ds) s.si) →
      (rep_loop op_movs8 n s).cx = 0 ∧
      (rep_loop op_movs8 n s).si = (s.si + n) % 65536 ∧
      (rep_loop op_movs8 n s).di = (s.di + n) % 65536 ∧
      ∀ a, (rep_loop op_movs8 n s).memory a =
        if flatten s.es s.di ≤ a ∧ a < flatten s.es s.di + n then
          read8 s.memory (flatten (get_seg_value s s.ds) s.si + (a - flatten s.es s.di))
        else s.memory a := by
  intro n
  induction n with
  | zero =>
    intro s hcx _ _ hsi hdi _ _ _
    refine ⟨by simpa [rep_loop] using hcx, ?_, ?_, ?_⟩
    · simp only [rep_loop]; omega
    · simp only [rep_loop]; omega
    · intro a
      simp only [rep_loop]
      rw [if_neg (by omega)]
  | succ m ih =>
    intro s hcx hn hd hsi hdi hsn hdn hdisj
    have hne : ¬ s.cx = 0 := by omega
    have hstep : rep_loop op_movs8 (m + 1) s = rep_loop op_movs8 m (dec_cx (op_movs8 s)) := by
      simp only [rep_loop, if_neg hne]
    have h1cx : (dec_cx (op_movs8 s)).cx = m := by
      simp only [dec_cx, op_movs8, update_rep_sidi8, hd, dec16]
      simp only [Bool.false_eq_true, if_false, hcx]
      omega
    have h1si : (dec_cx (op_movs8 s)).si = (s.si + 1) % 65536 := by
      simp [dec_cx, op_movs8, update_rep_sidi8, hd, inc16]
    have h1di : (dec_cx (op_movs8 s)).di = (s.di + 1) % 65536 := by
      simp [dec_cx, op_movs8, update_rep_sidi8, hd, inc16]
    have h1f : (dec_cx (op_movs8 s)).f = s.f := by
      simp [dec_cx, op_movs8, update_rep_sidi8, hd]
    have h1es : (dec_cx (op_movs8 s)).es = s.es := by
      simp [dec_cx, op_movs8, update_rep_sidi8, hd]
    have h1seg : get_seg_value (dec_cx (op_movs8 s)) (dec_cx (op_movs8 s)).ds =
        get_seg_value s s.ds := by
      simp [get_seg_value, dec_cx, op_movs8, update_rep_sidi8, hd]
    have h1mem : (dec_cx (op_movs8 s)).memory =
        write8 s.memory (flatten s.es s.di)
          (read8 s.memory (flatten (get_seg_value s s.ds) s.si)) := by
      simp [dec_cx, op_movs8, update_rep_sidi8, hd]
    have hih := ih (dec_cx (op_movs8 s)) h1cx (by omega) (by rw [h1f]; exact hd)
      (by rw [h1si]; omega) (by rw [h1di]; omega) (by rw [h1si]; omega) (by rw [h1di]; omega)
      (by rw [h1seg, h1es, h1si, h1di]; simp only [flatten] at hdisj ⊢; omega)
    rw [hstep]
    obtain ⟨hc, hs, hdd, hm⟩ := hih
    refine ⟨hc, by rw [hs, h1si]; omega, by rw [hdd, h1di]; omega, ?_⟩
    intro a
    rw [hm a, h1seg, h1es, h1si, h1di, h1mem]
    simp only [flatten] at hdisj ⊢
    simp only [write8, read8]
    by_cases ha : a = s.es * 16 + s.di
    · subst ha
      rw [if_neg (by omega), if_pos rfl, if_pos (by omega)]
      simp
    · by_cases hin : s.es * 16 + s.di ≤ a ∧ a < s.es * 16 + s.di + (m + 1)
      · have hm0 : 0 < m := by omega
        rw [if_pos (by omega), if_pos hin, if_neg (by omega)]
        have e : get_seg_value s s.ds * 16 + (s.si + 1) % 65536 +
            (a - (s.es * 16 + (s.di + 1) % 65536)) =
            get_seg_value s s.ds * 16 + s.si + (a - (s.es * 16 + s.di)) := by omega
        rw [e]
      · rw [if_neg (by omega), if_neg ha, if_neg hin]

/-- C9: for MOVSB (0xA4) under a repeat prefix 0xF3 or 0xF2 with D = 0 and CX = n, when
the n-byte source range at DS:SI (the overriding segment if one is pending) and the
n-byte destination range at ES:DI do not overlap and do not wrap the 16-bit offset:
afterwards the n destination bytes equal the original n source bytes in order, CX = 0,
SI and DI are `(SI0 + n) mod 65536` and `(DI0 + n) mod 65536`, which is `SI0 + n` and
`DI0 + n` unless the range ends exactly at offset 0xFFFF, and all other memory is
unchanged. -/
theorem rep_movsb_copies (h : Host) (s : Cpu) (n : Nat)
    (hop : read8 s.memory (flat_ip s) = 0xa4)
    (hrep : s.prefix_repeat_opcode = 0xf3 ∨ s.prefix_repeat_opcode = 0xf2)
    (hd : s.f.fDirection = false) (hcx : s.cx = n) (hn : n < 65536)
    (hsi : s.si < 65536) (hdi : s.di < 65536)
    (hsrc : s.si + n ≤ 65536) (hdst : s.di + n ≤ 65536)
    (hdisj : flatten (get_seg_value s s.ds) s.si + n ≤ flatten s.es s.di ∨
      flatten s.es s.di + n ≤ flatten (get_seg_value s s.ds) s.si) :
    ∃ t, exec h s = Outcome.loop_head t ∧
      (∀ i, i < n → read8 t.memory (flatten s.es s.di + i) =
        read8 s.memory (flatten (get_seg_value s s.ds) s.si + i)) ∧
      t.cx = 0 ∧
      t.si = (s.si + n) % 65536 ∧ t.di = (s.di + n) % 65536 ∧
      (s.si + n < 65536 → t.si = s.si + n) ∧ (s.di + n < 65536 → t.di = s.di + n) ∧
      (∀ a, (a < flatten s.es s.di ∨ flatten s.es s.di + n ≤ a) →
        t.memory a = s.memory a) := by
  have hb0 : (decode_instruction s (flat_ip s))._b0 = 0xa4 := hop
  have hdisp : exec h s = Outcome.loop_head
      (advance_ip (case_rep_string op_movs8 (decode_instruction s (flat_ip s)))) := by
    simp [exec, dispatch, hb0]
  have hcase : case_rep_string op_movs8 (decode_instruction s (flat_ip s)) =
      rep_loop op_movs8 n (decode_instruction s (flat_ip s)) := by
    have hp : (decode_instruction s (flat_ip s)).prefix_repeat_opcode = 0xf3 ∨
        (decode_instruction s (flat_ip s)).prefix_repeat_opcode = 0xf2 := hrep
    have hc : (decode_instruction s (flat_ip s)).cx = n := hcx
    simp only [case_rep_string, if_pos hp, hc]
  obtain ⟨hc, hs, hdd, hm⟩ := rep_movs8_forward n (decode_instruction s (flat_ip s)) hcx hn hd
    hsi hdi hsrc hdst hdisj
  rw [← hcase] at hc hs hdd hm
  refine ⟨_, hdisp, ?_, hc, hs, hdd, ?_, ?_, ?_⟩
  · intro i hi
    have := hm (flatten s.es s.di + i)
    simp only [advance_ip, read8]
    rw [this]
    have hin : flatten (decode_instruction s (flat_ip s)).es (decode_instruction s (flat_ip s)).di ≤
        flatten s.es s.di + i ∧ flatten s.es s.di + i <
        flatten (decode_instruction s (flat_ip s)).es (decode_instruction s (flat_ip s)).di + n :=
      ⟨Nat.le_add_right _ _, Nat.add_lt_add_left hi _⟩
    rw [if_pos hin]
    have e : flatten s.es s.di + i -
        flatten (decode_instruction s (flat_ip s)).es (decode_instruction s (flat_ip s)).di = i :=
      Nat.add_sub_cancel_left _ _
    rw [e, read8_mod]
    rfl
  · intro hlt
    have : (advance_ip (case_rep_string op_movs8 (decode_instruction s (flat_ip s)))).si =
        (s.si + n) % 65536 := hs
    rw [this]
    exact Nat.mod_eq_of_lt hlt
  · intro hlt
    have : (advance_ip (case_rep_string op_movs8 (decode_instruction s (flat_ip s)))).di =
        (s.di + n) % 65536 := hdd
    rw [this]
    exact Nat.mod_eq_of_lt hlt
  · intro a ha
    have := hm a
    simp only [advance_ip]
    rw [this]
    have hout : ¬ (flatten (decode_instruction s (flat_ip s)).es
        (decode_instruction s (flat_ip s)).di ≤ a ∧
        a < flatten (decode_instruction s (flat_ip s)).es
          (decode_instruction s (flat_ip s)).di + n) := by
      have e : flatten (decode_instruction s (flat_ip s)).es
        (decode_instruction s (flat_ip s)).di = flatten s.es s.di := rfl
      rw [e]
      omega
    rw [if_neg hout]
    rfl

/-- Instance of C9, the specification's scenario: n = 4, SI = 0x0100, DI = 0x0200,
bytes DE AD BE EF, prefix F3. -/
theorem rep_movsb_copies_witness :
    ∃ t, exec host0 rep_movsb_pending = Outcome.loop_head t ∧
      (∀ i, i < 4 → read8 t.memory
          (flatten rep_movsb_pending.es rep_movsb_pending.di + i) =
        read8 rep_movsb_pending.memory
          (flatten (get_seg_value rep_movsb_pending rep_movsb_pending.ds)
            rep_movsb_pending.si + i)) ∧
      t.cx = 0 ∧
      t.si = (rep_movsb_pending.si + 4) % 65536 ∧
      t.di = (rep_movsb_pending.di + 4) % 65536 ∧
      (rep_movsb_pending.si + 4 < 65536 → t.si = rep_movsb_pending.si + 4) ∧
      (rep_movsb_pending.di + 4 < 65536 → t.di = rep_movsb_pending.di + 4) ∧
      (∀ a, (a < flatten rep_movsb_pending.es rep_movsb_pending.di ∨
          flatten rep_movsb_pending.es rep_movsb_pending.di + 4 ≤ a) →
        t.memory a = rep_movsb_pending.memory a) :=
  rep_movsb_copies host0 rep_movsb_pending 4 (by decide) (by decide) (by decide)
    (by decide) (by decide) (by decide) (by decide) (by decide) (by decide) (by decide)

/-- The specification's string-move scenario run through `emulate`: after
F3 A4 F4 the bytes at 0x0200..0x0203 are DE AD BE EF, CX = 0, SI = 0x0104 and
DI = 0x0204. -/
theorem scenario_rep_movsb :
    (Run.final (emulate host0 100 4 rep_movsb_program)).memory 0x200 = 0xde ∧
    (Run.final (emulate host0 100 4 rep_movsb_program)).memory 0x201 = 0xad ∧
    (Run.final (emulate host0 100 4 rep_movsb_program)).memory 0x202 = 0xbe ∧
    (Run.final (emulate host0 100 4 rep_movsb_program)).memory 0x203 = 0xef ∧
    (Run.final (emulate host0 100 4 rep_movsb_program)).cx = 0 ∧
    (Run.final (emulate host0 100 4 rep_movsb_program)).si = 0x104 ∧
    (Run.final (emulate host0 100 4 rep_movsb_program)).di = 0x204 := by
  decide

/-! ## Repeated string compare and scan -/

theorem compare_primitive_cx (op : Nat) (s : Cpu) : (compare_primitive op s).cx = s.cx := by
  unfold compare_primitive
  split_ifs
  · simp only [op_cmps8, update_rep_sidi8]; split <;> rfl
  · simp only [op_cmps16, update_rep_sidi16]; split <;> rfl
  · simp only [op_scas8]; split <;> rfl
  · simp only [op_scas16]; split <;> rfl

/-- The loop `while ( 0 != cx ) { prim(); cx--; if ( fZero == z ) break; }` entered
with CX = n > 0 runs its body `k` times, `k` being the first pass after which Z equals
`z`, or `n` when there is none. -/
theorem rep_loop_break_count (prim : Cpu → Cpu) (z : Bool)
    (hprim : ∀ u, (prim u).cx = u.cx) :
    ∀ (n : Nat) (s : Cpu), s.cx = n → 0 < n → n < 65536 →
      ∃ k, 1 ≤ k ∧ k ≤ n ∧
        rep_loop_break prim z n s = (rep_step prim)^[k] s ∧
        ((rep_step prim)^[k] s).cx = n - k ∧
        (∀ j, 1 ≤ j → j < k → ((rep_step prim)^[j] s).f.fZero ≠ z) ∧
        (k < n → ((rep_step prim)^[k] s).f.fZero = z) := by
  intro n
  induction n with
  | zero => intro s _ h0 _; omega
  | succ m ih =>
    intro s hcx _ hn
    have hne : ¬ s.cx = 0 := by omega
    have h1cx : (rep_step prim s).cx = m := by
      simp only [rep_step, dec_cx, dec16, hprim, hcx]
      omega
    have hunf : rep_loop_break prim z (m + 1) s =
        if (rep_step prim s).f.fZero = z then rep_step prim s
        else rep_loop_break prim z m (rep_step prim s) := by
      simp only [rep_loop_break, if_neg hne, rep_step]
    by_cases hz : (rep_step prim s).f.fZero = z
    · refine ⟨1, le_refl _, by omega, ?_, ?_, ?_, ?_⟩
      · rw [hunf, if_pos hz]; rfl
      · simpa using h1cx
      · intro j h1 h2; omega
      · intro _; exact hz
    · rw [hunf, if_neg hz]
      by_cases hm : m = 0
      · subst hm
        refine ⟨1, le_refl _, le_refl _, ?_, ?_, ?_, ?_⟩
        · simp [rep_loop_break]
        · simpa using h1cx
        · intro j h1 h2; omega
        · intro hlt; omega
      · obtain ⟨k, hk1, hkm, hres, hkcx, hbefore, hat⟩ :=
          ih (rep_step prim s) h1cx (by omega) (by omega)
        refine ⟨k + 1, by omega, by omega, ?_, ?_, ?_, ?_⟩
        · rw [hres, Function.iterate_succ_apply]
        · rw [Function.iterate_succ_apply, hkcx]; omega
        · intro j h1 h2
          by_cases hj : j = 1
          · subst hj; simpa using hz
          · have hj' := hbefore (j - 1) (by omega) (by omega)
            have e : j = (j - 1) + 1 := by omega
            rw [e, Function.iterate_succ_apply]
            exact hj'
        · intro hlt
          rw [Function.iterate_succ_apply]
          exact hat (by omega)

/-- C10: for CMPS and SCAS (0xA6, 0xA7, 0xAE, 0xAF) under a repeat prefix with CX = n:
if n = 0 no primitive executes and the pass leaves every register other than IP, the
flags and the memory unchanged; if n > 0 the state after the handler is the state
after exactly `k` primitives, each followed by `cx--`, where `k >= 1` is the least
count after which Z equals the expected value (true for REPNE 0xF2, false for REP/REPE
0xF3), or `k = n` if there is none; and the final CX equals `n - k`. -/
theorem rep_compare_count (h : Host) (s : Cpu) (op : Nat) (z : Bool) (n : Nat)
    (hop : read8 s.memory (flat_ip s) = op)
    (hops : op = 0xa6 ∨ op = 0xa7 ∨ op = 0xae ∨ op = 0xaf)
    (hrep : (s.prefix_repeat_opcode = 0xf2 ∧ z = true) ∨
      (s.prefix_repeat_opcode = 0xf3 ∧ z = false))
    (hcx : s.cx = n) (hn : n < 65536) :
    (n = 0 → ∃ t, exec h s = Outcome.loop_head t ∧ same_but_ip s t) ∧
    (0 < n → ∃ k, 1 ≤ k ∧ k ≤ n ∧
      exec h s = Outcome.loop_head (advance_ip
        ((rep_step (compare_primitive op))^[k] (decode_instruction s (flat_ip s)))) ∧
      ((rep_step (compare_primitive op))^[k] (decode_instruction s (flat_ip s))).cx = n - k ∧
      (∀ j, 1 ≤ j → j < k →
        ((rep_step (compare_primitive op))^[j]
          (decode_instruction s (flat_ip s))).f.fZero ≠ z) ∧
      (k < n →
        ((rep_step (compare_primitive op))^[k]
          (decode_instruction s (flat_ip s))).f.fZero = z)) := by
  have hb0 : (decode_instruction s (flat_ip s))._b0 = op := hop
  have hdcx : (decode_instruction s (flat_ip s)).cx = n := hcx
  have hdisp : exec h s = Outcome.loop_head (advance_ip
      (case_rep_compare (compare_primitive op) (decode_instruction s (flat_ip s)))) := by
    rcases hops with ho | ho | ho | ho <;> subst ho <;>
      simp [exec, dispatch, hb0, compare_primitive]
  have hcase : case_rep_compare (compare_primitive op) (decode_instruction s (flat_ip s)) =
      rep_loop_break (compare_primitive op) z n (decode_instruction s (flat_ip s)) := by
    have hp : (decode_instruction s (flat_ip s)).prefix_repeat_opcode =
        s.prefix_repeat_opcode := rfl
    rcases hrep with ⟨hr, hz⟩ | ⟨hr, hz⟩
    · subst hz
      simp only [case_rep_compare, hp, hr, hdcx, if_true]
    · subst hz
      simp only [case_rep_compare, hp, hr, hdcx]
      rw [if_neg (by decide), if_pos trivial]
  rw [hdisp, hcase]
  constructor
  · intro h0
    subst h0
    refine ⟨_, rfl, ?_⟩
    simp [rep_loop_break, same_but_ip, advance_ip, decode_instruction]
  · intro hpos
    obtain ⟨k, hk1, hkn, hres, hkcx, hbefore, hat⟩ :=
      rep_loop_break_count (compare_primitive op) z (compare_primitive_cx op) n
        (decode_instruction s (flat_ip s)) hdcx hpos hn
    exact ⟨k, hk1, hkn, by rw [hres], hkcx, hbefore, hat⟩

/-- Instance of C10: REPE CMPSB with CX = 4 on 01 02 03 04 against 01 02 09 04. -/
theorem rep_compare_count_witness :
    (4 = 0 → ∃ t, exec host0 repe_cmpsb_pending = Outcome.loop_head t ∧
      same_but_ip repe_cmpsb_pending t) ∧
    (0 < 4 → ∃ k, 1 ≤ k ∧ k ≤ 4 ∧
      exec host0 repe_cmpsb_pending = Outcome.loop_head (advance_ip
        ((rep_step (compare_primitive 0xa6))^[k]
          (decode_instruction repe_cmpsb_pending (flat_ip repe_cmpsb_pending)))) ∧
      ((rep_step (compare_primitive 0xa6))^[k]
        (decode_instruction repe_cmpsb_pending
          (flat_ip repe_cmpsb_pending))).cx = 4 - k ∧
      (∀ j, 1 ≤ j → j < k →
        ((rep_step (compare_primitive 0xa6))^[j]
          (decode_instruction repe_cmpsb_pending
            (flat_ip repe_cmpsb_pending))).f.fZero ≠ false) ∧
      (k < 4 →
        ((rep_step (compare_primitive 0xa6))^[k]
          (decode_instruction repe_cmpsb_pending
            (flat_ip repe_cmpsb_pending))).f.fZero = false)) :=
  rep_compare_count host0 repe_cmpsb_pending 0xa6 false 4 (by decide) (by decide)
    (by decide) (by decide) (by decide)

/-- The run of F3 A6 F4 (REPE CMPSB; HLT) on 01 02 03 04 against 01 02 09 04 with
CX = 4 stops after the third compare: CX = 1, SI = 0x0103, DI = 0x0203, Z clear. -/
theorem scenario_repe_cmpsb :
    (Run.final (emulate host0 100 4 { repe_cmpsb_pending with ip := 0 })).cx = 1 ∧
    (Run.final (emulate host0 100 4 { repe_cmpsb_pending with ip := 0 })).si = 0x103 ∧
    (Run.final (emulate host0 100 4 { repe_cmpsb_pending with ip := 0 })).di = 0x203 ∧
    (Run.final (emulate host0 100 4 { repe_cmpsb_pending with ip := 0 })).f.fZero = false := by
  decide

/-! ## Pointer updates and segments of the string primitives -/

/-- C11: for every string primitive and every SI, DI: with D = 0 the pointer registers
it uses increase by 1 (byte) or 2 (word) modulo 65536, with D = 1 they decrease by the
same amount; MOVS and CMPS update both SI and DI, STOS and SCAS update DI and leave SI
unchanged, LODS updates SI and leaves DI unchanged. -/
theorem string_primitive_pointers (s : Cpu) :
    (((op_movs8 s).si : Int) = pointer_after s.f.fDirection 1 s.si ∧
      ((op_movs8 s).di : Int) = pointer_after s.f.fDirection 1 s.di) ∧
    (((op_movs16 s).si : Int) = pointer_after s.f.fDirection 2 s.si ∧
      ((op_movs16 s).di : Int) = pointer_after s.f.fDirection 2 s.di) ∧
    (((op_cmps8 s).si : Int) = pointer_after s.f.fDirection 1 s.si ∧
      ((op_cmps8 s).di : Int) = pointer_after s.f.fDirection 1 s.di) ∧
    (((op_cmps16 s).si : Int) = pointer_after s.f.fDirection 2 s.si ∧
      ((op_cmps16 s).di : Int) = pointer_after s.f.fDirection 2 s.di) ∧
    (((op_sto8 s).di : Int) = pointer_after s.f.fDirection 1 s.di ∧ (op_sto8 s).si = s.si) ∧
    (((op_sto16 s).di : Int) = pointer_after s.f.fDirection 2 s.di ∧
      (op_sto16 s).si = s.si) ∧
    (((op_scas8 s).di : Int) = pointer_after s.f.fDirection 1 s.di ∧
      (op_scas8 s).si = s.si) ∧
    (((op_scas16 s).di : Int) = pointer_after s.f.fDirection 2 s.di ∧
      (op_scas16 s).si = s.si) ∧
    (((op_lods8 s).si : Int) = pointer_after s.f.fDirection 1 s.si ∧
      (op_lods8 s).di = s.di) ∧
    (((op_lods16 s).si : Int) = pointer_after s.f.fDirection 2 s.si ∧
      (op_lods16 s).di = s.di) := by
  cases hd : s.f.fDirection <;>
    (simp [op_movs8, op_movs16, op_cmps8, op_cmps16, op_sto8, op_sto16, op_scas8, op_scas16,
      op_lods8, op_lods16, update_rep_sidi8, update_rep_sidi16, op_sub8, op_sub16, set_PZS8,
      set_PZS16, set_al, pointer_after, dec16, inc16, dec16by2, inc16by2, hd]
     all_goals omega)

/-- C12, the code at DS: SCASB (3E AE) with AL = 5, ES = 0, DS = 0x10, DI = 0x20, the
byte at ES:DI equal to AL and the byte at DS:DI different: the compare leaves Z
clear, so the operand was read through the overriding DS and not through ES; a compare
against the byte at ES:DI sets Z. -/
theorem scas_destination_follows_override :
    al scasb_override_program =
        read8 scasb_override_program.memory
          (flatten scasb_override_program.es scasb_override_program.di) ∧
      (Run.final (emulate host0 100 4 scasb_override_program)).f.fZero = false ∧
      (op_sub8 scasb_override_program.f (al scasb_override_program)
        (read8 scasb_override_program.memory
          (flatten scasb_override_program.es scasb_override_program.di)) false).2.fZero =
        true := by
  decide

/-! ## Memory, stack and flags word -/

theorem read8_write8 (m : Nat → Nat) (a v x : Nat) :
    read8 (write8 m a v) x = if x = a then v % 0x100 else read8 m x := by
  unfold read8 write8
  by_cases hx : x = a
  · simp [hx]
  · simp [hx]

theorem read8_write16 (m : Nat → Nat) (a v x : Nat) :
    read8 (write16 m a v) x =
      if x = a + 1 then v / 0x100 % 0x100 else if x = a then v % 0x100 else read8 m x := by
  unfold write16
  rw [read8_write8, read8_write8]
  by_cases h1 : x = a + 1
  · simp [h1]
  · by_cases h2 : x = a
    · simp [h2]
    · simp [h1, h2]

theorem read16_write16_same (m : Nat → Nat) (a v : Nat) :
    read16 (write16 m a v) a = v % 0x10000 := by
  unfold read16
  rw [read8_write16, read8_write16]
  simp
  omega

theorem read16_write16_other (m : Nat → Nat) (a v x : Nat) (hx : x + 1 < a ∨ a + 1 < x) :
    read16 (write16 m a v) x = read16 m x := by
  unfold read16
  rw [read8_write16, read8_write16]
  rw [if_neg (by omega), if_neg (by omega), if_neg (by omega), if_neg (by omega)]

theorem materializeFlags_lt (f : Flags) : materializeFlags f < 0x10000 := by
  unfold materializeFlags
  have h1 := Bool.toNat_le f.fCarry
  have h2 := Bool.toNat_le f.fParityEven
  have h3 := Bool.toNat_le f.fAuxCarry
  have h4 := Bool.toNat_le f.fZero
  have h5 := Bool.toNat_le f.fSign
  have h6 := Bool.toNat_le f.fTrap
  have h7 := Bool.toNat_le f.fInterrupt
  have h8 := Bool.toNat_le f.fDirection
  have h9 := Bool.toNat_le f.fOverflow
  omega

/-! ## Software interrupt and interrupt return -/

theorem dispatch_cd (h : Host) (d : Cpu) (hb0 : d._b0 = 0xcd) :
    dispatch h d = Outcome.loop_head (case_cd d) := by
  unfold dispatch
  rw [hb0]
  rfl

theorem dispatch_cf (h : Host) (d : Cpu) (hb0 : d._b0 = 0xcf) :
    dispatch h d = Outcome.loop_head (case_cf d) := by
  unfold dispatch
  rw [hb0]
  rfl

theorem exec_int (h : Host) (s : Cpu) (hop : read8 s.memory (flat_ip s) = 0xcd) :
    exec h s = Outcome.loop_head (case_cd (decode_instruction s (flat_ip s))) :=
  dispatch_cd h _ hop

theorem exec_iret (h : Host) (s : Cpu) (hop : read8 s.memory (flat_ip s) = 0xcf) :
    exec h s = Outcome.loop_head (case_cf (decode_instruction s (flat_ip s))) :=
  dispatch_cf h _ hop

theorem case_cd_flags (s : Cpu) : (case_cd s).f = s.f := by
  cases s; rfl

/-- C13, the claim as stated fails: INT 0x21 executed with I and T set leaves both
set. -/
theorem int_leaves_interrupt_and_trap_set :
    ∃ t, exec host0 int21_program = Outcome.loop_head t ∧
      ¬ (t.f.fInterrupt = false ∧ t.f.fTrap = false) :=
  ⟨_, exec_int host0 int21_program (by decide), by rw [case_cd_flags]; decide⟩

/-- C13 as amended: for every vector n and every machine state, after the INT imm8
handler (opcode 0xCD) completes, the flags I and T, like every other flag, have the
values they had before the instruction. -/
theorem int_keeps_flags (h : Host) (s : Cpu) (hop : read8 s.memory (flat_ip s) = 0xcd) :
    ∃ t, exec h s = Outcome.loop_head t ∧ t.f.fInterrupt = s.f.fInterrupt ∧
      t.f.fTrap = s.f.fTrap ∧ t.f = s.f := by
  have hf : (case_cd (decode_instruction s (flat_ip s))).f = s.f := case_cd_flags _
  exact ⟨_, exec_int h s hop, by rw [hf], by rw [hf], hf⟩

/-- Instance of C13 as amended: INT 0x21 with I and T set. -/
theorem int_keeps_flags_witness :
    ∃ t, exec host0 int21_program = Outcome.loop_head t ∧
      t.f.fInterrupt = int21_program.f.fInterrupt ∧
      t.f.fTrap = int21_program.f.fTrap ∧ t.f = int21_program.f :=
  int_keeps_flags host0 int21_program (by decide)

theorem decode_instruction_keeps (s : Cpu) (p : Nat) :
    (decode_instruction s p).memory = s.memory ∧ (decode_instruction s p).sp = s.sp ∧
    (decode_instruction s p).ss = s.ss ∧ (decode_instruction s p).cs = s.cs ∧
    (decode_instruction s p).ip = s.ip ∧ (decode_instruction s p).f = s.f ∧
    (decode_instruction s p).ax = s.ax ∧ (decode_instruction s p).dx = s.dx :=
  ⟨rfl, rfl, rfl, rfl, rfl, rfl, rfl, rfl⟩

theorem case_cd_fields (s : Cpu) :
    (case_cd s).sp = dec16by2 (dec16by2 (dec16by2 s.sp)) ∧ (case_cd s).ss = s.ss ∧
    (case_cd s).memory =
      write16 (write16 (write16 s.memory (flatten s.ss (dec16by2 s.sp))
          (materializeFlags s.f % 0x10000))
        (flatten s.ss (dec16by2 (dec16by2 s.sp))) (s.cs % 0x10000))
        (flatten s.ss (dec16by2 (dec16by2 (dec16by2 s.sp)))) ((s.ip + 2) % 0x10000) ∧
    (case_cd s).ip = read16 (case_cd s).memory (4 * s._b1) ∧
    (case_cd s).cs = read16 (case_cd s).memory (4 * s._b1 + 2) := by
  cases s; exact ⟨rfl, rfl, rfl, rfl, rfl⟩

theorem case_cf_fields (s : Cpu) :
    (case_cf s).ip = read16 s.memory (flatten s.ss s.sp) ∧
    (case_cf s).cs = read16 s.memory (flatten s.ss (inc16by2 s.sp)) ∧
    (case_cf s).sp = inc16by2 (inc16by2 (inc16by2 s.sp)) := by
  cases s; exact ⟨rfl, rfl, rfl⟩

/-- C14: for every vector n and every state whose stack area does not overlap the
vector table entry: INT n pushes FLAGS, then CS, then IP + 2 (SP decreases by 6,
modulo 65536) and loads IP from the word at linear address 4n and CS from the word at
4n + 2; an IRET executed immediately afterwards pops in the reverse order, so that CS
equals its value before the INT, IP equals the original IP + 2 (modulo 65536) and SP
equals its original value. -/
theorem int_iret_round_trip (h : Host) (s : Cpu) (n : Nat)
    (hop : read8 s.memory (flat_ip s) = 0xcd) (hn : read8 s.memory (flat_ip s + 1) = n)
    (hsp : s.sp < 0x10000) (hcs : s.cs < 0x10000)
    (h2 : stack_slot s 2 + 1 < 4 * n ∨ 4 * n + 3 < stack_slot s 2)
    (h4 : stack_slot s 4 + 1 < 4 * n ∨ 4 * n + 3 < stack_slot s 4)
    (h6 : stack_slot s 6 + 1 < 4 * n ∨ 4 * n + 3 < stack_slot s 6) :
    ∃ t, exec h s = Outcome.loop_head t ∧
      read16 t.memory (stack_slot s 2) = materializeFlags s.f ∧
      read16 t.memory (stack_slot s 4) = s.cs ∧
      read16 t.memory (stack_slot s 6) = (s.ip + 2) % 0x10000 ∧
      t.sp = (s.sp + 0x10000 - 6) % 0x10000 ∧ t.ss = s.ss ∧
      t.ip = read16 s.memory (4 * n) ∧ t.cs = read16 s.memory (4 * n + 2) ∧
      (read8 t.memory (flat_ip t) = 0xcf →
        ∃ u, exec h t = Outcome.loop_head u ∧
          u.cs = s.cs ∧ u.ip = (s.ip + 2) % 0x10000 ∧ u.sp = s.sp) := by
  obtain ⟨hsp', hss', hmem, hip, hcs'⟩ := case_cd_fields (decode_instruction s (flat_ip s))
  have hb1 : (decode_instruction s (flat_ip s))._b1 = n := hn
  have e1 : (decode_instruction s (flat_ip s)).sp = s.sp := rfl
  have e2 : (decode_instruction s (flat_ip s)).ss = s.ss := rfl
  have e3 : (decode_instruction s (flat_ip s)).memory = s.memory := rfl
  have e4 : (decode_instruction s (flat_ip s)).f = s.f := rfl
  have e5 : (decode_instruction s (flat_ip s)).cs = s.cs := rfl
  have e6 : (decode_instruction s (flat_ip s)).ip = s.ip := rfl
  rw [e1, e2, e3, e4, e5, e6] at hmem
  rw [e1] at hsp'
  rw [e2] at hss'
  rw [hb1] at hip hcs'
  have hfl := materializeFlags_lt s.f
  have a2 : flatten s.ss (dec16by2 s.sp) = stack_slot s 2 := by
    simp only [stack_slot, flatten, dec16by2]; omega
  have a4 : flatten s.ss (dec16by2 (dec16by2 s.sp)) = stack_slot s 4 := by
    simp only [stack_slot, flatten, dec16by2]; omega
  have a6 : flatten s.ss (dec16by2 (dec16by2 (dec16by2 s.sp))) = stack_slot s 6 := by
    simp only [stack_slot, flatten, dec16by2]; omega
  rw [a2, a4, a6] at hmem
  have d24 : stack_slot s 2 + 1 < stack_slot s 4 ∨ stack_slot s 4 + 1 < stack_slot s 2 := by
    simp only [stack_slot, flatten]; omega
  have d26 : stack_slot s 2 + 1 < stack_slot s 6 ∨ stack_slot s 6 + 1 < stack_slot s 2 := by
    simp only [stack_slot, flatten]; omega
  have d46 : stack_slot s 4 + 1 < stack_slot s 6 ∨ stack_slot s 6 + 1 < stack_slot s 4 := by
    simp only [stack_slot, flatten]; omega
  have r2 : read16 (case_cd (decode_instruction s (flat_ip s))).memory (stack_slot s 2) =
      materializeFlags s.f := by
    rw [hmem, read16_write16_other _ _ _ _ (by omega), read16_write16_other _ _ _ _ (by omega),
      read16_write16_same]
    omega
  have r4 : read16 (case_cd (decode_instruction s (flat_ip s))).memory (stack_slot s 4) =
      s.cs := by
    rw [hmem, read16_write16_other _ _ _ _ (by omega), read16_write16_same]
    omega
  have r6 : read16 (case_cd (decode_instruction s (flat_ip s))).memory (stack_slot s 6) =
      (s.ip + 2) % 0x10000 := by
    rw [hmem, read16_write16_same]
    omega
  have rv : ∀ x, (x = 4 * n ∨ x = 4 * n + 2) →
      read16 (case_cd (decode_instruction s (flat_ip s))).memory x = read16 s.memory x := by
    intro x hx
    rw [hmem, read16_write16_other _ _ _ _ (by omega), read16_write16_other _ _ _ _ (by omega),
      read16_write16_other _ _ _ _ (by omega)]
  have hspt : (case_cd (decode_instruction s (flat_ip s))).sp = (s.sp + 0x10000 - 6) % 0x10000 := by
    rw [hsp']; simp only [dec16by2]; omega
  refine ⟨_, exec_int h s hop, r2, r4, r6, hspt, hss', ?_, ?_, ?_⟩
  · rw [hip, rv _ (Or.inl rfl)]
  · rw [hcs', rv _ (Or.inr rfl)]
  · intro hret
    obtain ⟨fip, fcs, fsp⟩ := case_cf_fields
      (decode_instruction (case_cd (decode_instruction s (flat_ip s)))
        (flat_ip (case_cd (decode_instruction s (flat_ip s)))))
    obtain ⟨g1, g2, g3, _⟩ := decode_instruction_keeps
      (case_cd (decode_instruction s (flat_ip s)))
      (flat_ip (case_cd (decode_instruction s (flat_ip s))))
    rw [g1, g2, g3, hss', hspt] at fip fcs
    rw [g2, hspt] at fsp
    have b6 : flatten s.ss ((s.sp + 0x10000 - 6) % 0x10000) = stack_slot s 6 := rfl
    have b4 : flatten s.ss (inc16by2 ((s.sp + 0x10000 - 6) % 0x10000)) = stack_slot s 4 := by
      simp only [stack_slot, flatten, inc16by2]; omega
    rw [b6, r6] at fip
    rw [b4, r4] at fcs
    refine ⟨_, exec_iret h _ hret, fcs, fip, ?_⟩
    rw [fsp]
    simp only [inc16by2]
    omega

/-- Instance of C14: INT 0x21 at 0x10:0 with SS:SP = 0x20:0x100, the vector pointing
to an IRET at 0x30:0. -/
theorem int_iret_round_trip_witness :
    ∃ t, exec host0 int21_program = Outcome.loop_head t ∧
      read16 t.memory (stack_slot int21_program 2) = materializeFlags int21_program.f ∧
      read16 t.memory (stack_slot int21_program 4) = int21_program.cs ∧
      read16 t.memory (stack_slot int21_program 6) = (int21_program.ip + 2) % 0x10000 ∧
      t.sp = (int21_program.sp + 0x10000 - 6) % 0x10000 ∧ t.ss = int21_program.ss ∧
      t.ip = read16 int21_program.memory (4 * 0x21) ∧
      t.cs = read16 int21_program.memory (4 * 0x21 + 2) ∧
      (read8 t.memory (flat_ip t) = 0xcf →
        ∃ u, exec host0 t = Outcome.loop_head u ∧
          u.cs = int21_program.cs ∧ u.ip = (int21_program.ip + 2) % 0x10000 ∧
          u.sp = int21_program.sp) :=
  int_iret_round_trip host0 int21_program 0x21 (by decide) (by decide) (by decide) (by decide)
    (by decide) (by decide) (by decide)

/-- The run of INT 0x21 followed by the IRET at its vector target, through `emulate`:
CS:IP is back one past the INT and SP at its original value; the flags I and T are
still set. -/
theorem scenario_int_iret :
    (Run.final (emulate host0 2 3 int21_program)).cs = 0x10 ∧
    (Run.final (emulate host0 2 3 int21_program)).ip = 2 ∧
    (Run.final (emulate host0 2 3 int21_program)).sp = 0x100 ∧
    (Run.final (emulate host0 2 3 int21_program)).f.fInterrupt = true ∧
    (Run.final (emulate host0 2 3 int21_program)).f.fTrap = true := by
  decide

/-! ## Far call and far return -/

theorem dispatch_9a (h : Host) (d : Cpu) (hb0 : d._b0 = 0x9a) :
    dispatch h d = Outcome.loop_head (case_9a d) := by
  unfold dispatch
  rw [hb0]
  rfl

theorem dispatch_cb (h : Host) (d : Cpu) (hb0 : d._b0 = 0xcb) :
    dispatch h d = Outcome.loop_head (case_cb d) := by
  unfold dispatch
  rw [hb0]
  rfl

theorem case_9a_fields (s : Cpu) :
    (case_9a s).sp = dec16by2 (dec16by2 s.sp) ∧ (case_9a s).ss = s.ss ∧
    (case_9a s).memory =
      write16 (write16 s.memory (flatten s.ss (dec16by2 s.sp)) (s.cs % 0x10000))
        (flatten s.ss (dec16by2 (dec16by2 s.sp))) ((s.ip + 5) % 0x10000) ∧
    (case_9a s).ip = s._b12 ∧
    (case_9a s).cs = (read8 (case_9a s).memory (s._pcode + 3) |||
      (read8 (case_9a s).memory (s._pcode + 4) <<< 8)) % 0x10000 := by
  cases s; exact ⟨rfl, rfl, rfl, rfl, rfl⟩

theorem case_cb_fields (s : Cpu) :
    (case_cb s).ip = read16 s.memory (flatten s.ss s.sp) ∧
    (case_cb s).cs = read16 s.memory (flatten s.ss (inc16by2 s.sp)) ∧
    (case_cb s).sp = inc16by2 (inc16by2 s.sp) := by
  cases s; exact ⟨rfl, rfl, rfl⟩

theorem or_shift_eq_read16 (m : Nat → Nat) (a : Nat) :
    (read8 m a ||| (read8 m (a + 1) <<< 8)) % 0x10000 = read16 m a := by
  have h1 : read8 m a < 2 ^ 8 := Nat.mod_lt _ (by decide)
  have h2 : read8 m (a + 1) < 0x100 := Nat.mod_lt _ (by decide)
  have e := Nat.mul_add_lt_is_or h1 (read8 m (a + 1))
  rw [Nat.shiftLeft_eq, Nat.or_comm, Nat.mul_comm, ← e, read16]
  omega

/-- C15, the claim as stated fails: the far CALL 9A 10 00 34 12 executed at 0:0 with
SS:SP = 0:5 pushes CS onto bytes 3 and 4 of the instruction before the handler reads
them, so that CS becomes 0 and not 0x1234, although the target 0x1234:0x0010 holds a
RETF. -/
theorem far_call_segment_read_after_push :
    read8 far_call_on_stack.memory (flatten 0x1234 0x10) = 0xcb ∧
      ∃ t, exec host0 far_call_on_stack = Outcome.loop_head t ∧
        ¬ (t.cs = 0x1234 ∧ t.ip = 0x10) :=
  ⟨by decide, _, dispatch_9a host0 _ (by decide), by decide⟩

/-- C15 as amended: for every far CALL (0x9A off_lo off_hi seg_lo seg_hi) executed at
CS0:IP0 with stack pointer SP0, when the two words it pushes do not overlap the
segment bytes of the instruction: after the CALL, CS = seg and IP = off (both read
little-endian from the instruction bytes); and if the target then holds a RETF (0xCB),
after the RETF CS = CS0, IP = (IP0 + 5) mod 65536 and SP = SP0. -/
theorem far_call_retf_round_trip (h : Host) (s : Cpu) (off seg : Nat)
    (hop : read8 s.memory (flat_ip s) = 0x9a)
    (hoff : read16 s.memory (flat_ip s + 1) = off)
    (hseg : read16 s.memory (flat_ip s + 3) = seg)
    (hsp : s.sp < 0x10000) (hcs : s.cs < 0x10000)
    (h2 : stack_slot s 2 + 1 < flat_ip s + 3 ∨ flat_ip s + 4 < stack_slot s 2)
    (h4 : stack_slot s 4 + 1 < flat_ip s + 3 ∨ flat_ip s + 4 < stack_slot s 4) :
    ∃ t, exec h s = Outcome.loop_head t ∧ t.cs = seg ∧ t.ip = off ∧
      (read8 t.memory (flat_ip t) = 0xcb →
        ∃ u, exec h t = Outcome.loop_head u ∧
          u.cs = s.cs ∧ u.ip = (s.ip + 5) % 0x10000 ∧ u.sp = s.sp) := by
  obtain ⟨hsp', hss', hmem, hip, hcs'⟩ := case_9a_fields (decode_instruction s (flat_ip s))
  obtain ⟨e3, e1, e2, e5, e6, _⟩ := decode_instruction_keeps s (flat_ip s)
  have hpc : (decode_instruction s (flat_ip s))._pcode = flat_ip s := rfl
  have hb12 : (decode_instruction s (flat_ip s))._b12 = read16 s.memory (flat_ip s + 1) := rfl
  rw [e1, e2, e3, e5, e6] at hmem
  rw [e1] at hsp'
  rw [e2] at hss'
  rw [hpc, or_shift_eq_read16] at hcs'
  have a2 : flatten s.ss (dec16by2 s.sp) = stack_slot s 2 := by
    simp only [stack_slot, flatten, dec16by2]; omega
  have a4 : flatten s.ss (dec16by2 (dec16by2 s.sp)) = stack_slot s 4 := by
    simp only [stack_slot, flatten, dec16by2]; omega
  rw [a2, a4] at hmem
  have d24 : stack_slot s 2 + 1 < stack_slot s 4 ∨ stack_slot s 4 + 1 < stack_slot s 2 := by
    simp only [stack_slot, flatten]; omega
  have r2 : read16 (case_9a (decode_instruction s (flat_ip s))).memory (stack_slot s 2) =
      s.cs := by
    rw [hmem, read16_write16_other _ _ _ _ (by omega), read16_write16_same]
    omega
  have r4 : read16 (case_9a (decode_instruction s (flat_ip s))).memory (stack_slot s 4) =
      (s.ip + 5) % 0x10000 := by
    rw [hmem, read16_write16_same]
    omega
  have rseg : read16 (case_9a (decode_instruction s (flat_ip s))).memory (flat_ip s + 3) =
      read16 s.memory (flat_ip s + 3) := by
    rw [hmem, read16_write16_other _ _ _ _ (by omega), read16_write16_other _ _ _ _ (by omega)]
  have hspt : (case_9a (decode_instruction s (flat_ip s))).sp = (s.sp + 0x10000 - 4) % 0x10000 := by
    rw [hsp']; simp only [dec16by2]; omega
  refine ⟨_, dispatch_9a h _ hop, ?_, ?_, ?_⟩
  · rw [hcs', rseg, hseg]
  · rw [hip, hb12, hoff]
  · intro hret
    obtain ⟨fip, fcs, fsp⟩ := case_cb_fields
      (decode_instruction (case_9a (decode_instruction s (flat_ip s)))
        (flat_ip (case_9a (decode_instruction s (flat_ip s)))))
    obtain ⟨g1, g2, g3, _⟩ := decode_instruction_keeps
      (case_9a (decode_instruction s (flat_ip s)))
      (flat_ip (case_9a (decode_instruction s (flat_ip s))))
    rw [g1, g2, g3, hss', hspt] at fip fcs
    rw [g2, hspt] at fsp
    have b4 : flatten s.ss ((s.sp + 0x10000 - 4) % 0x10000) = stack_slot s 4 := rfl
    have b2 : flatten s.ss (inc16by2 ((s.sp + 0x10000 - 4) % 0x10000)) = stack_slot s 2 := by
      simp only [stack_slot, flatten, inc16by2]; omega
    rw [b4, r4] at fip
    rw [b2, r2] at fcs
    refine ⟨_, dispatch_cb h _ hret, fcs, fip, ?_⟩
    rw [fsp]
    simp only [inc16by2]
    omega

/-- Instance of C15 as amended: call 0x1234:0x0010 at 0x10:0 with SS:SP = 0x20:0x100
and a RETF at the target. -/
theorem far_call_retf_round_trip_witness :
    ∃ t, exec host0 far_call_program = Outcome.loop_head t ∧ t.cs = 0x1234 ∧ t.ip = 0x10 ∧
      (read8 t.memory (flat_ip t) = 0xcb →
        ∃ u, exec host0 t = Outcome.loop_head u ∧
          u.cs = far_call_program.cs ∧ u.ip = (far_call_program.ip + 5) % 0x10000 ∧
          u.sp = far_call_program.sp) :=
  far_call_retf_round_trip host0 far_call_program 0x10 0x1234 (by decide) (by decide)
    (by decide) (by decide) (by decide) (by decide) (by decide)

/-- The specification's far call scenario run through `emulate`: after the CALL, the
RETF and the HLT, CS:IP is one past the CALL and SP at its original value. -/
theorem scenario_far_call :
    (Run.final (emulate host0 10 4 far_call_program)).cs = 0x10 ∧
    (Run.final (emulate host0 10 4 far_call_program)).ip = 5 ∧
    (Run.final (emulate host0 10 4 far_call_program)).sp = 0x100 := by
  decide

/-! ## Multiplication and division -/

theorem dispatch_f6 (h : Host) (d : Cpu) (hb0 : d._b0 = 0xf6) :
    dispatch h d = case_f6 h d := by
  unfold dispatch
  rw [hb0]
  rfl

theorem dispatch_f7 (h : Host) (d : Cpu) (hb0 : d._b0 = 0xf7) :
    dispatch h d = case_f7 h d := by
  unfold dispatch
  rw [hb0]
  rfl

theorem load_after_count (d : Cpu) (n : Nat) (p : Ptr) :
    load8 { d with _bc := n } p = load8 d p ∧ load16 { d with _bc := n } p = load16 d p := by
  cases d; cases p <;> exact ⟨rfl, rfl⟩

theorem get_rm_ptr_after_count (d : Cpu) (n rm : Nat) :
    (get_rm_ptr { d with _bc := n } rm).1 = (get_rm_ptr d rm).1 ∧
    (get_rm_ptr { d with _bc := n } rm).2 =
      { d with _bc := n + displacement_bytes d rm } := by
  cases d; exact ⟨rfl, rfl⟩

theorem reg8_value_lt (s : Cpu) (i : Nat) : reg8_value s i < 0x100 := by
  unfold reg8_value
  split <;> omega

theorem or_low_byte (x v : Nat) : ((x &&& 0xff00) ||| (v % 0x100)) % 0x100 = v % 0x100 := by
  have e : ∀ y : Nat, y % 0x100 = y &&& 0xff := fun y => (Nat.and_pow_two_sub_one_eq_mod y 8).symm
  rw [e ((x &&& 0xff00) ||| (v % 0x100))]
  apply Nat.eq_of_testBit_eq
  intro i
  simp only [Nat.testBit_and, Nat.testBit_or]
  by_cases hi : i < 8
  · have h1 : (0xff00 : Nat).testBit i = false := by interval_cases i <;> rfl
    have h2 : (0xff : Nat).testBit i = true := by interval_cases i <;> rfl
    simp [h1, h2]
  · have h2 : (0xff : Nat).testBit i = false := by
      apply Nat.testBit_lt_two_pow
      calc (0xff : Nat) < 2 ^ 8 := by decide
        _ ≤ 2 ^ i := Nat.pow_le_pow_right (by decide) (by omega)
    have h3 : (v % 0x100).testBit i = false := by
      apply Nat.testBit_lt_two_pow
      calc v % 0x100 < 2 ^ 8 := Nat.mod_lt _ (by decide)
        _ ≤ 2 ^ i := Nat.pow_le_pow_right (by decide) (by omega)
    simp [h2, h3]

theorem case_f6_div (h : Host) (d : Cpu) (hreg : d._reg = 6) :
    case_f6 h d = Outcome.loop_head (advance_ip (div_rm8 { d with _bc := d._bc + 1 })) := by
  unfold case_f6
  rw [if_neg (by omega), if_neg (by omega), if_pos hreg]

theorem case_f7_div (h : Host) (d : Cpu) (hreg : d._reg = 6) :
    case_f7 h d = Outcome.loop_head (advance_ip (div_rm16 { d with _bc := d._bc + 1 })) := by
  unfold case_f7
  rw [if_neg (by omega), if_neg (by omega), if_pos hreg]

theorem case_f7_mul (h : Host) (d : Cpu) (hreg : d._reg = 4) :
    case_f7 h d = Outcome.loop_head (advance_ip (mul_rm16 { d with _bc := d._bc + 1 })) := by
  unfold case_f7
  rw [if_pos hreg]

theorem div_rm8_body_fields (d : Cpu) (n rhs : Nat) :
    (div_rm8_body { d with _bc := n } rhs).sp = d.sp ∧
    (div_rm8_body { d with _bc := n } rhs).ss = d.ss ∧
    (div_rm8_body { d with _bc := n } rhs).cs = d.cs ∧
    (div_rm8_body { d with _bc := n } rhs).memory = d.memory ∧
    (div_rm8_body { d with _bc := n } rhs).ip = d.ip ∧
    (div_rm8_body { d with _bc := n } rhs)._bc = n ∧
    (div_rm8_body { d with _bc := n } rhs).dx = d.dx ∧
    (div_rm8_body { d with _bc := n } rhs).ax = (d.ax % 0x10000 % rhs % 0x100) * 0x100 +
      ((d.ax &&& 0xff00) ||| (d.ax % 0x10000 / rhs % 0x100 % 0x100)) % 0x10000 % 0x100 := by
  cases d; exact ⟨rfl, rfl, rfl, rfl, rfl, rfl, rfl, rfl⟩

theorem div_rm16_body_fields (d : Cpu) (n rhs : Nat) :
    (div_rm16_body { d with _bc := n } rhs).sp = d.sp ∧
    (div_rm16_body { d with _bc := n } rhs).ss = d.ss ∧
    (div_rm16_body { d with _bc := n } rhs).cs = d.cs ∧
    (div_rm16_body { d with _bc := n } rhs).memory = d.memory ∧
    (div_rm16_body { d with _bc := n } rhs).ip = d.ip ∧
    (div_rm16_body { d with _bc := n } rhs)._bc = n ∧
    (div_rm16_body { d with _bc := n } rhs).ax =
      ((d.dx <<< 16) + d.ax) % 0x100000000 / rhs % 0x10000 ∧
    (div_rm16_body { d with _bc := n } rhs).dx =
      ((d.dx <<< 16) + d.ax) % 0x100000000 % rhs % 0x10000 := by
  cases d; exact ⟨rfl, rfl, rfl, rfl, rfl, rfl, rfl, rfl⟩

theorem advance_ip_fields (s : Cpu) :
    (advance_ip s).sp = s.sp ∧ (advance_ip s).ss = s.ss ∧ (advance_ip s).cs = s.cs ∧
    (advance_ip s).memory = s.memory ∧ (advance_ip s).ax = s.ax ∧
    (advance_ip s).dx = s.dx ∧ (advance_ip s).f = s.f ∧
    (advance_ip s).ip = (s.ip + s._bc) % 0x10000 := by
  cases s; exact ⟨rfl, rfl, rfl, rfl, rfl, rfl, rfl, rfl⟩

theorem div_rm8_eq (d : Cpu) :
    div_rm8 { d with _bc := d._bc + 1 } =
      if load8 d (get_preg8 d._rm) ≠ 0
      then div_rm8_body { d with _bc := d._bc + 1 } (load8 d (get_preg8 d._rm))
      else { d with _bc := d._bc + 1 } := by
  cases d; rfl

theorem div_rm16_eq (d : Cpu) :
    div_rm16 { d with _bc := d._bc + 1 } =
      if load16 d (get_rm_ptr d d._rm).1 ≠ 0
      then div_rm16_body { d with _bc := d._bc + 1 + displacement_bytes d d._rm }
        (load16 d (get_rm_ptr d d._rm).1)
      else { d with _bc := d._bc + 1 + displacement_bytes d d._rm } := by
  cases d; rfl

theorem mul_rm16_fields (d : Cpu) :
    (mul_rm16 { d with _bc := d._bc + 1 }).dx =
      (((d.ax * load16 d (get_rm_ptr d d._rm).1) % 0x100000000) >>> 16) % 0x10000 ∧
    (mul_rm16 { d with _bc := d._bc + 1 }).ax =
      ((d.ax * load16 d (get_rm_ptr d d._rm).1) % 0x100000000 &&& 0xffff) % 0x10000 ∧
    (mul_rm16 { d with _bc := d._bc + 1 }).f.fCarry =
      decide ((d.ax * load16 d (get_rm_ptr d d._rm).1) % 0x100000000 > 0xffff) ∧
    (mul_rm16 { d with _bc := d._bc + 1 }).f.fOverflow =
      decide ((d.ax * load16 d (get_rm_ptr d d._rm).1) % 0x100000000 > 0xffff) ∧
    (mul_rm16 { d with _bc := d._bc + 1 })._bc = d._bc + 1 + displacement_bytes d d._rm ∧
    (mul_rm16 { d with _bc := d._bc + 1 }).ip = d.ip := by
  cases d; exact ⟨rfl, rfl, rfl, rfl, rfl, rfl⟩

theorem mul_rm8_fields (d : Cpu) :
    (mul_rm8 { d with _bc := d._bc + 1 }).ax =
      (al d * load8 d (get_rm_ptr d d._rm).1) % 0x10000 ∧
    (mul_rm8 { d with _bc := d._bc + 1 }).f.fCarry = false ∧
    (mul_rm8 { d with _bc := d._bc + 1 }).f.fOverflow = false := by
  cases d; exact ⟨rfl, rfl, rfl⟩

theorem mul16_step (d t : Cpu) (ht : t = advance_ip (mul_rm16 { d with _bc := d._bc + 1 }))
    (hax : d.ax < 0x10000) (hv : load16 d (get_rm_ptr d d._rm).1 < 0x10000) :
    t.dx * 0x10000 + t.ax = d.ax * load16 d (get_rm_ptr d d._rm).1 ∧
    t.dx < 0x10000 ∧ t.ax < 0x10000 ∧
    (t.f.fCarry = true ↔ t.dx ≠ 0) ∧ (t.f.fOverflow = true ↔ t.dx ≠ 0) ∧
    t.ip = (d.ip + (d._bc + 1 + displacement_bytes d d._rm)) % 0x10000 := by
  obtain ⟨k1, k2, k3, k4, k5, k6⟩ := mul_rm16_fields d
  obtain ⟨_, _, _, _, a5, a6, a7, a8⟩ :=
    advance_ip_fields (mul_rm16 { d with _bc := d._bc + 1 })
  rw [← ht] at a5 a6 a7 a8
  rw [a5, a6, a7, a8, k1, k2, k3, k4, k5, k6]
  have hp : d.ax * load16 d (get_rm_ptr d d._rm).1 < 0x10000 * 0x10000 :=
    Nat.mul_lt_mul'' hax hv
  generalize d.ax * load16 d (get_rm_ptr d d._rm).1 = p at hp
  rw [Nat.shiftRight_eq_div_pow, (and_mask _).2.2.2.1]
  simp only [decide_eq_true_eq]
  refine ⟨?_, ?_, ?_, ?_, ?_, trivial⟩ <;> omega

/-- C20: for MUL r/m16 (opcode 0xF7, reg = 4) with every 16-bit AX and every 16-bit
operand v read through the ModR/M byte, the instruction completes and afterwards
DX * 65536 + AX = AX0 * v as an unsigned product (DX and AX being 16-bit values), and
C and O are each true exactly when the resulting DX is non-zero. -/
theorem mul_rm16_exact_product (h : Host) (s : Cpu)
    (hop : read8 s.memory (flat_ip s) = 0xf7)
    (hreg : (decode_instruction s (flat_ip s))._reg = 4)
    (hax : s.ax < 0x10000) (hv : rm16_operand s < 0x10000) :
    ∃ t, exec h s = Outcome.loop_head t ∧
      t.dx * 0x10000 + t.ax = s.ax * rm16_operand s ∧
      t.dx < 0x10000 ∧ t.ax < 0x10000 ∧
      (t.f.fCarry = true ↔ t.dx ≠ 0) ∧ (t.f.fOverflow = true ↔ t.dx ≠ 0) := by
  have hx := (dispatch_f7 h _ hop).trans (case_f7_mul h _ hreg)
  obtain ⟨m1, m2, m3, m4, m5, _⟩ := mul16_step (decode_instruction s (flat_ip s)) _ rfl hax hv
  exact ⟨_, hx, m1, m2, m3, m4, m5⟩

/-- Instance of C20: MUL word [0x0200] with AX = 0x1234 and the word 0x0100 at
DS:0x0200 gives DX:AX = 0x0012:0x3400 with C and O set. -/
theorem mul_rm16_exact_product_witness :
    rm16_operand mul_mem_state = 0x100 ∧
    ∃ t, exec host0 mul_mem_state = Outcome.loop_head t ∧
      t.dx * 0x10000 + t.ax = mul_mem_state.ax * rm16_operand mul_mem_state ∧
      t.dx < 0x10000 ∧ t.ax < 0x10000 ∧
      (t.f.fCarry = true ↔ t.dx ≠ 0) ∧ (t.f.fOverflow = true ↔ t.dx ≠ 0) :=
  ⟨by decide, mul_rm16_exact_product host0 mul_mem_state (by decide) (by decide) (by decide)
    (by decide)⟩

theorem div8_step (d t : Cpu) (ht : t = advance_ip (div_rm8 { d with _bc := d._bc + 1 }))
    (hax : d.ax < 0x10000) :
    t.sp = d.sp ∧ t.ss = d.ss ∧ t.cs = d.cs ∧ t.memory = d.memory ∧
    t.ip = (d.ip + (d._bc + 1)) % 0x10000 ∧
    (load8 d (get_preg8 d._rm) = 0 → t.ax = d.ax ∧ t.dx = d.dx ∧ t.f = d.f) ∧
    (load8 d (get_preg8 d._rm) ≠ 0 →
      al t = d.ax / load8 d (get_preg8 d._rm) % 0x100 ∧
      ah t = d.ax % load8 d (get_preg8 d._rm) ∧ t.dx = d.dx) := by
  rw [div_rm8_eq] at ht
  by_cases hz : load8 d (get_preg8 d._rm) = 0
  · rw [if_neg (not_not.mpr hz)] at ht
    subst ht
    exact ⟨rfl, rfl, rfl, rfl, rfl, fun _ => ⟨rfl, rfl, rfl⟩, fun hne => absurd hz hne⟩
  · rw [if_pos hz] at ht
    obtain ⟨b1, b2, b3, b4, b5, b6, b7, b8⟩ :=
      div_rm8_body_fields d (d._bc + 1) (load8 d (get_preg8 d._rm))
    obtain ⟨a1, a2, a3, a4, a5, a6, _, a8⟩ :=
      advance_ip_fields (div_rm8_body { d with _bc := d._bc + 1 } (load8 d (get_preg8 d._rm)))
    rw [← ht] at a1 a2 a3 a4 a5 a6 a8
    have hv : load8 d (get_preg8 d._rm) < 0x100 := reg8_value_lt d d._rm
    have hr : d.ax % load8 d (get_preg8 d._rm) < load8 d (get_preg8 d._rm) :=
      Nat.mod_lt _ (Nat.pos_of_ne_zero hz)
    have hlow := or_low_byte d.ax (d.ax / load8 d (get_preg8 d._rm))
    have hmm : d.ax % 0x10000 = d.ax := Nat.mod_eq_of_lt hax
    rw [hmm, Nat.mod_mod] at b8
    refine ⟨a1.trans b1, a2.trans b2, a3.trans b3, a4.trans b4, ?_, fun h0 => absurd h0 hz,
      fun _ => ⟨?_, ?_, a6.trans b7⟩⟩
    · rw [a8, b5, b6]
    · rw [al, (and_mask _).2.1, a5, b8]
      omega
    · rw [ah, a5, b8]
      omega

theorem div16_step (d t : Cpu) (ht : t = advance_ip (div_rm16 { d with _bc := d._bc + 1 }))
    (hax : d.ax < 0x10000) (hdx : d.dx < 0x10000) :
    t.sp = d.sp ∧ t.ss = d.ss ∧ t.cs = d.cs ∧ t.memory = d.memory ∧
    t.ip = (d.ip + (d._bc + 1 + displacement_bytes d d._rm)) % 0x10000 ∧
    (load16 d (get_rm_ptr d d._rm).1 = 0 → t.ax = d.ax ∧ t.dx = d.dx ∧ t.f = d.f) ∧
    (load16 d (get_rm_ptr d d._rm).1 ≠ 0 →
      t.ax = (d.dx * 0x10000 + d.ax) / load16 d (get_rm_ptr d d._rm).1 % 0x10000 ∧
      t.dx = (d.dx * 0x10000 + d.ax) % load16 d (get_rm_ptr d d._rm).1 % 0x10000) := by
  rw [div_rm16_eq] at ht
  by_cases hz : load16 d (get_rm_ptr d d._rm).1 = 0
  · rw [if_neg (not_not.mpr hz)] at ht
    subst ht
    exact ⟨rfl, rfl, rfl, rfl, rfl, fun _ => ⟨rfl, rfl, rfl⟩, fun hne => absurd hz hne⟩
  · rw [if_pos hz] at ht
    obtain ⟨b1, b2, b3, b4, b5, b6, b7, b8⟩ :=
      div_rm16_body_fields d (d._bc + 1 + displacement_bytes d d._rm)
        (load16 d (get_rm_ptr d d._rm).1)
    obtain ⟨a1, a2, a3, a4, a5, a6, _, a8⟩ :=
      advance_ip_fields (div_rm16_body { d with _bc := d._bc + 1 + displacement_bytes d d._rm }
        (load16 d (get_rm_ptr d d._rm).1))
    rw [← ht] at a1 a2 a3 a4 a5 a6 a8
    have hl : ((d.dx <<< 16) + d.ax) % 0x100000000 = d.dx * 0x10000 + d.ax := by
      rw [Nat.shiftLeft_eq]
      omega
    rw [hl] at b7 b8
    refine ⟨a1.trans b1, a2.trans b2, a3.trans b3, a4.trans b4, ?_, fun h0 => absurd h0 hz,
      fun _ => ⟨a5.trans b7, a6.trans b8⟩⟩
    rw [a8, b5, b6]

/-- C16, the claim as stated fails: DIV BL with AX = 0x0100 and BL = 0 dispatches no
interrupt (SP stays 0x100, CS stays 0x10 and IP becomes 2, although vector 0 holds
0x0030:0x0008), and DIV BX with DX:AX = 0x10000 and BX = 1, whose quotient does not
fit in AX, does not either. -/
theorem div_dispatches_no_interrupt :
    (rm8_operand div_bl_zero = 0 ∧
      ∃ t, exec host0 div_bl_zero = Outcome.loop_head t ∧
        ¬ (t.sp = (div_bl_zero.sp + 0x10000 - 6) % 0x10000 ∧
            t.ip = read16 div_bl_zero.memory 0 ∧ t.cs = read16 div_bl_zero.memory 2) ∧
        t.sp = 0x100 ∧ t.cs = 0x10 ∧ t.ip = 2) ∧
    (0x10000 ≤ (div_bx_overflow.dx * 0x10000 + div_bx_overflow.ax) /
        rm16_operand div_bx_overflow ∧
      ∃ t, exec host0 div_bx_overflow = Outcome.loop_head t ∧
        ¬ (t.sp = (div_bx_overflow.sp + 0x10000 - 6) % 0x10000 ∧
            t.ip = read16 div_bx_overflow.memory 0 ∧
            t.cs = read16 div_bx_overflow.memory 2) ∧
        t.sp = 0x100 ∧ t.cs = 0x10 ∧ t.ip = 2) :=
  ⟨⟨by decide, _, (dispatch_f6 host0 _ (by decide)).trans (case_f6_div host0 _ (by decide)),
      by decide⟩,
    ⟨by decide, _, (dispatch_f7 host0 _ (by decide)).trans (case_f7_div host0 _ (by decide)),
      by decide⟩⟩

/-- With mod = 3 and the word bit clear, `get_rm_ptr( _rm )` is the byte register
`get_preg8( _rm )` and no displacement byte follows the ModR/M byte. -/
theorem get_rm_ptr_register8 (d : Cpu) (hmod : d._mod = 3) (hw : d._isword = false) :
    (get_rm_ptr d d._rm).1 = get_preg8 d._rm ∧ displacement_bytes d d._rm = 0 := by
  unfold get_rm_ptr displacement_bytes get_preg8
  rw [hmod, hw]
  exact ⟨rfl, rfl⟩

/-- C16 as amended: for DIV r/m8 and DIV r/m16 (opcodes 0xF6 and 0xF7 with reg = 6) and
every 16-bit AX and DX, no interrupt is dispatched, whatever the divisor and the
quotient: control returns to the loop head with SP, SS, CS and the memory unchanged.
For DIV r/m8 with a register operand (mod = 3) and for DIV r/m16 with every operand, IP
advances past the instruction; with divisor 0 the instruction changes neither AX nor
DX nor the flags; with a non-zero divisor d, DIV r/m8 leaves AL = (AX div d) mod 256
and AH = AX mod d, and DIV r/m16 leaves AX = (DX:AX div d) mod 65536 and
DX = (DX:AX mod d) mod 65536: a quotient that does not fit is truncated.  (The operand
that DIV r/m8 reads when mod is not 3 is the subject of C38 and is left out here.) -/
theorem div_skips_or_truncates (h : Host) (s : Cpu)
    (hreg : (decode_instruction s (flat_ip s))._reg = 6)
    (hax : s.ax < 0x10000) (hdx : s.dx < 0x10000) :
    (read8 s.memory (flat_ip s) = 0xf6 →
      ∃ t, exec h s = Outcome.loop_head t ∧
        t.sp = s.sp ∧ t.ss = s.ss ∧ t.cs = s.cs ∧ t.memory = s.memory ∧
        ((decode_instruction s (flat_ip s))._mod = 3 →
          t.ip = (s.ip + modrm_length s) % 0x10000 ∧
          (rm8_operand s = 0 → t.ax = s.ax ∧ t.dx = s.dx ∧ t.f = s.f) ∧
          (rm8_operand s ≠ 0 →
            al t = s.ax / rm8_operand s % 0x100 ∧ ah t = s.ax % rm8_operand s ∧
            t.dx = s.dx))) ∧
    (read8 s.memory (flat_ip s) = 0xf7 →
      ∃ t, exec h s = Outcome.loop_head t ∧
        t.sp = s.sp ∧ t.ss = s.ss ∧ t.cs = s.cs ∧ t.memory = s.memory ∧
        t.ip = (s.ip + modrm_length s) % 0x10000 ∧
        (rm16_operand s = 0 → t.ax = s.ax ∧ t.dx = s.dx ∧ t.f = s.f) ∧
        (rm16_operand s ≠ 0 →
          t.ax = (s.dx * 0x10000 + s.ax) / rm16_operand s % 0x10000 ∧
          t.dx = (s.dx * 0x10000 + s.ax) % rm16_operand s % 0x10000)) := by
  refine ⟨fun hop => ?_, fun hop => ⟨_, (dispatch_f7 h _ hop).trans (case_f7_div h _ hreg),
    div16_step (decode_instruction s (flat_ip s)) _ rfl hax hdx⟩⟩
  obtain ⟨a1, a2, a3, a4, a5, a6, a7⟩ :=
    div8_step (decode_instruction s (flat_ip s)) _ rfl hax
  refine ⟨_, (dispatch_f6 h _ hop).trans (case_f6_div h _ hreg), a1, a2, a3, a4,
    fun hmod => ?_⟩
  have hw : (decode_instruction s (flat_ip s))._isword = false := by
    show ((read8 s.memory (flat_ip s) &&& 1) != 0) = false
    rw [hop]
    rfl
  obtain ⟨e1, e2⟩ := get_rm_ptr_register8 _ hmod hw
  have e3 : rm8_operand s =
      load8 (decode_instruction s (flat_ip s))
        (get_preg8 (decode_instruction s (flat_ip s))._rm) := by
    unfold rm8_operand
    rw [e1]
  have e4 : modrm_length s = 2 := by
    unfold modrm_length
    rw [e2]
  rw [e3, e4]
  exact ⟨a5, a6, a7⟩

/-- Instances of C16 as amended: DIV BL (mod = 3) with AX = 0x0100 and BL = 0, and
DIV BX with DX:AX = 0x10000 and BX = 1. -/
theorem div_skips_or_truncates_witness :
    ((decode_instruction div_bl_zero (flat_ip div_bl_zero))._mod = 3 ∧
      rm8_operand div_bl_zero = 0 ∧
      ∃ t, exec host0 div_bl_zero = Outcome.loop_head t ∧
        t.sp = div_bl_zero.sp ∧ t.ss = div_bl_zero.ss ∧ t.cs = div_bl_zero.cs ∧
        t.memory = div_bl_zero.memory ∧
        ((decode_instruction div_bl_zero (flat_ip div_bl_zero))._mod = 3 →
          t.ip = (div_bl_zero.ip + modrm_length div_bl_zero) % 0x10000 ∧
          (rm8_operand div_bl_zero = 0 →
            t.ax = div_bl_zero.ax ∧ t.dx = div_bl_zero.dx ∧ t.f = div_bl_zero.f) ∧
          (rm8_operand div_bl_zero ≠ 0 →
            al t = div_bl_zero.ax / rm8_operand div_bl_zero % 0x100 ∧
            ah t = div_bl_zero.ax % rm8_operand div_bl_zero ∧ t.dx = div_bl_zero.dx))) ∧
    (rm16_operand div_bx_overflow = 1 ∧
      ∃ t, exec host0 div_bx_overflow = Outcome.loop_head t ∧
        t.sp = div_bx_overflow.sp ∧ t.ss = div_bx_overflow.ss ∧
        t.cs = div_bx_overflow.cs ∧ t.memory = div_bx_overflow.memory ∧
        t.ip = (div_bx_overflow.ip + modrm_length div_bx_overflow) % 0x10000 ∧
        (rm16_operand div_bx_overflow = 0 →
          t.ax = div_bx_overflow.ax ∧ t.dx = div_bx_overflow.dx ∧
          t.f = div_bx_overflow.f) ∧
        (rm16_operand div_bx_overflow ≠ 0 →
          t.ax = (div_bx_overflow.dx * 0x10000 + div_bx_overflow.ax) /
            rm16_operand div_bx_overflow % 0x10000 ∧
          t.dx = (div_bx_overflow.dx * 0x10000 + div_bx_overflow.ax) %
            rm16_operand div_bx_overflow % 0x10000)) :=
  ⟨⟨by decide, by decide,
      (div_skips_or_truncates host0 div_bl_zero (by decide) (by decide) (by decide)).1
        (by decide)⟩,
    ⟨by decide,
      (div_skips_or_truncates host0 div_bx_overflow (by decide) (by decide) (by decide)).2
        (by decide)⟩⟩

/-- C17, evaluated at two failing inputs.  IDIV BL with AX = 6 and BL = 0xFE (-2)
leaves AL = 0 and AH = 6, where the signed quotient is -3 (AL = 0xFD) and the
remainder 0: the byte divisor is zero-extended.  IDIV BX with DX:AX = 7 and
BX = 0xFFFE (-2) leaves the quotient AX = 0xFFFD (-3) and DX = 7, where the matching
remainder is 1: quotient * signed(d) + remainder is 13 and not the dividend 7. -/
theorem idiv_takes_divisor_unsigned :
    (∃ t, exec host0 idiv_bl_negative = Outcome.loop_head t ∧
        al t = 0 ∧ ah t = 6 ∧
        (signed16 idiv_bl_negative.ax).tdiv (signed8 (rm8_operand idiv_bl_negative)) = -3 ∧
        ¬ (signed8 (al t) =
            (signed16 idiv_bl_negative.ax).tdiv (signed8 (rm8_operand idiv_bl_negative)))) ∧
    (∃ t, exec host0 idiv_bx_negative = Outcome.loop_head t ∧
        t.ax = 0xfffd ∧ t.dx = 7 ∧
        signed16 t.ax =
          (signed32 (idiv_bx_negative.dx * 0x10000 + idiv_bx_negative.ax)).tdiv
            (signed16 (rm16_operand idiv_bx_negative)) ∧
        ¬ (signed16 t.ax * signed16 (rm16_operand idiv_bx_negative) + signed16 t.dx =
            signed32 (idiv_bx_negative.dx * 0x10000 + idiv_bx_negative.ax))) :=
  ⟨⟨_, (dispatch_f6 host0 _ (by decide)).trans rfl, by decide⟩,
    ⟨_, (dispatch_f7 host0 _ (by decide)).trans rfl, by decide⟩⟩

theorem case_f6_mul (h : Host) (d : Cpu) (hreg : d._reg = 4) :
    case_f6 h d = Outcome.loop_head (advance_ip (mul_rm8 { d with _bc := d._bc + 1 })) := by
  unfold case_f6
  rw [if_pos hreg]

theorem mul_rm8_product_and_flags (h : Host) (s : Cpu)
    (hop : read8 s.memory (flat_ip s) = 0xf6)
    (hreg : (decode_instruction s (flat_ip s))._reg = 4) :
    ∃ t, exec h s = Outcome.loop_head t ∧ t.ax = al s * rm8_operand s ∧
      t.f.fCarry = false ∧ t.f.fOverflow = false := by
  have hx := (dispatch_f6 h _ hop).trans (case_f6_mul h _ hreg)
  obtain ⟨k1, k2, k3⟩ := mul_rm8_fields (decode_instruction s (flat_ip s))
  obtain ⟨_, _, _, _, a5, _, a7, _⟩ := advance_ip_fields
    (mul_rm8 { decode_instruction s (flat_ip s) with
      _bc := (decode_instruction s (flat_ip s))._bc + 1 })
  refine ⟨_, hx, ?_, ?_, ?_⟩
  · rw [a5, k1]
    have h1 : al (decode_instruction s (flat_ip s)) < 0x100 := by
      rw [al, (and_mask _).2.1]
      omega
    have h2 : load8 (decode_instruction s (flat_ip s))
        (get_rm_ptr (decode_instruction s (flat_ip s))
          (decode_instruction s (flat_ip s))._rm).1 < 0x100 := by
      unfold load8
      split
      · exact reg8_value_lt _ _
      · omega
      · exact Nat.mod_lt _ (by decide)
    have h3 := Nat.mul_lt_mul'' h1 h2
    exact Nat.mod_eq_of_lt (by omega)
  · rw [a7, k2]
  · rw [a7, k3]

/-- C18, evaluated at a failing input: MUL BL with AL = 0x10 and BL = 0x10 leaves
AX = 0x0100, so AH = 1 is non-zero, and yet C and O are both false. -/
theorem mul_rm8_clears_carry_and_overflow :
    ∃ t, exec host0 mul_bl_state = Outcome.loop_head t ∧
      t.ax = al mul_bl_state * rm8_operand mul_bl_state ∧ t.ax = 0x100 ∧ ah t = 1 ∧
      t.f.fCarry = false ∧ t.f.fOverflow = false :=
  ⟨_, (dispatch_f6 host0 _ (by decide)).trans rfl, by decide⟩

/-- C19, evaluated at two failing inputs.  IMUL BL with AL = BL = 0xFF (-1 times -1)
leaves AX = 0xFE01 (255 * 255) where the encoding of the signed product is 0x0001;
IMUL BX with AX = BX = 0xFFFF leaves DX:AX = 0xFFFE:0x0001 where the encoding of the
signed product is 0x0000:0x0001.  The operands are zero-extended. -/
theorem imul_multiplies_unsigned :
    (∃ t, exec host0 imul_bl_state = Outcome.loop_head t ∧ t.ax = 0xfe01 ∧
        to_u16 (signed8 (al imul_bl_state) * signed8 (rm8_operand imul_bl_state)) = 1 ∧
        ¬ (t.ax = to_u16 (signed8 (al imul_bl_state) *
            signed8 (rm8_operand imul_bl_state)))) ∧
    (∃ t, exec host0 imul_bx_state = Outcome.loop_head t ∧ t.dx = 0xfffe ∧ t.ax = 1 ∧
        (signed16 imul_bx_state.ax * signed16 (rm16_operand imul_bx_state)) %
          0x100000000 = 1 ∧
        ¬ (((t.dx * 0x10000 + t.ax : Nat) : Int) =
            (signed16 imul_bx_state.ax * signed16 (rm16_operand imul_bx_state)) %
              0x100000000)) :=
  ⟨⟨_, (dispatch_f6 host0 _ (by decide)).trans rfl, by decide⟩,
    ⟨_, (dispatch_f7 host0 _ (by decide)).trans rfl, by decide⟩⟩

/-! ## Increment and decrement -/

theorem op_dec_overflow_iff (f : Flags) (v : Nat) :
    ((op_dec8 f v).2.fOverflow = true ↔ v % 0x100 = 0x81) ∧
    ((op_dec16 f v).2.fOverflow = true ↔ v % 0x10000 = 0x8001) := by
  constructor
  · simp only [op_dec8, set_PZS8, beq_iff_eq]
    omega
  · simp only [op_dec16, set_PZS16, beq_iff_eq]
    omega

/-- C21, evaluated at the claimed and at the actual boundary: `op_dec8` leaves O clear
for the operand 0x80 (0x80 to 0x7F) and sets it for 0x81 (0x81 to 0x80); `op_dec16`
leaves O clear for 0x8000 and sets it for 0x8001.  The test `0x80 == val` is made
after `val--`. -/
theorem op_dec_overflow_tests_result :
    (op_dec8 flags0 0x80).1 = 0x7f ∧ (op_dec8 flags0 0x80).2.fOverflow = false ∧
    (op_dec8 flags0 0x81).1 = 0x80 ∧ (op_dec8 flags0 0x81).2.fOverflow = true ∧
    (op_dec16 flags0 0x8000).1 = 0x7fff ∧ (op_dec16 flags0 0x8000).2.fOverflow = false ∧
    (op_dec16 flags0 0x8001).1 = 0x8000 ∧ (op_dec16 flags0 0x8001).2.fOverflow = true := by
  decide

/-- C22: for every operand and every prior flag state, `op_inc8`, `op_inc16`,
`op_dec8` and `op_dec16` return the operand plus or minus 1 modulo 2^width and leave
the flags C, D, I and T exactly as they were. -/
theorem inc_dec_result_and_frame (f : Flags) (v : Nat) :
    (((op_inc8 f v).1 : Int) = ((v : Int) + 1) % 0x100 ∧
      (op_inc8 f v).2.fCarry = f.fCarry ∧ (op_inc8 f v).2.fDirection = f.fDirection ∧
      (op_inc8 f v).2.fInterrupt = f.fInterrupt ∧ (op_inc8 f v).2.fTrap = f.fTrap) ∧
    (((op_inc16 f v).1 : Int) = ((v : Int) + 1) % 0x10000 ∧
      (op_inc16 f v).2.fCarry = f.fCarry ∧ (op_inc16 f v).2.fDirection = f.fDirection ∧
      (op_inc16 f v).2.fInterrupt = f.fInterrupt ∧ (op_inc16 f v).2.fTrap = f.fTrap) ∧
    (((op_dec8 f v).1 : Int) = ((v : Int) - 1) % 0x100 ∧
      (op_dec8 f v).2.fCarry = f.fCarry ∧ (op_dec8 f v).2.fDirection = f.fDirection ∧
      (op_dec8 f v).2.fInterrupt = f.fInterrupt ∧ (op_dec8 f v).2.fTrap = f.fTrap) ∧
    (((op_dec16 f v).1 : Int) = ((v : Int) - 1) % 0x10000 ∧
      (op_dec16 f v).2.fCarry = f.fCarry ∧ (op_dec16 f v).2.fDirection = f.fDirection ∧
      (op_dec16 f v).2.fInterrupt = f.fInterrupt ∧ (op_dec16 f v).2.fTrap = f.fTrap) := by
  refine ⟨⟨?_, rfl, rfl, rfl, rfl⟩, ⟨?_, rfl, rfl, rfl, rfl⟩, ⟨?_, rfl, rfl, rfl, rfl⟩,
    ⟨?_, rfl, rfl, rfl, rfl⟩⟩
  · simp only [op_inc8]
    omega
  · simp only [op_inc16]
    omega
  · simp only [op_dec8]
    omega
  · simp only [op_dec16]
    omega

/-! ## Shifts and rotates: counts and the O flag -/

theorem iterate_flags_but_carry (step : Nat × Flags → Nat × Flags)
    (hstep : ∀ p, (step p).2 = { p.2 with fCarry := (step p).2.fCarry })
    (n : Nat) (p : Nat × Flags) :
    (step^[n] p).2 = { p.2 with fCarry := (step^[n] p).2.fCarry } := by
  induction n with
  | zero => rfl
  | succ k ih =>
    rw [Function.iterate_succ_apply']
    rw [hstep (step^[k] p)]
    rw [ih]

/-- C23, the code at a count of 0: the rotates and `op_sar` return the operand and the
flags as they were, while `op_sal8`, `op_sal16`, `op_shr8` and `op_shr16`, which have
no test for a zero count, go on to shift by `shift - 1 = -1` and have no defined
result. -/
theorem zero_count_guards (f : Flags) (v : Nat) :
    (op_rol8 f v 0 = (v, f) ∧ op_rol16 f v 0 = (v, f) ∧ op_ror8 f v 0 = (v, f) ∧
      op_ror16 f v 0 = (v, f) ∧ op_rcl8 f v 0 = (v, f) ∧ op_rcl16 f v 0 = (v, f) ∧
      op_rcr8 f v 0 = (v, f) ∧ op_rcr16 f v 0 = (v, f) ∧ op_sar8 f v 0 = (v, f) ∧
      op_sar16 f v 0 = (v, f)) ∧
    (op_sal8 f v 0 = none ∧ op_sal16 f v 0 = none ∧ op_shr8 f v 0 = none ∧
      op_shr16 f v 0 = none) :=
  ⟨⟨rfl, rfl, rfl, rfl, rfl, rfl, rfl, rfl, rfl, rfl⟩, ⟨rfl, rfl, rfl, rfl⟩⟩

theorem rotate_keeps_overflow (f : Flags) (v n : Nat) (hn : n ≠ 1) :
    (op_rol8 f v n).2.fOverflow = f.fOverflow ∧ (op_rol16 f v n).2.fOverflow = f.fOverflow ∧
    (op_ror8 f v n).2.fOverflow = f.fOverflow ∧
    (op_rcl8 f v n).2.fOverflow = f.fOverflow ∧ (op_rcl16 f v n).2.fOverflow = f.fOverflow ∧
    (op_rcr8 f v n).2.fOverflow = f.fOverflow ∧
    (op_rcr16 f v n).2.fOverflow = f.fOverflow := by
  have h1 := iterate_flags_but_carry rol8_step (fun _ => rfl) n (v, f)
  have h2 := iterate_flags_but_carry rol16_step (fun _ => rfl) n (v, f)
  have h3 := iterate_flags_but_carry ror8_step (fun _ => rfl) n (v, f)
  have h4 := iterate_flags_but_carry rcl8_step (fun _ => rfl) n (v, f)
  have h5 := iterate_flags_but_carry rcl16_step (fun _ => rfl) n (v, f)
  have h6 := iterate_flags_but_carry rcr8_step (fun _ => rfl) n (v, f)
  have h7 := iterate_flags_but_carry rcr16_step (fun _ => rfl) n (v, f)
  refine ⟨?_, ?_, ?_, ?_, ?_, ?_, ?_⟩
  · simp only [op_rol8, if_neg hn]
    rw [h1]
  · by_cases h0 : n = 0
    · subst h0; rfl
    · simp only [op_rol16, if_neg h0, if_neg hn]
      rw [h2]
  · by_cases h0 : n = 0
    · subst h0; rfl
    · simp only [op_ror8, if_neg h0, if_neg hn]
      rw [h3]
  · by_cases h0 : n = 0
    · subst h0; rfl
    · simp only [op_rcl8, if_neg h0, if_neg hn]
      rw [h4]
  · by_cases h0 : n = 0
    · subst h0; rfl
    · simp only [op_rcl16, if_neg h0, if_neg hn]
      rw [h5]
  · by_cases h0 : n = 0
    · subst h0; rfl
    · simp only [op_rcr8, if_neg h0, if_neg hn]
      rw [h6]
  · by_cases h0 : n = 0
    · subst h0; rfl
    · simp only [op_rcr16, if_neg h0, if_neg hn]
      rw [h7]

theorem op_ror16_sets_overflow (f : Flags) (v n : Nat) (hn : 2 ≤ n) :
    (op_ror16 f v n).2.fOverflow = true := by
  have h0 : n ≠ 0 := by omega
  have h1 : n ≠ 1 := by omega
  simp only [op_ror16, if_neg h0, if_neg h1]

/-- C24, evaluated at a failing input: `op_ror16` with operand 1, count 2 and O clear
before the call returns with O set (its `else fOverflow = true`), where `op_ror8` on
the same input leaves O clear. -/
theorem op_ror16_overwrites_overflow :
    flags0.fOverflow = false ∧ (op_ror16 flags0 1 2).1 = 0x4000 ∧
    (op_ror16 flags0 1 2).2.fOverflow = true ∧ (op_ror8 flags0 1 2).2.fOverflow = false := by
  decide

/-! ## Shifts -/

/-- The single-bit tests of the shift and rotate primitives, as `testBit`. -/
theorem bit_tests (x : Nat) :
    ((x &&& 0x80) != 0) = x.testBit 7 ∧ ((x &&& 0x8000) != 0) = x.testBit 15 ∧
    ((0x80 &&& x) != 0) = x.testBit 7 ∧ ((0x8000 &&& x) != 0) = x.testBit 15 ∧
    ((x &&& 1) != 0) = x.testBit 0 ∧ ((1 &&& x) != 0) = x.testBit 0 ∧
    ((x &&& 0x40) != 0) = x.testBit 6 ∧ ((x &&& 0x4000) != 0) = x.testBit 14 := by
  have h : ∀ k, ((x &&& 2 ^ k) != 0) = x.testBit k := fun k => by
    rw [and_pow_bne, Nat.testBit_to_div_mod]
  have h2 : ∀ k, ((2 ^ k &&& x) != 0) = x.testBit k := fun k => by
    rw [Nat.and_comm, h]
  exact ⟨h 7, h 15, h2 7, h2 15, h 0, h2 0, h 6, h 14⟩

theorem shl_mod_testBit (v k : Nat) :
    ((v <<< k) % 0x100).testBit 7 = (decide (k ≤ 7) && v.testBit (7 - k)) ∧
    ((v <<< k) % 0x10000).testBit 15 = (decide (k ≤ 15) && v.testBit (15 - k)) := by
  have h : ∀ w j, ((v <<< k) % 2 ^ w).testBit j =
      (decide (j < w) && (decide (j ≥ k) && v.testBit (j - k))) := fun w j => by
    rw [Nat.testBit_mod_two_pow, Nat.testBit_shiftLeft]
  exact ⟨h 8 7, h 16 15⟩

theorem shl_twice (v n m : Nat) (h1 : 1 ≤ n) :
    (((v <<< (n - 1)) % m) <<< 1) % m = (v * 2 ^ n) % m := by
  obtain ⟨k, rfl⟩ : ∃ k, n = k + 1 := ⟨n - 1, by omega⟩
  rw [Nat.add_sub_cancel, Nat.shiftLeft_eq, Nat.shiftLeft_eq, Nat.pow_one, Nat.mod_mul_mod,
    Nat.pow_succ, Nat.mul_assoc]

theorem shr_twice (v n : Nat) (h1 : 1 ≤ n) : v >>> (n - 1) >>> 1 = v / 2 ^ n := by
  rw [← Nat.shiftRight_add, Nat.shiftRight_eq_div_pow]
  congr 2
  omega

theorem op_sal8_fields (f : Flags) (v n : Nat) (h1 : 1 ≤ n) (h32 : n ≤ 32) :
    ∃ g, op_sal8 f v n = some ((((v <<< (n - 1)) % 0x100) <<< 1) % 0x100, g) ∧
      g.fCarry = ((v <<< (n - 1)) % 0x100).testBit 7 ∧
      (n = 1 → g.fOverflow =
        !((((((v <<< (n - 1)) % 0x100) <<< 1) % 0x100) &&& 0x8000 != 0) == g.fCarry)) ∧
      g.fSign = ((((v <<< (n - 1)) % 0x100) <<< 1) % 0x100).testBit 7 ∧
      g.fZero = (((((v <<< (n - 1)) % 0x100) <<< 1) % 0x100) == 0) := by
  have hc : ¬ (n = 0 ∨ 32 < n) := by omega
  by_cases hn : n = 1
  · subst hn
    refine ⟨_, by simp only [op_sal8, if_neg hc, if_true]; rfl, ?_, fun _ => ?_, ?_, ?_⟩
    · exact (bit_tests _).1
    · rfl
    · exact (bit_tests _).2.2.1
    · rfl
  · refine ⟨_, by simp only [op_sal8, if_neg hc, if_neg hn]; rfl, ?_, fun h => absurd h hn, ?_, ?_⟩
    · exact (bit_tests _).1
    · exact (bit_tests _).2.2.1
    · rfl

theorem op_sal16_fields (f : Flags) (v n : Nat) (h1 : 1 ≤ n) (h32 : n ≤ 32) :
    ∃ g, op_sal16 f v n = some ((((v <<< (n - 1)) % 0x10000) <<< 1) % 0x10000, g) ∧
      g.fCarry = ((v <<< (n - 1)) % 0x10000).testBit 15 ∧
      (n = 1 → g.fOverflow =
        !((((((v <<< (n - 1)) % 0x10000) <<< 1) % 0x10000) &&& 0x8000 != 0) == g.fCarry)) := by
  have hc : ¬ (n = 0 ∨ 32 < n) := by omega
  by_cases hn : n = 1
  · subst hn
    refine ⟨_, by simp only [op_sal16, if_neg hc, if_true]; rfl, ?_, fun _ => ?_⟩
    · exact (bit_tests _).2.1
    · rfl
  · refine ⟨_, by simp only [op_sal16, if_neg hc, if_neg hn]; rfl, ?_, fun h => absurd h hn⟩
    exact (bit_tests _).2.1

theorem op_shr8_fields (f : Flags) (v n : Nat) (h1 : 1 ≤ n) (h32 : n ≤ 32) :
    ∃ g, op_shr8 f v n = some (v >>> (n - 1) >>> 1, g) ∧
      g.fCarry = (v >>> (n - 1)).testBit 0 ∧ g.fOverflow = v.testBit 7 := by
  have hc : ¬ (n = 0 ∨ 32 < n) := by omega
  refine ⟨_, by simp only [op_shr8, if_neg hc]; rfl, ?_, ?_⟩
  · exact (bit_tests _).2.2.2.2.1
  · exact (bit_tests _).1

theorem op_shr16_fields (f : Flags) (v n : Nat) (h1 : 1 ≤ n) (h32 : n ≤ 32) :
    ∃ g, op_shr16 f v n = some (v >>> (n - 1) >>> 1, g) ∧
      g.fCarry = (v >>> (n - 1)).testBit 0 ∧ g.fOverflow = v.testBit 15 := by
  have hc : ¬ (n = 0 ∨ 32 < n) := by omega
  refine ⟨_, by simp only [op_shr16, if_neg hc]; rfl, ?_, ?_⟩
  · exact (bit_tests _).2.2.2.2.1
  · exact (bit_tests _).2.1

theorem op_sal8_one (f : Flags) (v : Nat) :
    ∃ g, op_sal8 f v 1 = some ((v * 2) % 0x100, g) ∧ g.fCarry = v.testBit 7 ∧
      g.fOverflow = v.testBit 7 := by
  obtain ⟨g, hg, hc, ho, -, -⟩ := op_sal8_fields f v 1 (by omega) (by omega)
  rw [shl_twice v 1 0x100 (by omega), Nat.pow_one] at hg
  have hc7 : g.fCarry = v.testBit 7 := by
    rw [hc, (shl_mod_testBit v (1 - 1)).1]
    simp
  refine ⟨g, hg, hc7, ?_⟩
  have hlt : (((v <<< (1 - 1)) % 0x100) <<< 1) % 0x100 < 2 ^ 15 :=
    Nat.lt_of_lt_of_le (Nat.mod_lt _ (by decide)) (by decide)
  rw [ho rfl, (bit_tests _).2.1, Nat.testBit_lt_two_pow hlt, hc7]
  cases v.testBit 7 <;> rfl

/-- C25, evaluated at two failing inputs and at the claim's witness.  `op_sal8` with
count 1 on 0xC0 gives the result 0x80 with C set and O set, where (bit 7 of the result)
XOR C is false; on 0x40 it gives 0x80 with C clear and O clear, where (bit 7 of the
result) XOR C is true; on 0x80 it gives 0x00 with C, O and Z set.  O is a copy of C:
the handler tests the byte against `0x8000`. -/
theorem op_sal8_overflow_copies_carry :
    (∃ g, op_sal8 flags0 0xc0 1 = some (0x80, g) ∧ g.fCarry = true ∧ g.fOverflow = true ∧
      xor ((0x80 : Nat).testBit 7) g.fCarry = false) ∧
    (∃ g, op_sal8 flags0 0x40 1 = some (0x80, g) ∧ g.fCarry = false ∧ g.fOverflow = false ∧
      xor ((0x80 : Nat).testBit 7) g.fCarry = true) ∧
    (∃ g, op_sal8 flags0 0x80 1 = some (0x00, g) ∧ g.fCarry = true ∧ g.fOverflow = true ∧
      g.fZero = true) :=
  ⟨⟨_, rfl, by decide⟩, ⟨_, rfl, by decide⟩, ⟨_, rfl, by decide⟩⟩

/-- C26: for every operand v of width w (8 or 16) and every count n with
1 <= n <= 31: `op_sal` leaves (v * 2^n) mod 2^w in the operand with C equal to bit
(w - n) of v (false when n > w); `op_shr` leaves floor(v / 2^n) in the operand with C
equal to bit (n - 1) of v (false when n > w) and O equal to the original top bit of
v (in particular for n = 1). -/
theorem sal_shr_result_and_carry (f : Flags) (v n : Nat) (h1 : 1 ≤ n) (h31 : n ≤ 31) :
    (v < 0x100 → ∃ g, op_sal8 f v n = some ((v * 2 ^ n) % 0x100, g) ∧
      g.fCarry = (decide (n ≤ 8) && v.testBit (8 - n))) ∧
    (v < 0x10000 → ∃ g, op_sal16 f v n = some ((v * 2 ^ n) % 0x10000, g) ∧
      g.fCarry = (decide (n ≤ 16) && v.testBit (16 - n))) ∧
    (v < 0x100 → ∃ g, op_shr8 f v n = some (v / 2 ^ n, g) ∧
      g.fCarry = (decide (n ≤ 8) && v.testBit (n - 1)) ∧ g.fOverflow = v.testBit 7) ∧
    (v < 0x10000 → ∃ g, op_shr16 f v n = some (v / 2 ^ n, g) ∧
      g.fCarry = (decide (n ≤ 16) && v.testBit (n - 1)) ∧ g.fOverflow = v.testBit 15) := by
  refine ⟨fun _ => ?_, fun _ => ?_, fun hv => ?_, fun hv => ?_⟩
  · obtain ⟨g, hg, hc, -⟩ := op_sal8_fields f v n h1 (by omega)
    rw [shl_twice v n 0x100 h1] at hg
    refine ⟨g, hg, ?_⟩
    rw [hc, (shl_mod_testBit v (n - 1)).1]
    by_cases h8 : n ≤ 8
    · have e : 7 - (n - 1) = 8 - n := by omega
      have e2 : n - 1 ≤ 7 := by omega
      simp [h8, e, e2]
    · have e2 : ¬ (n - 1 ≤ 7) := by omega
      simp [h8, e2]
  · obtain ⟨g, hg, hc, -⟩ := op_sal16_fields f v n h1 (by omega)
    rw [shl_twice v n 0x10000 h1] at hg
    refine ⟨g, hg, ?_⟩
    rw [hc, (shl_mod_testBit v (n - 1)).2]
    by_cases h16 : n ≤ 16
    · have e : 15 - (n - 1) = 16 - n := by omega
      have e2 : n - 1 ≤ 15 := by omega
      simp [h16, e, e2]
    · have e2 : ¬ (n - 1 ≤ 15) := by omega
      simp [h16, e2]
  · obtain ⟨g, hg, hc, ho⟩ := op_shr8_fields f v n h1 (by omega)
    rw [shr_twice v n h1] at hg
    refine ⟨g, hg, ?_, ho⟩
    rw [hc, Nat.testBit_shiftRight, Nat.add_zero]
    by_cases h8 : n ≤ 8
    · simp [h8]
    · have hlt : v < 2 ^ (n - 1) :=
        Nat.lt_of_lt_of_le hv (Nat.pow_le_pow_right (by decide) (by omega) : 2 ^ 8 ≤ 2 ^ (n - 1))
      simp [h8, Nat.testBit_lt_two_pow hlt]
  · obtain ⟨g, hg, hc, ho⟩ := op_shr16_fields f v n h1 (by omega)
    rw [shr_twice v n h1] at hg
    refine ⟨g, hg, ?_, ho⟩
    rw [hc, Nat.testBit_shiftRight, Nat.add_zero]
    by_cases h16 : n ≤ 16
    · simp [h16]
    · have hlt : v < 2 ^ (n - 1) :=
        Nat.lt_of_lt_of_le hv
          (Nat.pow_le_pow_right (by decide) (by omega) : 2 ^ 16 ≤ 2 ^ (n - 1))
      simp [h16, Nat.testBit_lt_two_pow hlt]

/-- Instance of C26: the operands 0x81 and 0x8001 shifted by 1. -/
theorem sal_shr_result_and_carry_witness :
    (∃ g, op_sal8 flags0 0x81 1 = some ((0x81 * 2 ^ 1) % 0x100, g) ∧
      g.fCarry = (decide (1 ≤ 8) && (0x81 : Nat).testBit (8 - 1))) ∧
    (∃ g, op_sal16 flags0 0x8001 1 = some ((0x8001 * 2 ^ 1) % 0x10000, g) ∧
      g.fCarry = (decide (1 ≤ 16) && (0x8001 : Nat).testBit (16 - 1))) ∧
    (∃ g, op_shr8 flags0 0x81 1 = some (0x81 / 2 ^ 1, g) ∧
      g.fCarry = (decide (1 ≤ 8) && (0x81 : Nat).testBit (1 - 1)) ∧
      g.fOverflow = (0x81 : Nat).testBit 7) ∧
    (∃ g, op_shr16 flags0 0x8001 1 = some (0x8001 / 2 ^ 1, g) ∧
      g.fCarry = (decide (1 ≤ 16) && (0x8001 : Nat).testBit (1 - 1)) ∧
      g.fOverflow = (0x8001 : Nat).testBit 15) :=
  ⟨(sal_shr_result_and_carry flags0 0x81 1 (by decide) (by decide)).1 (by decide),
    (sal_shr_result_and_carry flags0 0x8001 1 (by decide) (by decide)).2.1 (by decide),
    (sal_shr_result_and_carry flags0 0x81 1 (by decide) (by decide)).2.2.1 (by decide),
    (sal_shr_result_and_carry flags0 0x8001 1 (by decide) (by decide)).2.2.2 (by decide)⟩

/-! ## Rotations as bit permutations -/

theorem testBit_eq_false_of_lt (x w i : Nat) (hx : x < 2 ^ w) (hi : w ≤ i) :
    x.testBit i = false :=
  Nat.testBit_lt_two_pow (Nat.lt_of_lt_of_le hx (Nat.pow_le_pow_right (by decide) hi))

theorem eq_of_testBit_lt (w x y : Nat) (hx : x < 2 ^ w) (hy : y < 2 ^ w)
    (h : ∀ i, i < w → x.testBit i = y.testBit i) : x = y := by
  apply Nat.eq_of_testBit_eq
  intro i
  by_cases hi : i < w
  · exact h i hi
  · rw [testBit_eq_false_of_lt x w i hx (by omega), testBit_eq_false_of_lt y w i hy (by omega)]

theorem rotate_left_lt (w v m : Nat) : rotate_left w v m < 2 ^ w :=
  Nat.mod_lt _ (Nat.two_pow_pos w)

theorem rotate_right_lt (w v m : Nat) : rotate_right w v m < 2 ^ w :=
  Nat.mod_lt _ (Nat.two_pow_pos w)

theorem rotate_left_testBit (w v m i : Nat) (hv : v < 2 ^ w) (hm : m ≤ w) (hi : i < w) :
    (rotate_left w v m).testBit i = v.testBit (if m ≤ i then i - m else i + w - m) := by
  unfold rotate_left
  rw [Nat.testBit_mod_two_pow, Nat.testBit_or, Nat.testBit_shiftLeft, Nat.testBit_shiftRight]
  by_cases hmi : m ≤ i
  · have hf : v.testBit (w - m + i) = false := testBit_eq_false_of_lt v w _ hv (by omega)
    simp [hi, hmi, hf]
  · have e : w - m + i = i + w - m := by omega
    simp [hi, hmi, e]

theorem rotate_right_testBit (w v m i : Nat) (hv : v < 2 ^ w) (hm : m ≤ w) (hi : i < w) :
    (rotate_right w v m).testBit i = v.testBit (if i + m < w then i + m else i + m - w) := by
  unfold rotate_right
  rw [Nat.testBit_mod_two_pow, Nat.testBit_or, Nat.testBit_shiftLeft, Nat.testBit_shiftRight]
  by_cases hmi : i + m < w
  · have h2 : ¬ (i ≥ w - m) := by omega
    have e : m + i = i + m := by omega
    simp [hi, hmi, h2, e]
  · have hf : v.testBit (m + i) = false := testBit_eq_false_of_lt v w _ hv (by omega)
    have h2 : i ≥ w - m := by omega
    have e : i - (w - m) = i + m - w := by omega
    simp [hi, hmi, hf, h2, e]

theorem with_carry_lt (w : Nat) (c : Bool) (v : Nat) (hv : v < 2 ^ w) :
    with_carry w c v < 2 ^ (w + 1) := by
  unfold with_carry
  have hc : c.toNat ≤ 1 := Bool.toNat_le c
  have h2 : c.toNat * 2 ^ w ≤ 1 * 2 ^ w := Nat.mul_le_mul_right _ hc
  rw [Nat.pow_succ]
  omega

theorem with_carry_testBit (w : Nat) (c : Bool) (v i : Nat) (hv : v < 2 ^ w) :
    (with_carry w c v).testBit i = if i < w then v.testBit i else (decide (i = w) && c) := by
  unfold with_carry
  rw [Nat.mul_comm, Nat.testBit_mul_pow_two_add _ hv, Nat.testBit_bool_to_nat]
  by_cases hi : i < w
  · simp [hi]
  · have e : (i - w = 0) = (i = w) := by
      apply propext
      omega
    simp [hi, e]

theorem int_div_pow_succ (a : Int) (k : Nat) : a / 2 ^ (k + 1) = a / 2 ^ k / 2 := by
  have h1 := Int.shiftRight_eq_div_pow a (k + 1)
  have h2 := Int.shiftRight_eq_div_pow a k
  have h3 := Int.shiftRight_eq_div_pow (a >>> k) 1
  have h4 := Int.shiftRight_add a k 1
  push_cast at h1 h2 h3
  rw [← h1, h4, h3, h2]

/-! ## One-bit shifts with an inserted bit -/

theorem shl_low8 (x : Nat) (b : Bool) :
    (if b then ((x <<< 1) % 0x100) ||| 1 else ((x <<< 1) % 0x100) &&& 0xfe) < 0x100 ∧
    ∀ i, i < 8 →
      (if b then ((x <<< 1) % 0x100) ||| 1 else ((x <<< 1) % 0x100) &&& 0xfe).testBit i =
        if i = 0 then b else x.testBit (i - 1) := by
  have hx : (x <<< 1) % 0x100 < 2 ^ 8 := Nat.mod_lt _ (by decide)
  have hb : ∀ i, ((x <<< 1) % 0x100).testBit i =
      (decide (i < 8) && (decide (i ≥ 1) && x.testBit (i - 1))) := fun i =>
    (Nat.testBit_mod_two_pow (x <<< 1) 8 i).trans (by rw [Nat.testBit_shiftLeft])
  cases b
  · refine ⟨Nat.lt_of_le_of_lt Nat.and_le_left hx, fun i hi => ?_⟩
    have hE : (0xfe : Nat).testBit i = (decide (i ≥ 1) && decide (i - 1 < 7)) :=
      (@Nat.testBit_shiftLeft 1 i (2 ^ 7 - 1)).trans (by rw [Nat.testBit_two_pow_sub_one])
    simp only [Bool.false_eq_true, if_false]
    rw [Nat.testBit_and, hb, hE]
    by_cases h0 : i = 0
    · subst h0
      simp
    · have h1 : i ≥ 1 := by omega
      have h2 : i - 1 < 7 := by omega
      simp [hi, h0, h1, h2]
  · refine ⟨Nat.or_lt_two_pow hx (by decide), fun i hi => ?_⟩
    have h1 : Nat.testBit 1 i = decide (0 = i) := @Nat.testBit_two_pow 0 i
    simp only [if_true]
    rw [Nat.testBit_or, hb, h1]
    by_cases h0 : i = 0
    · subst h0
      simp
    · have h3 : ¬ (0 = i) := by omega
      have h4 : i ≥ 1 := by omega
      simp [hi, h0, h3, h4]

theorem shr_top8 (x : Nat) (b : Bool) (hx : x < 0x100) :
    (if b then (x >>> 1) ||| 0x80 else (x >>> 1) &&& 0x7f) < 0x100 ∧
    (if b then (x >>> 1) ||| 0x80 else (x >>> 1) &&& 0x7f) = x / 2 + b.toNat * 0x80 ∧
    ∀ i, i < 8 →
      (if b then (x >>> 1) ||| 0x80 else (x >>> 1) &&& 0x7f).testBit i =
        if i = 7 then b else x.testBit (i + 1) := by
  have hs : x >>> 1 = x / 2 := by rw [Nat.shiftRight_eq_div_pow, Nat.pow_one]
  have hlt : x / 2 < 2 ^ 7 := by
    have : (2 : Nat) ^ 7 = 0x80 := by decide
    omega
  cases b
  · have hm : (x / 2) &&& 0x7f = x / 2 :=
      (Nat.and_pow_two_sub_one_eq_mod (x / 2) 7).trans (Nat.mod_eq_of_lt hlt)
    simp only [Bool.false_eq_true, if_false, hs, hm, Bool.toNat_false, Nat.zero_mul,
      Nat.add_zero]
    refine ⟨by omega, trivial, fun i hi => ?_⟩
    by_cases h0 : i = 7
    · subst h0
      simp [Nat.testBit_lt_two_pow hlt]
    · rw [← hs, Nat.testBit_shiftRight, Nat.add_comm]
      simp [h0]
  · have ho : (x / 2) ||| 0x80 = x / 2 + 0x80 := by
      have e := Nat.mul_add_lt_is_or hlt 1
      rw [Nat.or_comm]
      have e2 : (2 : Nat) ^ 7 * 1 = 0x80 := by decide
      rw [e2] at e
      omega
    simp only [if_true, hs, ho, Bool.toNat_true, Nat.one_mul]
    refine ⟨by omega, trivial, fun i hi => ?_⟩
    rw [← ho, Nat.testBit_or, ← hs, Nat.testBit_shiftRight, Nat.add_comm]
    have ht : (0x80 : Nat).testBit i = decide (7 = i) := @Nat.testBit_two_pow 7 i
    rw [ht]
    by_cases h0 : i = 7
    · subst h0
      simp
    · have h3 : ¬ (7 = i) := by omega
      simp [h0, h3]

theorem shl_low16 (x : Nat) (b : Bool) :
    (if b then ((x <<< 1) % 0x10000) ||| 1 else ((x <<< 1) % 0x10000) &&& 0xfffe) < 0x10000 ∧
    ∀ i, i < 16 →
      (if b then ((x <<< 1) % 0x10000) ||| 1 else ((x <<< 1) % 0x10000) &&& 0xfffe).testBit i =
        if i = 0 then b else x.testBit (i - 1) := by
  have hx : (x <<< 1) % 0x10000 < 2 ^ 16 := Nat.mod_lt _ (by decide)
  have hb : ∀ i, ((x <<< 1) % 0x10000).testBit i =
      (decide (i < 16) && (decide (i ≥ 1) && x.testBit (i - 1))) := fun i =>
    (Nat.testBit_mod_two_pow (x <<< 1) 16 i).trans (by rw [Nat.testBit_shiftLeft])
  cases b
  · refine ⟨Nat.lt_of_le_of_lt Nat.and_le_left hx, fun i hi => ?_⟩
    have hE : (0xfffe : Nat).testBit i = (decide (i ≥ 1) && decide (i - 1 < 15)) :=
      (@Nat.testBit_shiftLeft 1 i (2 ^ 15 - 1)).trans (by rw [Nat.testBit_two_pow_sub_one])
    simp only [Bool.false_eq_true, if_false]
    rw [Nat.testBit_and, hb, hE]
    by_cases h0 : i = 0
    · subst h0
      simp
    · have h1 : i ≥ 1 := by omega
      have h2 : i - 1 < 15 := by omega
      simp [hi, h0, h1, h2]
  · refine ⟨Nat.or_lt_two_pow hx (by decide), fun i hi => ?_⟩
    have h1 : Nat.testBit 1 i = decide (0 = i) := @Nat.testBit_two_pow 0 i
    simp only [if_true]
    rw [Nat.testBit_or, hb, h1]
    by_cases h0 : i = 0
    · subst h0
      simp
    · have h3 : ¬ (0 = i) := by omega
      have h4 : i ≥ 1 := by omega
      simp [hi, h0, h3, h4]

theorem shr_top16 (x : Nat) (b : Bool) (hx : x < 0x10000) :
    (if b then (x >>> 1) ||| 0x8000 else (x >>> 1) &&& 0x7fff) < 0x10000 ∧
    (if b then (x >>> 1) ||| 0x8000 else (x >>> 1) &&& 0x7fff) = x / 2 + b.toNat * 0x8000 ∧
    ∀ i, i < 16 →
      (if b then (x >>> 1) ||| 0x8000 else (x >>> 1) &&& 0x7fff).testBit i =
        if i = 15 then b else x.testBit (i + 1) := by
  have hs : x >>> 1 = x / 2 := by rw [Nat.shiftRight_eq_div_pow, Nat.pow_one]
  have hlt : x / 2 < 2 ^ 15 := by
    have : (2 : Nat) ^ 15 = 0x8000 := by decide
    omega
  cases b
  · have hm : (x / 2) &&& 0x7fff = x / 2 :=
      (Nat.and_pow_two_sub_one_eq_mod (x / 2) 15).trans (Nat.mod_eq_of_lt hlt)
    simp only [Bool.false_eq_true, if_false, hs, hm, Bool.toNat_false, Nat.zero_mul,
      Nat.add_zero]
    refine ⟨by omega, trivial, fun i hi => ?_⟩
    by_cases h0 : i = 15
    · subst h0
      simp [Nat.testBit_lt_two_pow hlt]
    · rw [← hs, Nat.testBit_shiftRight, Nat.add_comm]
      simp [h0]
  · have ho : (x / 2) ||| 0x8000 = x / 2 + 0x8000 := by
      have e := Nat.mul_add_lt_is_or hlt 1
      rw [Nat.or_comm]
      have e2 : (2 : Nat) ^ 15 * 1 = 0x8000 := by decide
      rw [e2] at e
      omega
    simp only [if_true, hs, ho, Bool.toNat_true, Nat.one_mul]
    refine ⟨by omega, trivial, fun i hi => ?_⟩
    rw [← ho, Nat.testBit_or, ← hs, Nat.testBit_shiftRight, Nat.add_comm]
    have ht : (0x8000 : Nat).testBit i = decide (15 = i) := @Nat.testBit_two_pow 15 i
    rw [ht]
    by_cases h0 : i = 15
    · subst h0
      simp
    · have h3 : ¬ (15 = i) := by omega
      simp [h0, h3]

/-! ## Loops of the rotate and arithmetic-shift primitives -/

theorem rol8_step_facts (p : Nat × Flags) :
    (rol8_step p).1 < 0x100 ∧ (rol8_step p).2.fCarry = p.1.testBit 7 ∧
    ∀ i, i < 8 →
      (rol8_step p).1.testBit i = if i = 0 then p.1.testBit 7 else p.1.testBit (i - 1) := by
  have h := shl_low8 p.1 (p.1.testBit 7)
  have hb := (bit_tests p.1).2.2.1
  unfold rol8_step
  simp only [hb]
  exact ⟨h.1, trivial, h.2⟩

theorem rol8_iterate (f : Flags) (v : Nat) (hv : v < 0x100) (k : Nat) :
    (rol8_step^[k] (v, f)).1 < 0x100 ∧
    (∀ i, i < 8 →
      (rol8_step^[k] (v, f)).1.testBit i = v.testBit ((i + 7 * k) % 8)) ∧
    (1 ≤ k → (rol8_step^[k] (v, f)).2.fCarry = (rol8_step^[k] (v, f)).1.testBit 0) := by
  induction k with
  | zero =>
    refine ⟨hv, fun i hi => ?_, fun h => absurd h (by decide)⟩
    have e : (i + 7 * 0) % 8 = i := by omega
    rw [e]
    rfl
  | succ k ih =>
    obtain ⟨_, h2, -⟩ := ih
    obtain ⟨s1, s2, s3⟩ := rol8_step_facts (rol8_step^[k] (v, f))
    rw [Function.iterate_succ_apply']
    refine ⟨s1, fun i hi => ?_, fun _ => ?_⟩
    · rw [s3 i hi]
      by_cases h0 : i = 0
      · subst h0
        rw [if_pos rfl, h2 7 (by decide)]
        congr 1
        omega
      · rw [if_neg h0, h2 (i - 1) (by omega)]
        congr 1
        omega
    · rw [s2, s3 0 (by decide), if_pos rfl]

theorem op_rol8_spec (f : Flags) (v n : Nat) (hv : v < 0x100) (h1 : 1 ≤ n) :
    (op_rol8 f v n).1 = rotate_left 8 v (n % 8) ∧
    (op_rol8 f v n).2.fCarry = (op_rol8 f v n).1.testBit 0 ∧
    (n = 1 → (op_rol8 f v n).2.fOverflow =
      xor ((op_rol8 f v n).1.testBit 7) (op_rol8 f v n).2.fCarry) := by
  have h0 : n ≠ 0 := by omega
  obtain ⟨k1, k2, k3⟩ := rol8_iterate f v hv n
  have hr : (op_rol8 f v n).1 = (rol8_step^[n] (v, f)).1 := by
    simp only [op_rol8, if_neg h0]
  have hc : (op_rol8 f v n).2.fCarry = (rol8_step^[n] (v, f)).2.fCarry := by
    simp only [op_rol8, if_neg h0]
    split <;> rfl
  refine ⟨?_, ?_, fun hn => ?_⟩
  · rw [hr]
    refine eq_of_testBit_lt 8 _ _ k1 (rotate_left_lt 8 v _) (fun i hi => ?_)
    rw [k2 i hi, rotate_left_testBit 8 v (n % 8) i hv (by omega) hi]
    congr 1
    split <;> omega
  · rw [hc, hr, k3 h1]
  · rw [hc, hr]
    simp only [op_rol8, if_neg h0, if_pos hn]
    rw [(bit_tests _).1]

theorem rol16_step_facts (p : Nat × Flags) :
    (rol16_step p).1 < 0x10000 ∧ (rol16_step p).2.fCarry = p.1.testBit 15 ∧
    ∀ i, i < 16 →
      (rol16_step p).1.testBit i = if i = 0 then p.1.testBit 15 else p.1.testBit (i - 1) := by
  have h := shl_low16 p.1 (p.1.testBit 15)
  have hb := (bit_tests p.1).2.2.2.1
  unfold rol16_step
  simp only [hb]
  exact ⟨h.1, trivial, h.2⟩

theorem rol16_iterate (f : Flags) (v : Nat) (hv : v < 0x10000) (k : Nat) :
    (rol16_step^[k] (v, f)).1 < 0x10000 ∧
    (∀ i, i < 16 →
      (rol16_step^[k] (v, f)).1.testBit i = v.testBit ((i + 15 * k) % 16)) ∧
    (1 ≤ k → (rol16_step^[k] (v, f)).2.fCarry = (rol16_step^[k] (v, f)).1.testBit 0) := by
  induction k with
  | zero =>
    refine ⟨hv, fun i hi => ?_, fun h => absurd h (by decide)⟩
    have e : (i + 15 * 0) % 16 = i := by omega
    rw [e]
    rfl
  | succ k ih =>
    obtain ⟨_, h2, -⟩ := ih
    obtain ⟨s1, s2, s3⟩ := rol16_step_facts (rol16_step^[k] (v, f))
    rw [Function.iterate_succ_apply']
    refine ⟨s1, fun i hi => ?_, fun _ => ?_⟩
    · rw [s3 i hi]
      by_cases h0 : i = 0
      · subst h0
        rw [if_pos rfl, h2 15 (by decide)]
        congr 1
        omega
      · rw [if_neg h0, h2 (i - 1) (by omega)]
        congr 1
        omega
    · rw [s2, s3 0 (by decide), if_pos rfl]

theorem op_rol16_spec (f : Flags) (v n : Nat) (hv : v < 0x10000) (h1 : 1 ≤ n) :
    (op_rol16 f v n).1 = rotate_left 16 v (n % 16) ∧
    (op_rol16 f v n).2.fCarry = (op_rol16 f v n).1.testBit 0 ∧
    (n = 1 → (op_rol16 f v n).2.fOverflow =
      xor ((op_rol16 f v n).1.testBit 15) (op_rol16 f v n).2.fCarry) := by
  have h0 : n ≠ 0 := by omega
  obtain ⟨k1, k2, k3⟩ := rol16_iterate f v hv n
  have hr : (op_rol16 f v n).1 = (rol16_step^[n] (v, f)).1 := by
    simp only [op_rol16, if_neg h0]
  have hc : (op_rol16 f v n).2.fCarry = (rol16_step^[n] (v, f)).2.fCarry := by
    simp only [op_rol16, if_neg h0]
    split <;> rfl
  refine ⟨?_, ?_, fun hn => ?_⟩
  · rw [hr]
    refine eq_of_testBit_lt 16 _ _ k1 (rotate_left_lt 16 v _) (fun i hi => ?_)
    rw [k2 i hi, rotate_left_testBit 16 v (n % 16) i hv (by omega) hi]
    congr 1
    split <;> omega
  · rw [hc, hr, k3 h1]
  · rw [hc, hr]
    simp only [op_rol16, if_neg h0, if_pos hn]
    rw [(bit_tests _).2.1]

theorem rcl8_step_facts (p : Nat × Flags) (hp : p.1 < 0x100) :
    (rcl8_step p).1 < 0x100 ∧
    ∀ i, i < 9 →
      (with_carry 8 (rcl8_step p).2.fCarry (rcl8_step p).1).testBit i =
        (with_carry 8 p.2.fCarry p.1).testBit ((i + 8) % 9) := by
  have h := shl_low8 p.1 p.2.fCarry
  have hb := (bit_tests p.1).2.2.1
  have hc : (rcl8_step p).2.fCarry = p.1.testBit 7 := by
    unfold rcl8_step
    simp only [hb]
  have hv : (rcl8_step p).1 =
      (if p.2.fCarry then ((p.1 <<< 1) % 0x100) ||| 1 else ((p.1 <<< 1) % 0x100) &&& 0xfe) := by
    unfold rcl8_step
    rfl
  rw [hv] at *
  refine ⟨h.1, fun i hi => ?_⟩
  rw [with_carry_testBit 8 _ _ i h.1, with_carry_testBit 8 _ _ _ hp, hc]
  by_cases h0 : i = 0
  · subst h0
    rw [if_pos (by decide), h.2 0 (by decide), if_pos rfl]
    simp
  · by_cases hw : i = 8
    · subst hw
      simp
    · have hi2 : i < 8 := by omega
      have e : (i + 8) % 9 = i - 1 := by omega
      rw [if_pos hi2, h.2 i hi2, if_neg h0, e, if_pos (by omega)]

theorem rcl8_iterate (f : Flags) (v : Nat) (hv : v < 0x100) (k : Nat) :
    (rcl8_step^[k] (v, f)).1 < 0x100 ∧
    ∀ i, i < 9 →
      (with_carry 8 (rcl8_step^[k] (v, f)).2.fCarry (rcl8_step^[k] (v, f)).1).testBit i =
        (with_carry 8 f.fCarry v).testBit ((i + 8 * k) % 9) := by
  induction k with
  | zero =>
    refine ⟨hv, fun i hi => ?_⟩
    have e : (i + 8 * 0) % 9 = i := by omega
    rw [e]
    rfl
  | succ k ih =>
    obtain ⟨h1, h2⟩ := ih
    obtain ⟨s1, s2⟩ := rcl8_step_facts (rcl8_step^[k] (v, f)) h1
    rw [Function.iterate_succ_apply']
    refine ⟨s1, fun i hi => ?_⟩
    rw [s2 i hi, h2 _ (Nat.mod_lt _ (by decide))]
    congr 1
    omega

theorem rcr8_step_facts (p : Nat × Flags) (hp : p.1 < 0x100) :
    (rcr8_step p).1 < 0x100 ∧
    ∀ i, i < 9 →
      (with_carry 8 (rcr8_step p).2.fCarry (rcr8_step p).1).testBit i =
        (with_carry 8 p.2.fCarry p.1).testBit ((i + 1) % 9) := by
  have h := shr_top8 p.1 p.2.fCarry hp
  have hb := (bit_tests p.1).2.2.2.2.2.1
  have hc : (rcr8_step p).2.fCarry = p.1.testBit 0 := by
    unfold rcr8_step
    simp only [hb]
  have hv : (rcr8_step p).1 =
      (if p.2.fCarry then (p.1 >>> 1) ||| 0x80 else (p.1 >>> 1) &&& 0x7f) := by
    unfold rcr8_step
    rfl
  rw [hv] at *
  refine ⟨h.1, fun i hi => ?_⟩
  rw [with_carry_testBit 8 _ _ i h.1, with_carry_testBit 8 _ _ _ hp, hc]
  by_cases hw : i = 8
  · subst hw
    simp
  · have hi2 : i < 8 := by omega
    rw [if_pos hi2, h.2.2 i hi2]
    by_cases ht : i = 7
    · subst ht
      simp
    · have e : (i + 1) % 9 = i + 1 := by omega
      rw [if_neg ht, e, if_pos (by omega)]

theorem rcr8_iterate (f : Flags) (v : Nat) (hv : v < 0x100) (k : Nat) :
    (rcr8_step^[k] (v, f)).1 < 0x100 ∧
    ∀ i, i < 9 →
      (with_carry 8 (rcr8_step^[k] (v, f)).2.fCarry (rcr8_step^[k] (v, f)).1).testBit i =
        (with_carry 8 f.fCarry v).testBit ((i + k) % 9) := by
  induction k with
  | zero =>
    refine ⟨hv, fun i hi => ?_⟩
    have e : (i + 0) % 9 = i := by omega
    rw [e]
    rfl
  | succ k ih =>
    obtain ⟨h1, h2⟩ := ih
    obtain ⟨s1, s2⟩ := rcr8_step_facts (rcr8_step^[k] (v, f)) h1
    rw [Function.iterate_succ_apply']
    refine ⟨s1, fun i hi => ?_⟩
    rw [s2 i hi, h2 _ (Nat.mod_lt _ (by decide))]
    congr 1
    omega

theorem op_rcl8_spec (f : Flags) (v n : Nat) (hv : v < 0x100) (h1 : 1 ≤ n) :
    (op_rcl8 f v n).1 < 0x100 ∧
    with_carry 8 (op_rcl8 f v n).2.fCarry (op_rcl8 f v n).1 =
      rotate_left 9 (with_carry 8 f.fCarry v) (n % 9) := by
  have h0 : n ≠ 0 := by omega
  obtain ⟨k1, k2⟩ := rcl8_iterate f v hv n
  have hr : (op_rcl8 f v n).1 = (rcl8_step^[n] (v, f)).1 := by
    simp only [op_rcl8, if_neg h0]
  have hc : (op_rcl8 f v n).2.fCarry = (rcl8_step^[n] (v, f)).2.fCarry := by
    simp only [op_rcl8, if_neg h0]
    split <;> rfl
  rw [hr, hc]
  refine ⟨k1, ?_⟩
  have hX := with_carry_lt 8 f.fCarry v hv
  refine eq_of_testBit_lt 9 _ _ (with_carry_lt 8 _ _ k1) (rotate_left_lt 9 _ _)
    (fun i hi => ?_)
  rw [k2 i hi, rotate_left_testBit 9 _ (n % 9) i hX (by omega) hi]
  congr 1
  split <;> omega

theorem op_rcr8_spec (f : Flags) (v n : Nat) (hv : v < 0x100) (h1 : 1 ≤ n) :
    (op_rcr8 f v n).1 < 0x100 ∧
    with_carry 8 (op_rcr8 f v n).2.fCarry (op_rcr8 f v n).1 =
      rotate_right 9 (with_carry 8 f.fCarry v) (n % 9) := by
  have h0 : n ≠ 0 := by omega
  obtain ⟨k1, k2⟩ := rcr8_iterate f v hv n
  have hr : (op_rcr8 f v n).1 = (rcr8_step^[n] (v, f)).1 := by
    simp only [op_rcr8, if_neg h0]
  have hc : (op_rcr8 f v n).2.fCarry = (rcr8_step^[n] (v, f)).2.fCarry := by
    simp only [op_rcr8, if_neg h0]
    split <;> rfl
  rw [hr, hc]
  refine ⟨k1, ?_⟩
  have hX := with_carry_lt 8 f.fCarry v hv
  refine eq_of_testBit_lt 9 _ _ (with_carry_lt 8 _ _ k1) (rotate_right_lt 9 _ _)
    (fun i hi => ?_)
  rw [k2 i hi, rotate_right_testBit 9 _ (n % 9) i hX (by omega) hi]
  congr 1
  split <;> omega

theorem rcl16_step_facts (p : Nat × Flags) (hp : p.1 < 0x10000) :
    (rcl16_step p).1 < 0x10000 ∧
    ∀ i, i < 17 →
      (with_carry 16 (rcl16_step p).2.fCarry (rcl16_step p).1).testBit i =
        (with_carry 16 p.2.fCarry p.1).testBit ((i + 16) % 17) := by
  have h := shl_low16 p.1 p.2.fCarry
  have hb := (bit_tests p.1).2.2.2.1
  have hc : (rcl16_step p).2.fCarry = p.1.testBit 15 := by
    unfold rcl16_step
    simp only [hb]
  have hv : (rcl16_step p).1 =
      (if p.2.fCarry then ((p.1 <<< 1) % 0x10000) ||| 1 else ((p.1 <<< 1) % 0x10000) &&& 0xfffe) := by
    unfold rcl16_step
    rfl
  rw [hv] at *
  refine ⟨h.1, fun i hi => ?_⟩
  rw [with_carry_testBit 16 _ _ i h.1, with_carry_testBit 16 _ _ _ hp, hc]
  by_cases h0 : i = 0
  · subst h0
    rw [if_pos (by decide), h.2 0 (by decide), if_pos rfl]
    simp
  · by_cases hw : i = 16
    · subst hw
      simp
    · have hi2 : i < 16 := by omega
      have e : (i + 16) % 17 = i - 1 := by omega
      rw [if_pos hi2, h.2 i hi2, if_neg h0, e, if_pos (by omega)]

theorem rcl16_iterate (f : Flags) (v : Nat) (hv : v < 0x10000) (k : Nat) :
    (rcl16_step^[k] (v, f)).1 < 0x10000 ∧
    ∀ i, i < 17 →
      (with_carry 16 (rcl16_step^[k] (v, f)).2.fCarry (rcl16_step^[k] (v, f)).1).testBit i =
        (with_carry 16 f.fCarry v).testBit ((i + 16 * k) % 17) := by
  induction k with
  | zero =>
    refine ⟨hv, fun i hi => ?_⟩
    have e : (i + 16 * 0) % 17 = i := by omega
    rw [e]
    rfl
  | succ k ih =>
    obtain ⟨h1, h2⟩ := ih
    obtain ⟨s1, s2⟩ := rcl16_step_facts (rcl16_step^[k] (v, f)) h1
    rw [Function.iterate_succ_apply']
    refine ⟨s1, fun i hi => ?_⟩
    rw [s2 i hi, h2 _ (Nat.mod_lt _ (by decide))]
    congr 1
    omega

theorem rcr16_step_facts (p : Nat × Flags) (hp : p.1 < 0x10000) :
    (rcr16_step p).1 < 0x10000 ∧
    ∀ i, i < 17 →
      (with_carry 16 (rcr16_step p).2.fCarry (rcr16_step p).1).testBit i =
        (with_carry 16 p.2.fCarry p.1).testBit ((i + 1) % 17) := by
  have h := shr_top16 p.1 p.2.fCarry hp
  have hb := (bit_tests p.1).2.2.2.2.2.1
  have hc : (rcr16_step p).2.fCarry = p.1.testBit 0 := by
    unfold rcr16_step
    simp only [hb]
  have hv : (rcr16_step p).1 =
      (if p.2.fCarry then (p.1 >>> 1) ||| 0x8000 else (p.1 >>> 1) &&& 0x7fff) := by
    unfold rcr16_step
    rfl
  rw [hv] at *
  refine ⟨h.1, fun i hi => ?_⟩
  rw [with_carry_testBit 16 _ _ i h.1, with_carry_testBit 16 _ _ _ hp, hc]
  by_cases hw : i = 16
  · subst hw
    simp
  · have hi2 : i < 16 := by omega
    rw [if_pos hi2, h.2.2 i hi2]
    by_cases ht : i = 15
    · subst ht
      simp
    · have e : (i + 1) % 17 = i + 1 := by omega
      rw [if_neg ht, e, if_pos (by omega)]

theorem rcr16_iterate (f : Flags) (v : Nat) (hv : v < 0x10000) (k : Nat) :
    (rcr16_step^[k] (v, f)).1 < 0x10000 ∧
    ∀ i, i < 17 →
      (with_carry 16 (rcr16_step^[k] (v, f)).2.fCarry (rcr16_step^[k] (v, f)).1).testBit i =
        (with_carry 16 f.fCarry v).testBit ((i + k) % 17) := by
  induction k with
  | zero =>
    refine ⟨hv, fun i hi => ?_⟩
    have e : (i + 0) % 17 = i := by omega
    rw [e]
    rfl
  | succ k ih =>
    obtain ⟨h1, h2⟩ := ih
    obtain ⟨s1, s2⟩ := rcr16_step_facts (rcr16_step^[k] (v, f)) h1
    rw [Function.iterate_succ_apply']
    refine ⟨s1, fun i hi => ?_⟩
    rw [s2 i hi, h2 _ (Nat.mod_lt _ (by decide))]
    congr 1
    omega

theorem op_rcl16_spec (f : Flags) (v n : Nat) (hv : v < 0x10000) (h1 : 1 ≤ n) :
    (op_rcl16 f v n).1 < 0x10000 ∧
    with_carry 16 (op_rcl16 f v n).2.fCarry (op_rcl16 f v n).1 =
      rotate_left 17 (with_carry 16 f.fCarry v) (n % 17) := by
  have h0 : n ≠ 0 := by omega
  obtain ⟨k1, k2⟩ := rcl16_iterate f v hv n
  have hr : (op_rcl16 f v n).1 = (rcl16_step^[n] (v, f)).1 := by
    simp only [op_rcl16, if_neg h0]
  have hc : (op_rcl16 f v n).2.fCarry = (rcl16_step^[n] (v, f)).2.fCarry := by
    simp only [op_rcl16, if_neg h0]
    split <;> rfl
  rw [hr, hc]
  refine ⟨k1, ?_⟩
  have hX := with_carry_lt 16 f.fCarry v hv
  refine eq_of_testBit_lt 17 _ _ (with_carry_lt 16 _ _ k1) (rotate_left_lt 17 _ _)
    (fun i hi => ?_)
  rw [k2 i hi, rotate_left_testBit 17 _ (n % 17) i hX (by omega) hi]
  congr 1
  split <;> omega

theorem op_rcr16_spec (f : Flags) (v n : Nat) (hv : v < 0x10000) (h1 : 1 ≤ n) :
    (op_rcr16 f v n).1 < 0x10000 ∧
    with_carry 16 (op_rcr16 f v n).2.fCarry (op_rcr16 f v n).1 =
      rotate_right 17 (with_carry 16 f.fCarry v) (n % 17) := by
  have h0 : n ≠ 0 := by omega
  obtain ⟨k1, k2⟩ := rcr16_iterate f v hv n
  have hr : (op_rcr16 f v n).1 = (rcr16_step^[n] (v, f)).1 := by
    simp only [op_rcr16, if_neg h0]
  have hc : (op_rcr16 f v n).2.fCarry = (rcr16_step^[n] (v, f)).2.fCarry := by
    simp only [op_rcr16, if_neg h0]
    split <;> rfl
  rw [hr, hc]
  refine ⟨k1, ?_⟩
  have hX := with_carry_lt 16 f.fCarry v hv
  refine eq_of_testBit_lt 17 _ _ (with_carry_lt 16 _ _ k1) (rotate_right_lt 17 _ _)
    (fun i hi => ?_)
  rw [k2 i hi, rotate_right_testBit 17 _ (n % 17) i hX (by omega) hi]
  congr 1
  split <;> omega

theorem top_bit_iff8 (x : Nat) (hx : x < 0x100) : x.testBit 7 = decide (128 ≤ x) := by
  have e : x.testBit 7 = decide (x / 128 % 2 = 1) := Nat.testBit_to_div_mod
  rw [e]
  by_cases h : 128 ≤ x
  · have h2 : x / 128 % 2 = 1 := by omega
    rw [decide_eq_true h, decide_eq_true h2]
  · have h2 : ¬ (x / 128 % 2 = 1) := by omega
    rw [decide_eq_false h, decide_eq_false h2]

theorem to_u8_signed8 (x : Nat) (hx : x < 0x100) : to_u8 (signed8 x) = x := by
  unfold to_u8 signed8
  split <;> omega

theorem sar8_signed (x : Nat) (b : Bool) (hx : x < 0x100) (hb : b = decide (128 ≤ x)) :
    signed8 (x / 2 + b.toNat * 0x80) = signed8 x / 2 := by
  subst hb
  unfold signed8
  by_cases h : 128 ≤ x
  · rw [decide_eq_true h, Bool.toNat_true]
    split <;> split <;> omega
  · rw [decide_eq_false h, Bool.toNat_false]
    split <;> split <;> omega

theorem sar8_step_facts (hb : Bool) (p : Nat × Flags) (hp : p.1 < 0x100) :
    (sar8_step hb p).1 < 0x100 ∧
    (sar8_step hb p).1 = p.1 / 2 + hb.toNat * 0x80 ∧
    (sar8_step hb p).2.fCarry = p.1.testBit 0 ∧
    ∀ i, i < 8 →
      (sar8_step hb p).1.testBit i = if i = 7 then hb else p.1.testBit (i + 1) := by
  have h := shr_top8 p.1 hb hp
  exact ⟨h.1, h.2.1, (bit_tests p.1).2.2.2.2.2.1, h.2.2⟩

theorem sar8_iterate (f : Flags) (v : Nat) (hv : v < 0x100) (k : Nat) :
    ((sar8_step (v.testBit 7))^[k] (v, f)).1 < 0x100 ∧
    signed8 ((sar8_step (v.testBit 7))^[k] (v, f)).1 = signed8 v / 2 ^ k ∧
    (∀ i, i < 8 →
      ((sar8_step (v.testBit 7))^[k] (v, f)).1.testBit i = v.testBit (min (i + k) 7)) ∧
    (1 ≤ k →
      ((sar8_step (v.testBit 7))^[k] (v, f)).2.fCarry = v.testBit (min (k - 1) 7)) := by
  induction k with
  | zero =>
    refine ⟨hv, ?_, fun i hi => ?_, fun h => absurd h (by decide)⟩
    · rw [pow_zero, Int.ediv_one]
      rfl
    · have e : min (i + 0) 7 = i := by omega
      rw [e]
      rfl
  | succ k ih =>
    obtain ⟨h1, h2, h3, -⟩ := ih
    obtain ⟨s1, s2, s3, s4⟩ :=
      sar8_step_facts (v.testBit 7) ((sar8_step (v.testBit 7))^[k] (v, f)) h1
    have htop : v.testBit 7 =
        decide (128 ≤ ((sar8_step (v.testBit 7))^[k] (v, f)).1) := by
      rw [← top_bit_iff8 _ h1, h3 7 (by decide)]
      congr 1
      omega
    rw [Function.iterate_succ_apply']
    refine ⟨s1, ?_, fun i hi => ?_, fun _ => ?_⟩
    · rw [s2, int_div_pow_succ, ← h2]
      exact sar8_signed _ _ h1 htop
    · rw [s4 i hi]
      by_cases ht : i = 7
      · subst ht
        rw [if_pos rfl]
        congr 1
        omega
      · rw [if_neg ht, h3 (i + 1) (by omega)]
        congr 1
        omega
    · rw [s3, h3 0 (by decide)]
      congr 1
      omega

theorem op_sar8_spec (f : Flags) (v n : Nat) (hv : v < 0x100) (h1 : 1 ≤ n) :
    (op_sar8 f v n).1 < 0x100 ∧
    (op_sar8 f v n).1 = to_u8 (signed8 v / 2 ^ n) ∧
    (op_sar8 f v n).2.fCarry = v.testBit (min (n - 1) 7) ∧
    (n = 1 → (op_sar8 f v n).2.fOverflow = false) := by
  have h0 : n ≠ 0 := by omega
  obtain ⟨k1, k2, -, k4⟩ := sar8_iterate f v hv n
  have hb := (bit_tests v).1
  have hr : (op_sar8 f v n).1 = ((sar8_step (v.testBit 7))^[n] (v, f)).1 := by
    simp only [op_sar8, if_neg h0, hb]
  have hc : (op_sar8 f v n).2.fCarry =
      ((sar8_step (v.testBit 7))^[n] (v, f)).2.fCarry := by
    simp only [op_sar8, if_neg h0, hb]
    split <;> rfl
  refine ⟨by rw [hr]; exact k1, ?_, by rw [hc]; exact k4 h1, fun hn => ?_⟩
  · rw [hr, ← k2, to_u8_signed8 _ k1]
  · simp only [op_sar8, if_neg h0, if_pos hn]
    rfl

theorem top_bit_iff16 (x : Nat) (hx : x < 0x10000) : x.testBit 15 = decide (32768 ≤ x) := by
  have e : x.testBit 15 = decide (x / 32768 % 2 = 1) := Nat.testBit_to_div_mod
  rw [e]
  by_cases h : 32768 ≤ x
  · have h2 : x / 32768 % 2 = 1 := by omega
    rw [decide_eq_true h, decide_eq_true h2]
  · have h2 : ¬ (x / 32768 % 2 = 1) := by omega
    rw [decide_eq_false h, decide_eq_false h2]

theorem to_u16_signed16 (x : Nat) (hx : x < 0x10000) : to_u16 (signed16 x) = x := by
  unfold to_u16 signed16
  split <;> omega

theorem sar16_signed (x : Nat) (b : Bool) (hx : x < 0x10000) (hb : b = decide (32768 ≤ x)) :
    signed16 (x / 2 + b.toNat * 0x8000) = signed16 x / 2 := by
  subst hb
  unfold signed16
  by_cases h : 32768 ≤ x
  · rw [decide_eq_true h, Bool.toNat_true]
    split <;> split <;> omega
  · rw [decide_eq_false h, Bool.toNat_false]
    split <;> split <;> omega

theorem sar16_step_facts (hb : Bool) (p : Nat × Flags) (hp : p.1 < 0x10000) :
    (sar16_step hb p).1 < 0x10000 ∧
    (sar16_step hb p).1 = p.1 / 2 + hb.toNat * 0x8000 ∧
    (sar16_step hb p).2.fCarry = p.1.testBit 0 ∧
    ∀ i, i < 16 →
      (sar16_step hb p).1.testBit i = if i = 15 then hb else p.1.testBit (i + 1) := by
  have h := shr_top16 p.1 hb hp
  exact ⟨h.1, h.2.1, (bit_tests p.1).2.2.2.2.2.1, h.2.2⟩

theorem sar16_iterate (f : Flags) (v : Nat) (hv : v < 0x10000) (k : Nat) :
    ((sar16_step (v.testBit 15))^[k] (v, f)).1 < 0x10000 ∧
    signed16 ((sar16_step (v.testBit 15))^[k] (v, f)).1 = signed16 v / 2 ^ k ∧
    (∀ i, i < 16 →
      ((sar16_step (v.testBit 15))^[k] (v, f)).1.testBit i = v.testBit (min (i + k) 15)) ∧
    (1 ≤ k →
      ((sar16_step (v.testBit 15))^[k] (v, f)).2.fCarry = v.testBit (min (k - 1) 15)) := by
  induction k with
  | zero =>
    refine ⟨hv, ?_, fun i hi => ?_, fun h => absurd h (by decide)⟩
    · rw [pow_zero, Int.ediv_one]
      rfl
    · have e : min (i + 0) 15 = i := by omega
      rw [e]
      rfl
  | succ k ih =>
    obtain ⟨h1, h2, h3, -⟩ := ih
    obtain ⟨s1, s2, s3, s4⟩ :=
      sar16_step_facts (v.testBit 15) ((sar16_step (v.testBit 15))^[k] (v, f)) h1
    have htop : v.testBit 15 =
        decide (32768 ≤ ((sar16_step (v.testBit 15))^[k] (v, f)).1) := by
      rw [← top_bit_iff16 _ h1, h3 15 (by decide)]
      congr 1
      omega
    rw [Function.iterate_succ_apply']
    refine ⟨s1, ?_, fun i hi => ?_, fun _ => ?_⟩
    · rw [s2, int_div_pow_succ, ← h2]
      exact sar16_signed _ _ h1 htop
    · rw [s4 i hi]
      by_cases ht : i = 15
      · subst ht
        rw [if_pos rfl]
        congr 1
        omega
      · rw [if_neg ht, h3 (i + 1) (by omega)]
        congr 1
        omega
    · rw [s3, h3 0 (by decide)]
      congr 1
      omega

theorem op_sar16_spec (f : Flags) (v n : Nat) (hv : v < 0x10000) (h1 : 1 ≤ n) :
    (op_sar16 f v n).1 < 0x10000 ∧
    (op_sar16 f v n).1 = to_u16 (signed16 v / 2 ^ n) ∧
    (op_sar16 f v n).2.fCarry = v.testBit (min (n - 1) 15) ∧
    (n = 1 → (op_sar16 f v n).2.fOverflow = false) := by
  have h0 : n ≠ 0 := by omega
  obtain ⟨k1, k2, -, k4⟩ := sar16_iterate f v hv n
  have hb := (bit_tests v).2.1
  have hr : (op_sar16 f v n).1 = ((sar16_step (v.testBit 15))^[n] (v, f)).1 := by
    simp only [op_sar16, if_neg h0, hb]
  have hc : (op_sar16 f v n).2.fCarry =
      ((sar16_step (v.testBit 15))^[n] (v, f)).2.fCarry := by
    simp only [op_sar16, if_neg h0, hb]
    split <;> rfl
  refine ⟨by rw [hr]; exact k1, ?_, by rw [hc]; exact k4 h1, fun hn => ?_⟩
  · rw [hr, ← k2, to_u16_signed16 _ k1]
  · simp only [op_sar16, if_neg h0, if_pos hn]
    rfl

/-! ## Arithmetic right shift -/

/-- C27: for every operand v of width w (8 or 16) and every count n with 1 <= n:
`op_sar` leaves the two's-complement encoding of floor(signed(v) / 2^n) in the
operand, sets C to bit (n - 1) of v (to the sign bit of v when n > w), and for n = 1
sets O to false. -/
theorem sar_floor_quotient (f : Flags) (v n : Nat) (h1 : 1 ≤ n) :
    (v < 0x100 →
      (op_sar8 f v n).1 = to_u8 ((signed8 v).fdiv (2 ^ n)) ∧
      (op_sar8 f v n).2.fCarry = (if n ≤ 8 then v.testBit (n - 1) else v.testBit 7) ∧
      (n = 1 → (op_sar8 f v n).2.fOverflow = false)) ∧
    (v < 0x10000 →
      (op_sar16 f v n).1 = to_u16 ((signed16 v).fdiv (2 ^ n)) ∧
      (op_sar16 f v n).2.fCarry = (if n ≤ 16 then v.testBit (n - 1) else v.testBit 15) ∧
      (n = 1 → (op_sar16 f v n).2.fOverflow = false)) := by
  have hpos : (0 : Int) ≤ 2 ^ n := by positivity
  constructor
  · intro hv
    obtain ⟨-, s2, s3, s4⟩ := op_sar8_spec f v n hv h1
    refine ⟨by rw [s2, Int.fdiv_eq_ediv _ hpos], ?_, s4⟩
    rw [s3]
    split <;> (congr 1; omega)
  · intro hv
    obtain ⟨-, s2, s3, s4⟩ := op_sar16_spec f v n hv h1
    refine ⟨by rw [s2, Int.fdiv_eq_ediv _ hpos], ?_, s4⟩
    rw [s3]
    split <;> (congr 1; omega)

/-- Instance of C27: 0x85 (-123) and 0x8005 shifted right arithmetically by 3. -/
theorem sar_floor_quotient_witness :
    ((op_sar8 flags0 0x85 3).1 = to_u8 ((signed8 0x85).fdiv (2 ^ 3)) ∧
      (op_sar8 flags0 0x85 3).2.fCarry =
        (if 3 ≤ 8 then (0x85 : Nat).testBit (3 - 1) else (0x85 : Nat).testBit 7) ∧
      (3 = 1 → (op_sar8 flags0 0x85 3).2.fOverflow = false)) ∧
    ((op_sar16 flags0 0x8005 3).1 = to_u16 ((signed16 0x8005).fdiv (2 ^ 3)) ∧
      (op_sar16 flags0 0x8005 3).2.fCarry =
        (if 3 ≤ 16 then (0x8005 : Nat).testBit (3 - 1) else (0x8005 : Nat).testBit 15) ∧
      (3 = 1 → (op_sar16 flags0 0x8005 3).2.fOverflow = false)) :=
  ⟨(sar_floor_quotient flags0 0x85 3 (by decide)).1 (by decide),
    (sar_floor_quotient flags0 0x8005 3 (by decide)).2 (by decide)⟩

theorem op_sar8_flags (f : Flags) (v n : Nat) (hv : v < 0x100) (h1 : 1 ≤ n) :
    (op_sar8 f v n).2.fSign = false ∧
    (op_sar8 f v n).2.fZero = ((op_sar8 f v n).1 == 0) ∧
    (op_sar8 f v n).2.fParityEven = is_parity_even8 ((op_sar8 f v n).1 &&& 0xff) := by
  have h0 : n ≠ 0 := by omega
  obtain ⟨k1, -⟩ := op_sar8_spec f v n hv h1
  refine ⟨?_, ?_, ?_⟩
  · have hs : (op_sar8 f v n).2.fSign = ((0x8000 &&& (op_sar8 f v n).1) != 0) := by
      simp only [op_sar8, if_neg h0]
      rfl
    rw [hs, (bit_tests _).2.2.2.1]
    exact testBit_eq_false_of_lt _ 8 15 k1 (by decide)
  · simp only [op_sar8, if_neg h0]
    rfl
  · simp only [op_sar8, if_neg h0]
    rfl

/-- C28, evaluated at a failing input: `op_sar8` on 0x80 (-128) with count 1 leaves
0xC0 (-64), whose bit 7 is set, and yet S is clear: the flags are taken from the byte
through `set_PZS16`, which tests bit 15; `set_PZS8` on the same result sets S. -/
theorem op_sar8_sign_from_word_update :
    (op_sar8 flags0 0x80 1).1 = 0xc0 ∧ (0xc0 : Nat).testBit 7 = true ∧
    (op_sar8 flags0 0x80 1).2.fSign = false ∧ (set_PZS8 flags0 0xc0).fSign = true := by
  decide

/-! ## Rotates -/

/-- C29: for every operand v of width w (8 or 16) and every count n with 1 <= n:
`op_rol` leaves v rotated left by (n mod w) bit positions in the operand, sets C to
bit 0 of the result, and for n = 1 sets O to (top bit of the result) XOR C. -/
theorem rol_rotates_left (f : Flags) (v n : Nat) (h1 : 1 ≤ n) :
    (v < 0x100 →
      (op_rol8 f v n).1 = rotate_left 8 v (n % 8) ∧
      (op_rol8 f v n).2.fCarry = (op_rol8 f v n).1.testBit 0 ∧
      (n = 1 → (op_rol8 f v n).2.fOverflow =
        xor ((op_rol8 f v n).1.testBit 7) (op_rol8 f v n).2.fCarry)) ∧
    (v < 0x10000 →
      (op_rol16 f v n).1 = rotate_left 16 v (n % 16) ∧
      (op_rol16 f v n).2.fCarry = (op_rol16 f v n).1.testBit 0 ∧
      (n = 1 → (op_rol16 f v n).2.fOverflow =
        xor ((op_rol16 f v n).1.testBit 15) (op_rol16 f v n).2.fCarry)) :=
  ⟨fun hv => op_rol8_spec f v n hv h1, fun hv => op_rol16_spec f v n hv h1⟩

/-- Instance of C29: 0x81 rotated left by 11 and 0x8001 rotated left by 1. -/
theorem rol_rotates_left_witness :
    ((op_rol8 flags0 0x81 11).1 = rotate_left 8 0x81 (11 % 8) ∧
      (op_rol8 flags0 0x81 11).2.fCarry = (op_rol8 flags0 0x81 11).1.testBit 0 ∧
      (11 = 1 → (op_rol8 flags0 0x81 11).2.fOverflow =
        xor ((op_rol8 flags0 0x81 11).1.testBit 7) (op_rol8 flags0 0x81 11).2.fCarry)) ∧
    ((op_rol16 flags0 0x8001 1).1 = rotate_left 16 0x8001 (1 % 16) ∧
      (op_rol16 flags0 0x8001 1).2.fCarry = (op_rol16 flags0 0x8001 1).1.testBit 0 ∧
      (1 = 1 → (op_rol16 flags0 0x8001 1).2.fOverflow =
        xor ((op_rol16 flags0 0x8001 1).1.testBit 15) (op_rol16 flags0 0x8001 1).2.fCarry)) :=
  ⟨(rol_rotates_left flags0 0x81 11 (by decide)).1 (by decide),
    (rol_rotates_left flags0 0x8001 1 (by decide)).2 (by decide)⟩

theorem with_carry_inj (w : Nat) (c d : Bool) (v u : Nat) (hv : v < 2 ^ w) (hu : u < 2 ^ w)
    (h : with_carry w c v = with_carry w d u) : v = u ∧ c = d := by
  unfold with_carry at h
  cases c <;> cases d <;>
    simp only [Bool.toNat_true, Bool.toNat_false, Nat.zero_mul, Nat.one_mul, Nat.zero_add] at h
  · exact ⟨h, rfl⟩
  · exact absurd h (by omega)
  · exact absurd h (by omega)
  · exact ⟨by omega, rfl⟩

theorem rotate_zero (w x : Nat) (hx : x < 2 ^ w) :
    rotate_left w x 0 = x ∧ rotate_right w x 0 = x := by
  constructor
  · refine eq_of_testBit_lt w _ _ (rotate_left_lt w x 0) hx (fun i hi => ?_)
    rw [rotate_left_testBit w x 0 i hx (by omega) hi]
    simp
  · refine eq_of_testBit_lt w _ _ (rotate_right_lt w x 0) hx (fun i hi => ?_)
    rw [rotate_right_testBit w x 0 i hx (by omega) hi]
    simp [hi]

/-- C30: for every operand v of width w (8 or 16), every carry-in c and every count n
with 1 <= n: `op_rcl` leaves in (C, operand) the (w+1)-bit value c:v rotated left by
(n mod (w+1)) positions, and `op_rcr` leaves that value rotated right by
(n mod (w+1)) positions; a count of w+1 (9 or 17) restores both the operand and C. -/
theorem rcl_rcr_rotate_through_carry (f : Flags) (v n : Nat) (h1 : 1 ≤ n) :
    (v < 0x100 →
      ((op_rcl8 f v n).1 < 0x100 ∧
        with_carry 8 (op_rcl8 f v n).2.fCarry (op_rcl8 f v n).1 =
          rotate_left 9 (with_carry 8 f.fCarry v) (n % 9)) ∧
      ((op_rcr8 f v n).1 < 0x100 ∧
        with_carry 8 (op_rcr8 f v n).2.fCarry (op_rcr8 f v n).1 =
          rotate_right 9 (with_carry 8 f.fCarry v) (n % 9)) ∧
      ((op_rcl8 f v 9).1 = v ∧ (op_rcl8 f v 9).2.fCarry = f.fCarry) ∧
      ((op_rcr8 f v 9).1 = v ∧ (op_rcr8 f v 9).2.fCarry = f.fCarry)) ∧
    (v < 0x10000 →
      ((op_rcl16 f v n).1 < 0x10000 ∧
        with_carry 16 (op_rcl16 f v n).2.fCarry (op_rcl16 f v n).1 =
          rotate_left 17 (with_carry 16 f.fCarry v) (n % 17)) ∧
      ((op_rcr16 f v n).1 < 0x10000 ∧
        with_carry 16 (op_rcr16 f v n).2.fCarry (op_rcr16 f v n).1 =
          rotate_right 17 (with_carry 16 f.fCarry v) (n % 17)) ∧
      ((op_rcl16 f v 17).1 = v ∧ (op_rcl16 f v 17).2.fCarry = f.fCarry) ∧
      ((op_rcr16 f v 17).1 = v ∧ (op_rcr16 f v 17).2.fCarry = f.fCarry)) := by
  constructor
  · intro hv
    have hX := with_carry_lt 8 f.fCarry v hv
    obtain ⟨a1, a2⟩ := op_rcl8_spec f v 9 hv (by decide)
    obtain ⟨b1, b2⟩ := op_rcr8_spec f v 9 hv (by decide)
    rw [Nat.mod_self, (rotate_zero 9 _ hX).1] at a2
    rw [Nat.mod_self, (rotate_zero 9 _ hX).2] at b2
    exact ⟨op_rcl8_spec f v n hv h1, op_rcr8_spec f v n hv h1,
      with_carry_inj 8 _ _ _ _ a1 hv a2, with_carry_inj 8 _ _ _ _ b1 hv b2⟩
  · intro hv
    have hX := with_carry_lt 16 f.fCarry v hv
    obtain ⟨a1, a2⟩ := op_rcl16_spec f v 17 hv (by decide)
    obtain ⟨b1, b2⟩ := op_rcr16_spec f v 17 hv (by decide)
    rw [Nat.mod_self, (rotate_zero 17 _ hX).1] at a2
    rw [Nat.mod_self, (rotate_zero 17 _ hX).2] at b2
    exact ⟨op_rcl16_spec f v n hv h1, op_rcr16_spec f v n hv h1,
      with_carry_inj 16 _ _ _ _ a1 hv a2, with_carry_inj 16 _ _ _ _ b1 hv b2⟩

/-- Instance of C30: 0x81 with carry clear and 0x8001 with carry clear, rotated through
the carry by 3. -/
theorem rcl_rcr_rotate_through_carry_witness :
    (((op_rcl8 flags0 0x81 3).1 < 0x100 ∧
        with_carry 8 (op_rcl8 flags0 0x81 3).2.fCarry (op_rcl8 flags0 0x81 3).1 =
          rotate_left 9 (with_carry 8 flags0.fCarry 0x81) (3 % 9)) ∧
      ((op_rcr8 flags0 0x81 3).1 < 0x100 ∧
        with_carry 8 (op_rcr8 flags0 0x81 3).2.fCarry (op_rcr8 flags0 0x81 3).1 =
          rotate_right 9 (with_carry 8 flags0.fCarry 0x81) (3 % 9)) ∧
      ((op_rcl8 flags0 0x81 9).1 = 0x81 ∧ (op_rcl8 flags0 0x81 9).2.fCarry = flags0.fCarry) ∧
      ((op_rcr8 flags0 0x81 9).1 = 0x81 ∧
        (op_rcr8 flags0 0x81 9).2.fCarry = flags0.fCarry)) ∧
    (((op_rcl16 flags0 0x8001 3).1 < 0x10000 ∧
        with_carry 16 (op_rcl16 flags0 0x8001 3).2.fCarry (op_rcl16 flags0 0x8001 3).1 =
          rotate_left 17 (with_carry 16 flags0.fCarry 0x8001) (3 % 17)) ∧
      ((op_rcr16 flags0 0x8001 3).1 < 0x10000 ∧
        with_carry 16 (op_rcr16 flags0 0x8001 3).2.fCarry (op_rcr16 flags0 0x8001 3).1 =
          rotate_right 17 (with_carry 16 flags0.fCarry 0x8001) (3 % 17)) ∧
      ((op_rcl16 flags0 0x8001 17).1 = 0x8001 ∧
        (op_rcl16 flags0 0x8001 17).2.fCarry = flags0.fCarry) ∧
      ((op_rcr16 flags0 0x8001 17).1 = 0x8001 ∧
        (op_rcr16 flags0 0x8001 17).2.fCarry = flags0.fCarry)) :=
  ⟨(rcl_rcr_rotate_through_carry flags0 0x81 3 (by decide)).1 (by decide),
    (rcl_rcr_rotate_through_carry flags0 0x8001 3 (by decide)).2 (by decide)⟩

/-! ## The immediate-arithmetic group -/

theorem do_math_xor (f : Flags) (x rhs : Nat) :
    (do_math8 6 f x rhs).1 = (x ^^^ rhs) % 0x100 ∧ (do_math16 6 f x rhs).1 = x ∧
    (do_math16 6 f x rhs).2 = (op_xor16 f x rhs).2 ∧
    (op_xor16 f x rhs).1 = (x ^^^ rhs) % 0x10000 :=
  ⟨rfl, rfl, rfl, rfl⟩

theorem do_math16_stores (f : Flags) (x rhs : Nat) :
    do_math16 0 f x rhs = op_add16 f x rhs false ∧ do_math16 1 f x rhs = op_or16 f x rhs ∧
    do_math16 2 f x rhs = op_add16 f x rhs f.fCarry ∧
    do_math16 3 f x rhs = op_sub16 f x rhs f.fCarry ∧
    do_math16 4 f x rhs = op_and16 f x rhs ∧ do_math16 5 f x rhs = op_sub16 f x rhs false ∧
    (do_math16 7 f x rhs).1 = x :=
  ⟨rfl, rfl, rfl, rfl, rfl, rfl, rfl⟩

/-- C31, evaluated at a failing input: `do_math16` with math = 6 on the operand 0x00FF
and the immediate 0x0F0F leaves 0x00FF in the operand, where x XOR rhs is 0x0FF0 (the
flags are those of `op_xor16`); `do_math8` with math = 6 on 0xFF and 0x0F stores
0xF0. -/
theorem do_math16_xor_discards_result :
    (do_math16 6 flags0 0x00ff 0x0f0f).1 = 0x00ff ∧ 0x00ff ^^^ 0x0f0f = 0x0ff0 ∧
    (do_math16 6 flags0 0x00ff 0x0f0f).2 = (op_xor16 flags0 0x00ff 0x0f0f).2 ∧
    (do_math8 6 flags0 0xff 0x0f).1 = 0xf0 := by
  decide

/-! ## Prefix tags across instructions -/

/-- The run of F3 A4 90 F4 (REP MOVSB; NOP; HLT) with CX = 0 decodes four
instructions: the prefix F3 and MOVSB with the repeat tag 0xf3 pending, then NOP and
HLT with both tags 0xff. -/
theorem scenario_prefix_tags :
    (emulate_fetches host0 100 10 true rep_then_nop_program 0).map
        (fun d => (d._b0, d.prefix_segment_override, d.prefix_repeat_opcode)) =
      [(0xf3, 0xff, 0xff), (0xa4, 0xff, 0xf3), (0x90, 0xff, 0xff), (0xf4, 0xff, 0xff)] := by
  decide


/-! ## LAHF and SAHF -/

theorem dispatch_9e (h : Host) (d : Cpu) (hb0 : d._b0 = 0x9e) :
    dispatch h d = Outcome.loop_head (advance_ip (case_9e d)) := by
  unfold dispatch
  rw [hb0]
  rfl

theorem dispatch_9f (h : Host) (d : Cpu) (hb0 : d._b0 = 0x9f) :
    dispatch h d = Outcome.loop_head (advance_ip (case_9f d)) := by
  unfold dispatch
  rw [hb0]
  rfl

theorem ah_set_ah (s : Cpu) (v : Nat) : ah (set_ah s v) = v % 0x100 := by
  unfold ah set_ah
  simp only []
  omega

theorem case_9f_fields (s : Cpu) (p : Nat) :
    ah (decode_instruction (advance_ip (case_9f s)) p) = ah (case_9f s) ∧
    (decode_instruction (advance_ip (case_9f s)) p).f = s.f := by
  cases s; exact ⟨rfl, rfl⟩

theorem lahf_byte (s : Cpu) :
    ah (case_9f s) = 0x02 + 0x80 * s.f.fSign.toNat + 0x40 * s.f.fZero.toNat +
      0x10 * s.f.fAuxCarry.toNat + 0x04 * s.f.fParityEven.toNat + s.f.fCarry.toNat := by
  unfold case_9f
  rw [ah_set_ah]
  cases s.f.fSign <;> cases s.f.fZero <;> cases s.f.fAuxCarry <;> cases s.f.fParityEven <;>
    cases s.f.fCarry <;> rfl

theorem sahf_flags (s : Cpu) :
    (case_9e s).f.fSign = (ah s).testBit 7 ∧ (case_9e s).f.fZero = (ah s).testBit 6 ∧
    (case_9e s).f.fAuxCarry = (ah s).testBit 5 ∧ (case_9e s).f.fParityEven = (ah s).testBit 2 ∧
    (case_9e s).f.fCarry = (ah s).testBit 0 := by
  have h : ∀ k, (((ah s) &&& 2 ^ k) != 0) = (ah s).testBit k := fun k => by
    rw [and_pow_bne, Nat.testBit_to_div_mod]
  exact ⟨h 7, h 6, h 5, h 2, h 0⟩

theorem lahf_then_sahf (s : Cpu) (p : Nat) :
    (case_9e (decode_instruction (advance_ip (case_9f s)) p)).f.fSign = s.f.fSign ∧
    (case_9e (decode_instruction (advance_ip (case_9f s)) p)).f.fZero = s.f.fZero ∧
    (case_9e (decode_instruction (advance_ip (case_9f s)) p)).f.fParityEven = s.f.fParityEven ∧
    (case_9e (decode_instruction (advance_ip (case_9f s)) p)).f.fCarry = s.f.fCarry ∧
    (case_9e (decode_instruction (advance_ip (case_9f s)) p)).f.fAuxCarry = false := by
  obtain ⟨h1, h2, h3, h4, h5⟩ := sahf_flags (decode_instruction (advance_ip (case_9f s)) p)
  rw [h1, h2, h3, h4, h5, (case_9f_fields s p).1, lahf_byte]
  cases s.f.fSign <;> cases s.f.fZero <;> cases s.f.fAuxCarry <;> cases s.f.fParityEven <;>
    cases s.f.fCarry <;> decide

/-- C37, evaluated at a failing input: LAHF; SAHF executed with S, Z, A, P and C all
set leaves S, Z, P and C set and A clear.  LAHF stores A in bit 4 of AH (AH = 0xD7)
and SAHF reads A from bit 5. -/
theorem lahf_sahf_loses_aux_carry :
    lahf_sahf_program.f.fAuxCarry = true ∧
    ah (Run.final (emulate host0 100 10 lahf_sahf_program)) = 0xd7 ∧
    (Run.final (emulate host0 100 10 lahf_sahf_program)).f.fAuxCarry = false ∧
    (Run.final (emulate host0 100 10 lahf_sahf_program)).f.fSign = true ∧
    (Run.final (emulate host0 100 10 lahf_sahf_program)).f.fZero = true ∧
    (Run.final (emulate host0 100 10 lahf_sahf_program)).f.fParityEven = true ∧
    (Run.final (emulate host0 100 10 lahf_sahf_program)).f.fCarry = true := by
  decide

/-! ## The divisor of DIV r/m8 -/

/-- C38, evaluated at a failing input: DIV byte [0x0200] (F6 36 00 02) with AX = 100,
the byte 10 at DS:0x0200 and DH = 5.  The r/m8 operand selected by mod and rm is the
memory byte 10, but the handler divides by the register DH: AL = 20 and AH = 0, where
the claimed result is AL = 10; IP advances by 2, although the instruction is 4 bytes
long. -/
theorem div_rm8_divides_by_register :
    rm8_operand div_mem_state = 10 ∧ preg8_operand div_mem_state = 5 ∧
    modrm_length div_mem_state = 4 ∧
    ∃ t, exec host0 div_mem_state = Outcome.loop_head t ∧ al t = 20 ∧ ah t = 0 ∧ t.ip = 2 :=
  ⟨by decide, by decide, by decide, _,
    (dispatch_f6 host0 _ (by decide)).trans (case_f6_div host0 _ (by decide)), by decide⟩


/-! ## Rotate through carry, left then right -/

theorem rotate_right_left (w x m : Nat) (hx : x < 2 ^ w) (hm : m ≤ w) :
    rotate_right w (rotate_left w x m) m = x ∧ rotate_left w (rotate_right w x m) m = x := by
  constructor
  · refine eq_of_testBit_lt w _ _ (rotate_right_lt w _ m) hx (fun i hi => ?_)
    rw [rotate_right_testBit w _ m i (rotate_left_lt w x m) hm hi,
      rotate_left_testBit w x m _ hx hm (by split <;> omega)]
    congr 1
    split <;> split <;> omega
  · refine eq_of_testBit_lt w _ _ (rotate_left_lt w _ m) hx (fun i hi => ?_)
    rw [rotate_left_testBit w _ m i (rotate_right_lt w x m) hm hi,
      rotate_right_testBit w x m _ hx hm (by split <;> omega)]
    congr 1
    split <;> split <;> omega

/-- C36: for every operand v of width 8 or 16, every carry c and every count n of 1 or
more, `op_rcl` with count n followed by `op_rcr` with count n restores both the
operand v and the C flag c, and so does `op_rcr` followed by `op_rcl`. -/
theorem rcl_rcr_inverse (f : Flags) (v n : Nat) (h1 : 1 ≤ n) :
    (v < 0x100 →
      ((op_rcr8 (op_rcl8 f v n).2 (op_rcl8 f v n).1 n).1 = v ∧
        (op_rcr8 (op_rcl8 f v n).2 (op_rcl8 f v n).1 n).2.fCarry = f.fCarry) ∧
      ((op_rcl8 (op_rcr8 f v n).2 (op_rcr8 f v n).1 n).1 = v ∧
        (op_rcl8 (op_rcr8 f v n).2 (op_rcr8 f v n).1 n).2.fCarry = f.fCarry)) ∧
    (v < 0x10000 →
      ((op_rcr16 (op_rcl16 f v n).2 (op_rcl16 f v n).1 n).1 = v ∧
        (op_rcr16 (op_rcl16 f v n).2 (op_rcl16 f v n).1 n).2.fCarry = f.fCarry) ∧
      ((op_rcl16 (op_rcr16 f v n).2 (op_rcr16 f v n).1 n).1 = v ∧
        (op_rcl16 (op_rcr16 f v n).2 (op_rcr16 f v n).1 n).2.fCarry = f.fCarry)) := by
  constructor
  · intro hv
    have hX := with_carry_lt 8 f.fCarry v hv
    have hm : n % 9 ≤ 9 := by omega
    obtain ⟨a1, a2⟩ := op_rcl8_spec f v n hv h1
    obtain ⟨b1, b2⟩ := op_rcr8_spec (op_rcl8 f v n).2 (op_rcl8 f v n).1 n a1 h1
    obtain ⟨c1, c2⟩ := op_rcr8_spec f v n hv h1
    obtain ⟨d1, d2⟩ := op_rcl8_spec (op_rcr8 f v n).2 (op_rcr8 f v n).1 n c1 h1
    rw [a2, (rotate_right_left 9 _ (n % 9) hX hm).1] at b2
    rw [c2, (rotate_right_left 9 _ (n % 9) hX hm).2] at d2
    exact ⟨with_carry_inj 8 _ _ _ _ b1 hv b2, with_carry_inj 8 _ _ _ _ d1 hv d2⟩
  · intro hv
    have hX := with_carry_lt 16 f.fCarry v hv
    have hm : n % 17 ≤ 17 := by omega
    obtain ⟨a1, a2⟩ := op_rcl16_spec f v n hv h1
    obtain ⟨b1, b2⟩ := op_rcr16_spec (op_rcl16 f v n).2 (op_rcl16 f v n).1 n a1 h1
    obtain ⟨c1, c2⟩ := op_rcr16_spec f v n hv h1
    obtain ⟨d1, d2⟩ := op_rcl16_spec (op_rcr16 f v n).2 (op_rcr16 f v n).1 n c1 h1
    rw [a2, (rotate_right_left 17 _ (n % 17) hX hm).1] at b2
    rw [c2, (rotate_right_left 17 _ (n % 17) hX hm).2] at d2
    exact ⟨with_carry_inj 16 _ _ _ _ b1 hv b2, with_carry_inj 16 _ _ _ _ d1 hv d2⟩

/-- Instance of C36: 0xA5 with C set and 0xA5A5 with C set, count 5. -/
theorem rcl_rcr_inverse_witness :
    (((op_rcr8 (op_rcl8 carry_set 0xa5 5).2
          (op_rcl8 carry_set 0xa5 5).1 5).1 = 0xa5 ∧
        (op_rcr8 (op_rcl8 carry_set 0xa5 5).2
          (op_rcl8 carry_set 0xa5 5).1 5).2.fCarry =
          carry_set.fCarry) ∧
      ((op_rcl8 (op_rcr8 carry_set 0xa5 5).2
          (op_rcr8 carry_set 0xa5 5).1 5).1 = 0xa5 ∧
        (op_rcl8 (op_rcr8 carry_set 0xa5 5).2
          (op_rcr8 carry_set 0xa5 5).1 5).2.fCarry =
          carry_set.fCarry)) ∧
    (((op_rcr16 (op_rcl16 carry_set 0xa5a5 5).2
          (op_rcl16 carry_set 0xa5a5 5).1 5).1 = 0xa5a5 ∧
        (op_rcr16 (op_rcl16 carry_set 0xa5a5 5).2
          (op_rcl16 carry_set 0xa5a5 5).1 5).2.fCarry =
          carry_set.fCarry) ∧
      ((op_rcl16 (op_rcr16 carry_set 0xa5a5 5).2
          (op_rcr16 carry_set 0xa5a5 5).1 5).1 = 0xa5a5 ∧
        (op_rcl16 (op_rcr16 carry_set 0xa5a5 5).2
          (op_rcr16 carry_set 0xa5a5 5).1 5).2.fCarry =
          carry_set.fCarry)) :=
  ⟨(rcl_rcr_inverse carry_set 0xa5 5 (by decide)).1 (by decide),
    (rcl_rcr_inverse carry_set 0xa5a5 5 (by decide)).2 (by decide)⟩


/-! ## Compare and the conditional jumps -/

theorem op_sub_zero_sign (f : Flags) (a b : Nat) (c : Bool) :
    ((op_sub8 f a b c).2.fZero = ((op_sub8 f a b c).1 == 0) ∧
      (op_sub8 f a b c).2.fSign = (op_sub8 f a b c).1.testBit 7) ∧
    ((op_sub16 f a b c).2.fZero = ((op_sub16 f a b c).1 == 0) ∧
      (op_sub16 f a b c).2.fSign = (op_sub16 f a b c).1.testBit 15) :=
  ⟨⟨rfl, (bit_tests _).2.2.1⟩, ⟨rfl, (bit_tests _).2.2.2.1⟩⟩

theorem cmp8_flags (f : Flags) (a b : Nat) (ha : a < 0x100) (hb : b < 0x100) :
    ((op_sub8 f a b false).2.fZero = true ↔ a = b) ∧
    ((op_sub8 f a b false).2.fCarry = true ↔ a < b) ∧
    ((op_sub8 f a b false).2.fSign ≠ (op_sub8 f a b false).2.fOverflow ↔
      signed8 a < signed8 b) := by
  obtain ⟨hr, hc⟩ := op_sub8_result_borrow f a b false ha hb
  have ho := op_sub8_overflow f a b false ha hb
  obtain ⟨hz, hs⟩ := (op_sub_zero_sign f a b false).1
  have hlt : (op_sub8 f a b false).1 < 0x100 := by
    have : ((op_sub8 f a b false).1 : Int) < 0x100 := by rw [hr]; omega
    omega
  have hs7 := top_bit_iff8 _ hlt
  simp only [Bool.toNat_false, Nat.cast_zero, Nat.add_zero] at hr hc ho
  refine ⟨?_, hc, ?_⟩
  · rw [hz, beq_iff_eq]
    omega
  · rw [hs, hs7]
    unfold signed8 at ho ⊢
    cases hO : (op_sub8 f a b false).2.fOverflow
    · rw [hO] at ho
      simp only [Bool.false_eq_true, false_iff, not_or, not_lt] at ho
      simp only [ne_eq, decide_eq_false_iff_not, not_not, not_le]
      split at ho <;> split at ho <;> simp only [*, if_true, if_false] <;> omega
    · rw [hO] at ho
      simp only [true_iff] at ho
      simp only [ne_eq, decide_eq_true_eq]
      split at ho <;> split at ho <;> simp only [*, if_true, if_false] <;> omega

theorem cmp8_jumps (f : Flags) (a b : Nat) (ha : a < 0x100) (hb : b < 0x100) :
    (takejmp 4 (op_sub8 f a b false).2 = true ↔ a = b) ∧
    (takejmp 2 (op_sub8 f a b false).2 = true ↔ a < b) ∧
    (takejmp 6 (op_sub8 f a b false).2 = true ↔ a ≤ b) ∧
    (takejmp 12 (op_sub8 f a b false).2 = true ↔ signed8 a < signed8 b) ∧
    (takejmp 14 (op_sub8 f a b false).2 = true ↔ signed8 a ≤ signed8 b) := by
  obtain ⟨hz, hc, hl⟩ := cmp8_flags f a b ha hb
  have heq : a = b ↔ signed8 a = signed8 b := by
    unfold signed8
    split <;> split <;> omega
  have h12 : takejmp 12 (op_sub8 f a b false).2 = true ↔ signed8 a < signed8 b := by
    rw [← hl]
    show ((op_sub8 f a b false).2.fSign != (op_sub8 f a b false).2.fOverflow) = true ↔ _
    rw [bne_iff_ne]
  refine ⟨hz, hc, ?_, h12, ?_⟩
  · show ((op_sub8 f a b false).2.fCarry || (op_sub8 f a b false).2.fZero) = true ↔ _
    rw [Bool.or_eq_true, hz, hc]
    omega
  · show ((op_sub8 f a b false).2.fZero ||
        ((op_sub8 f a b false).2.fSign != (op_sub8 f a b false).2.fOverflow)) = true ↔ _
    rw [Bool.or_eq_true, hz, bne_iff_ne, hl, heq]
    omega

theorem cmp16_flags (f : Flags) (a b : Nat) (ha : a < 0x10000) (hb : b < 0x10000) :
    ((op_sub16 f a b false).2.fZero = true ↔ a = b) ∧
    ((op_sub16 f a b false).2.fCarry = true ↔ a < b) ∧
    ((op_sub16 f a b false).2.fSign ≠ (op_sub16 f a b false).2.fOverflow ↔
      signed16 a < signed16 b) := by
  obtain ⟨hr, hc⟩ := op_sub16_result_borrow f a b false ha hb
  have ho := op_sub16_overflow f a b false ha hb
  obtain ⟨hz, hs⟩ := (op_sub_zero_sign f a b false).2
  have hlt : (op_sub16 f a b false).1 < 0x10000 := by
    have : ((op_sub16 f a b false).1 : Int) < 0x10000 := by rw [hr]; omega
    omega
  have hs7 := top_bit_iff16 _ hlt
  simp only [Bool.toNat_false, Nat.cast_zero, Nat.add_zero] at hr hc ho
  refine ⟨?_, hc, ?_⟩
  · rw [hz, beq_iff_eq]
    omega
  · rw [hs, hs7]
    unfold signed16 at ho ⊢
    cases hO : (op_sub16 f a b false).2.fOverflow
    · rw [hO] at ho
      simp only [Bool.false_eq_true, false_iff, not_or, not_lt] at ho
      simp only [ne_eq, decide_eq_false_iff_not, not_not, not_le]
      split at ho <;> split at ho <;> simp only [*, if_true, if_false] <;> omega
    · rw [hO] at ho
      simp only [true_iff] at ho
      simp only [ne_eq, decide_eq_true_eq]
      split at ho <;> split at ho <;> simp only [*, if_true, if_false] <;> omega

theorem cmp16_jumps (f : Flags) (a b : Nat) (ha : a < 0x10000) (hb : b < 0x10000) :
    (takejmp 4 (op_sub16 f a b false).2 = true ↔ a = b) ∧
    (takejmp 2 (op_sub16 f a b false).2 = true ↔ a < b) ∧
    (takejmp 6 (op_sub16 f a b false).2 = true ↔ a ≤ b) ∧
    (takejmp 12 (op_sub16 f a b false).2 = true ↔ signed16 a < signed16 b) ∧
    (takejmp 14 (op_sub16 f a b false).2 = true ↔ signed16 a ≤ signed16 b) := by
  obtain ⟨hz, hc, hl⟩ := cmp16_flags f a b ha hb
  have heq : a = b ↔ signed16 a = signed16 b := by
    unfold signed16
    split <;> split <;> omega
  have h12 : takejmp 12 (op_sub16 f a b false).2 = true ↔ signed16 a < signed16 b := by
    rw [← hl]
    show ((op_sub16 f a b false).2.fSign != (op_sub16 f a b false).2.fOverflow) = true ↔ _
    rw [bne_iff_ne]
  refine ⟨hz, hc, ?_, h12, ?_⟩
  · show ((op_sub16 f a b false).2.fCarry || (op_sub16 f a b false).2.fZero) = true ↔ _
    rw [Bool.or_eq_true, hz, hc]
    omega
  · show ((op_sub16 f a b false).2.fZero ||
        ((op_sub16 f a b false).2.fSign != (op_sub16 f a b false).2.fOverflow)) = true ↔ _
    rw [Bool.or_eq_true, hz, bne_iff_ne, hl, heq]
    omega

/-- C33: for all operands a, b of width 8 or 16, the flags left by
`op_sub(a, b, borrow = false)`, which is what CMP executes, make the conditional-jump
predicates decide the comparison: JZ (4) holds iff a = b, JB (2) iff a < b unsigned,
JBE (6) iff a <= b unsigned, JL (12) iff a < b signed, and JLE (14) iff a <= b
signed. -/
theorem cmp_flags_decide_comparison (f : Flags) (a b : Nat) :
    (a < 0x100 → b < 0x100 →
      (takejmp 4 (op_sub8 f a b false).2 = true ↔ a = b) ∧
      (takejmp 2 (op_sub8 f a b false).2 = true ↔ a < b) ∧
      (takejmp 6 (op_sub8 f a b false).2 = true ↔ a ≤ b) ∧
      (takejmp 12 (op_sub8 f a b false).2 = true ↔ signed8 a < signed8 b) ∧
      (takejmp 14 (op_sub8 f a b false).2 = true ↔ signed8 a ≤ signed8 b)) ∧
    (a < 0x10000 → b < 0x10000 →
      (takejmp 4 (op_sub16 f a b false).2 = true ↔ a = b) ∧
      (takejmp 2 (op_sub16 f a b false).2 = true ↔ a < b) ∧
      (takejmp 6 (op_sub16 f a b false).2 = true ↔ a ≤ b) ∧
      (takejmp 12 (op_sub16 f a b false).2 = true ↔ signed16 a < signed16 b) ∧
      (takejmp 14 (op_sub16 f a b false).2 = true ↔ signed16 a ≤ signed16 b)) :=
  ⟨cmp8_jumps f a b, cmp16_jumps f a b⟩

/-- Instance of C33: 0x80 compared with 0x01 (above unsigned, below signed) as bytes
and 0x8000 with 0x0001 as words. -/
theorem cmp_flags_decide_comparison_witness :
    ((takejmp 4 (op_sub8 flags0 0x80 0x01 false).2 = true ↔ 0x80 = 0x01) ∧
      (takejmp 2 (op_sub8 flags0 0x80 0x01 false).2 = true ↔ 0x80 < 0x01) ∧
      (takejmp 6 (op_sub8 flags0 0x80 0x01 false).2 = true ↔ 0x80 ≤ 0x01) ∧
      (takejmp 12 (op_sub8 flags0 0x80 0x01 false).2 = true ↔ signed8 0x80 < signed8 0x01) ∧
      (takejmp 14 (op_sub8 flags0 0x80 0x01 false).2 = true ↔
        signed8 0x80 ≤ signed8 0x01)) ∧
    ((takejmp 4 (op_sub16 flags0 0x8000 0x0001 false).2 = true ↔ 0x8000 = 0x0001) ∧
      (takejmp 2 (op_sub16 flags0 0x8000 0x0001 false).2 = true ↔ 0x8000 < 0x0001) ∧
      (takejmp 6 (op_sub16 flags0 0x8000 0x0001 false).2 = true ↔ 0x8000 ≤ 0x0001) ∧
      (takejmp 12 (op_sub16 flags0 0x8000 0x0001 false).2 = true ↔
        signed16 0x8000 < signed16 0x0001) ∧
      (takejmp 14 (op_sub16 flags0 0x8000 0x0001 false).2 = true ↔
        signed16 0x8000 ≤ signed16 0x0001)) :=
  ⟨(cmp_flags_decide_comparison flags0 0x80 0x01).1 (by decide) (by decide),
    (cmp_flags_decide_comparison flags0 0x8000 0x0001).2 (by decide) (by decide)⟩


/-! ## Word arithmetic as a byte-wise carry chain -/

theorem op_add_overflow_bits (f : Flags) (l r : Nat) (c : Bool) :
    ((op_add8 f l r c).2.fOverflow = true ↔
      (l / 128 % 2 = r / 128 % 2 ∧ (op_add8 f l r c).1 / 128 % 2 ≠ l / 128 % 2)) ∧
    ((op_add16 f l r c).2.fOverflow = true ↔
      (l / 32768 % 2 = r / 32768 % 2 ∧ (op_add16 f l r c).1 / 32768 % 2 ≠ l / 32768 % 2)) := by
  constructor
  · simp only [op_add8, set_PZS8, (and_lit_beq _).1, (and_lit_bne _).2.1, (and_mask _).2.1,
      xor_bit7, Bool.and_eq_true, decide_eq_true_eq]
    omega
  · simp only [op_add16, set_PZS16, (and_lit_beq _).2.2.1, (and_lit_bne _).2.2.2.2.1,
      (and_mask _).2.2.2.1, xor_bit15, Bool.and_eq_true, decide_eq_true_eq]
    omega

theorem op_sub_overflow_bits (f : Flags) (l r : Nat) (c : Bool) :
    ((op_sub8 f l r c).2.fOverflow = true ↔
      (l / 128 % 2 = (0xff - r % 0x100) / 128 % 2 ∧
        (op_sub8 f l r c).1 / 128 % 2 ≠ l / 128 % 2)) ∧
    ((op_sub16 f l r c).2.fOverflow = true ↔
      (l / 32768 % 2 = (0xffff - r % 0x10000) / 32768 % 2 ∧
        (op_sub16 f l r c).1 / 32768 % 2 ≠ l / 32768 % 2)) := by
  constructor
  · simp only [op_sub8, set_PZS8, compl8, (and_lit_beq _).1, (and_lit_bne _).2.1,
      (and_mask _).2.1, xor_bit7, Bool.and_eq_true, decide_eq_true_eq]
    omega
  · simp only [op_sub16, set_PZS16, compl16, (and_lit_beq _).2.2.1, (and_lit_bne _).2.2.2.2.1,
      (and_mask _).2.2.2.1, xor_bit15, Bool.and_eq_true, decide_eq_true_eq]
    omega

theorem high_bit_of_word (a : Nat) :
    a / 32768 % 2 = a / 0x100 % 0x100 / 128 % 2 ∧
    (0xffff - a % 0x10000) / 32768 % 2 = (0xff - a / 0x100 % 0x100 % 0x100) / 128 % 2 := by
  omega

theorem add_chain_arith (a b c k lo hi r : Nat) (ha : a < 0x10000) (hb : b < 0x10000)
    (hc : c ≤ 1)
    (hk : (k = 1 ∧ 256 ≤ a % 0x100 + b % 0x100 + c) ∨
      (k = 0 ∧ ¬ 256 ≤ a % 0x100 + b % 0x100 + c))
    (l1 : lo = (a % 0x100 + b % 0x100 + c) % 256)
    (u1 : hi = (a / 0x100 % 0x100 + b / 0x100 % 0x100 + k) % 256)
    (w1 : r = (a + b + c) % 65536) :
    r = hi * 0x100 + lo ∧ r / 32768 % 2 = hi / 128 % 2 ∧
    (65536 ≤ a + b + c ↔ 256 ≤ a / 0x100 % 0x100 + b / 0x100 % 0x100 + k) := by
  omega

theorem sub_chain_arith (a b c k lo hi r : Nat) (ha : a < 0x10000) (hb : b < 0x10000)
    (hc : c ≤ 1)
    (hk : (k = 1 ∧ a % 0x100 < b % 0x100 + c) ∨ (k = 0 ∧ ¬ a % 0x100 < b % 0x100 + c))
    (l1 : (lo : Int) = (((a % 0x100 : Nat) : Int) - ((b % 0x100 : Nat) : Int) - (c : Int)) % 256)
    (u1 : (hi : Int) =
      (((a / 0x100 % 0x100 : Nat) : Int) - ((b / 0x100 % 0x100 : Nat) : Int) - (k : Int)) % 256)
    (w1 : (r : Int) = ((a : Int) - (b : Int) - (c : Int)) % 65536) :
    r = hi * 0x100 + lo ∧ r / 32768 % 2 = hi / 128 % 2 ∧
    (a < b + c ↔ a / 0x100 % 0x100 < b / 0x100 % 0x100 + k) := by
  omega

theorem carry_cases (b : Bool) (p : Prop) (h : b = true ↔ p) :
    (b.toNat = 1 ∧ p) ∨ (b.toNat = 0 ∧ ¬ p) := by
  cases b
  · exact Or.inr ⟨rfl, fun hp => Bool.noConfusion (h.2 hp)⟩
  · exact Or.inl ⟨rfl, h.1 rfl⟩

theorem add16_is_bytewise (f : Flags) (a b : Nat) (c : Bool)
    (ha : a < 0x10000) (hb : b < 0x10000) :
    (op_add16 f a b c).1 = (add16_bytewise f a b c).1 ∧
    (op_add16 f a b c).2.fCarry = (add16_bytewise f a b c).2.fCarry ∧
    (op_add16 f a b c).2.fOverflow = (add16_bytewise f a b c).2.fOverflow := by
  obtain ⟨w1, w2⟩ := op_add16_result_carry f a b c ha hb
  have w3 := (op_add_overflow_bits f a b c).2
  obtain ⟨l1, l2⟩ := op_add8_result_carry f (a % 0x100) (b % 0x100) c
    (Nat.mod_lt _ (by decide)) (Nat.mod_lt _ (by decide))
  obtain ⟨u1, u2⟩ := op_add8_result_carry (op_add8 f (a % 0x100) (b % 0x100) c).2
    (a / 0x100 % 0x100) (b / 0x100 % 0x100) (op_add8 f (a % 0x100) (b % 0x100) c).2.fCarry
    (Nat.mod_lt _ (by decide)) (Nat.mod_lt _ (by decide))
  have u3 := (op_add_overflow_bits (op_add8 f (a % 0x100) (b % 0x100) c).2
    (a / 0x100 % 0x100) (b / 0x100 % 0x100)
    (op_add8 f (a % 0x100) (b % 0x100) c).2.fCarry).1
  have e1 : (add16_bytewise f a b c).1 =
      (op_add8 (op_add8 f (a % 0x100) (b % 0x100) c).2 (a / 0x100 % 0x100)
        (b / 0x100 % 0x100) (op_add8 f (a % 0x100) (b % 0x100) c).2.fCarry).1 * 0x100 +
      (op_add8 f (a % 0x100) (b % 0x100) c).1 := rfl
  have e2 : (add16_bytewise f a b c).2 =
      (op_add8 (op_add8 f (a % 0x100) (b % 0x100) c).2 (a / 0x100 % 0x100)
        (b / 0x100 % 0x100) (op_add8 f (a % 0x100) (b % 0x100) c).2.fCarry).2 := rfl
  rw [e1, e2]
  clear e1 e2
  generalize op_add8 f (a % 0x100) (b % 0x100) c = lo at l1 l2 u1 u2 u3 ⊢
  generalize op_add8 lo.2 (a / 0x100 % 0x100) (b / 0x100 % 0x100) lo.2.fCarry = hi
    at u1 u2 u3 ⊢
  generalize op_add16 f a b c = r at w1 w2 w3 ⊢
  obtain ⟨hres, hR, hC⟩ := add_chain_arith a b c.toNat lo.2.fCarry.toNat lo.1 hi.1 r.1 ha hb
    (Bool.toNat_le c) (carry_cases _ _ l2) l1 u1 w1
  refine ⟨hres, ?_, ?_⟩
  · rw [Bool.eq_iff_iff, w2, u2]
    exact hC
  · rw [Bool.eq_iff_iff, w3, u3, (high_bit_of_word a).1, (high_bit_of_word b).1, hR]

theorem sub16_is_bytewise (f : Flags) (a b : Nat) (c : Bool)
    (ha : a < 0x10000) (hb : b < 0x10000) :
    (op_sub16 f a b c).1 = (sub16_bytewise f a b c).1 ∧
    (op_sub16 f a b c).2.fCarry = (sub16_bytewise f a b c).2.fCarry ∧
    (op_sub16 f a b c).2.fOverflow = (sub16_bytewise f a b c).2.fOverflow := by
  obtain ⟨w1, w2⟩ := op_sub16_result_borrow f a b c ha hb
  have w3 := (op_sub_overflow_bits f a b c).2
  obtain ⟨l1, l2⟩ := op_sub8_result_borrow f (a % 0x100) (b % 0x100) c
    (Nat.mod_lt _ (by decide)) (Nat.mod_lt _ (by decide))
  obtain ⟨u1, u2⟩ := op_sub8_result_borrow (op_sub8 f (a % 0x100) (b % 0x100) c).2
    (a / 0x100 % 0x100) (b / 0x100 % 0x100) (op_sub8 f (a % 0x100) (b % 0x100) c).2.fCarry
    (Nat.mod_lt _ (by decide)) (Nat.mod_lt _ (by decide))
  have u3 := (op_sub_overflow_bits (op_sub8 f (a % 0x100) (b % 0x100) c).2
    (a / 0x100 % 0x100) (b / 0x100 % 0x100)
    (op_sub8 f (a % 0x100) (b % 0x100) c).2.fCarry).1
  have e1 : (sub16_bytewise f a b c).1 =
      (op_sub8 (op_sub8 f (a % 0x100) (b % 0x100) c).2 (a / 0x100 % 0x100)
        (b / 0x100 % 0x100) (op_sub8 f (a % 0x100) (b % 0x100) c).2.fCarry).1 * 0x100 +
      (op_sub8 f (a % 0x100) (b % 0x100) c).1 := rfl
  have e2 : (sub16_bytewise f a b c).2 =
      (op_sub8 (op_sub8 f (a % 0x100) (b % 0x100) c).2 (a / 0x100 % 0x100)
        (b / 0x100 % 0x100) (op_sub8 f (a % 0x100) (b % 0x100) c).2.fCarry).2 := rfl
  rw [e1, e2]
  clear e1 e2
  generalize op_sub8 f (a % 0x100) (b % 0x100) c = lo at l1 l2 u1 u2 u3 ⊢
  generalize op_sub8 lo.2 (a / 0x100 % 0x100) (b / 0x100 % 0x100) lo.2.fCarry = hi
    at u1 u2 u3 ⊢
  generalize op_sub16 f a b c = r at w1 w2 w3 ⊢
  obtain ⟨hres, hR, hC⟩ := sub_chain_arith a b c.toNat lo.2.fCarry.toNat lo.1 hi.1 r.1 ha hb
    (Bool.toNat_le c) (carry_cases _ _ l2) l1 u1 w1
  refine ⟨hres, ?_, ?_⟩
  · rw [Bool.eq_iff_iff, w2, u2]
    exact hC
  · rw [Bool.eq_iff_iff, w3, u3, (high_bit_of_word a).1, (high_bit_of_word b).2, hR]

/-- C34: for all 16-bit a, b and carry-in c, the result, C and O of
`op_add16(a, b, c)` equal those obtained by `op_add8` on the low bytes with carry c
followed by `op_add8` on the high bytes with the carry produced by the first (result
high:low, C and O from the second); likewise `op_sub16(a, b, c)` equals `op_sub8` on
the low bytes with borrow c followed by `op_sub8` on the high bytes with the produced
borrow. -/
theorem word_arithmetic_is_bytewise (f : Flags) (a b : Nat) (c : Bool)
    (ha : a < 0x10000) (hb : b < 0x10000) :
    ((op_add16 f a b c).1 = (add16_bytewise f a b c).1 ∧
      (op_add16 f a b c).2.fCarry = (add16_bytewise f a b c).2.fCarry ∧
      (op_add16 f a b c).2.fOverflow = (add16_bytewise f a b c).2.fOverflow) ∧
    ((op_sub16 f a b c).1 = (sub16_bytewise f a b c).1 ∧
      (op_sub16 f a b c).2.fCarry = (sub16_bytewise f a b c).2.fCarry ∧
      (op_sub16 f a b c).2.fOverflow = (sub16_bytewise f a b c).2.fOverflow) :=
  ⟨add16_is_bytewise f a b c ha hb, sub16_is_bytewise f a b c ha hb⟩

/-- Instance of C34: 0x12FF and 0x7F01 with carry-in set. -/
theorem word_arithmetic_is_bytewise_witness :
    ((op_add16 flags0 0x12ff 0x7f01 true).1 = (add16_bytewise flags0 0x12ff 0x7f01 true).1 ∧
      (op_add16 flags0 0x12ff 0x7f01 true).2.fCarry =
        (add16_bytewise flags0 0x12ff 0x7f01 true).2.fCarry ∧
      (op_add16 flags0 0x12ff 0x7f01 true).2.fOverflow =
        (add16_bytewise flags0 0x12ff 0x7f01 true).2.fOverflow) ∧
    ((op_sub16 flags0 0x12ff 0x7f01 true).1 = (sub16_bytewise flags0 0x12ff 0x7f01 true).1 ∧
      (op_sub16 flags0 0x12ff 0x7f01 true).2.fCarry =
        (sub16_bytewise flags0 0x12ff 0x7f01 true).2.fCarry ∧
      (op_sub16 flags0 0x12ff 0x7f01 true).2.fOverflow =
        (sub16_bytewise flags0 0x12ff 0x7f01 true).2.fOverflow) :=
  word_arithmetic_is_bytewise flags0 0x12ff 0x7f01 true (by decide) (by decide)


/-! ## Decimal adjust after addition -/

theorem and_f0 (x : Nat) (hx : x < 0x100) : x &&& 0xf0 = x / 16 * 16 := by
  have e : x / 16 * 16 = (x >>> 4) <<< 4 := by
    rw [Nat.shiftRight_eq_div_pow, Nat.shiftLeft_eq]
  rw [e]
  apply Nat.eq_of_testBit_eq
  intro i
  have hm : (0xf0 : Nat).testBit i = (decide (i ≥ 4) && decide (i - 4 < 4)) :=
    (@Nat.testBit_shiftLeft 4 i (2 ^ 4 - 1)).trans (by rw [Nat.testBit_two_pow_sub_one])
  rw [Nat.testBit_and, hm, Nat.testBit_shiftLeft, Nat.testBit_shiftRight]
  by_cases h4 : i ≥ 4
  · have e2 : 4 + (i - 4) = i := by omega
    by_cases h8 : i < 8
    · have h3 : i - 4 < 4 := by omega
      simp [h4, h3, e2]
    · have h3 : ¬ (i - 4 < 4) := by omega
      have hf : x.testBit i = false := testBit_eq_false_of_lt x 8 i hx (by omega)
      simp [h4, h3, e2, hf]
  · simp [h4]

theorem al_lt (s : Cpu) : al s < 0x100 := by
  unfold al
  rw [(and_mask _).2.1]
  omega

theorem al_set_al (s : Cpu) (v : Nat) : al (set_al s v) = v % 0x100 := by
  unfold al set_al
  simp only []
  rw [(and_mask _).2.1]
  have h := or_low_byte s.ax v
  omega

theorem case_27_fields (s : Cpu) :
    al (case_27 s) =
      al (set_al s (op_add8 s.f (al s)
        (if (al s &&& 0xf0) % 0x100 > 0x90 ∨
            ((al s &&& 0xf0) % 0x100 ≥ 0x90 ∧ (al s &&& 0xf) % 0x100 > 0x9) ∨
            s.f.fCarry = true
          then ((if s.f.fAuxCarry ∨ (al s &&& 0xf) % 0x100 > 9 then 6 else 0) ||| 0x60) % 0x100
          else (if s.f.fAuxCarry ∨ (al s &&& 0xf) % 0x100 > 9 then 6 else 0)) false).1) ∧
    (case_27 s).f.fCarry =
      (if (al s &&& 0xf0) % 0x100 > 0x90 ∨
          ((al s &&& 0xf0) % 0x100 ≥ 0x90 ∧ (al s &&& 0xf) % 0x100 > 0x9) ∨
          s.f.fCarry = true
        then true else s.f.fCarry) := by
  cases s; exact ⟨rfl, rfl⟩

theorem case_27_result (s : Cpu) :
    al (case_27 s) =
      (al s + (if s.f.fAuxCarry = true ∨ al s % 16 > 9 then 6 else 0) +
        (if al s / 16 * 16 > 0x90 ∨ (al s / 16 * 16 ≥ 0x90 ∧ al s % 16 > 9) ∨
            s.f.fCarry = true then 0x60 else 0)) % 0x100 ∧
    ((case_27 s).f.fCarry = true ↔
      (al s / 16 * 16 > 0x90 ∨ (al s / 16 * 16 ≥ 0x90 ∧ al s % 16 > 9) ∨
        s.f.fCarry = true)) := by
  have hA := al_lt s
  have h1 : (al s &&& 0xf) % 0x100 = al s % 16 := by
    rw [(and_mask _).1]
    omega
  have h2 : (al s &&& 0xf0) % 0x100 = al s / 16 * 16 := by
    rw [and_f0 _ hA]
    omega
  obtain ⟨e1, e2⟩ := case_27_fields s
  rw [h1, h2] at e1 e2
  rw [e1, e2, al_set_al]
  generalize al s = x at hA ⊢
  generalize s.f.fAuxCarry = af
  generalize s.f.fCarry = cf
  have h66 : (6 ||| 0x60) % 0x100 = 0x66 := by decide
  have h60 : (0 ||| 0x60) % 0x100 = 0x60 := by decide
  constructor
  · by_cases c1 : af = true ∨ x % 16 > 9 <;>
      by_cases c2 : x / 16 * 16 > 0x90 ∨ (x / 16 * 16 ≥ 0x90 ∧ x % 16 > 9) ∨ cf = true
    · simp only [if_pos c1, if_pos c2, h66,
        (op_add8_result_carry s.f x 0x66 false hA (by decide)).1, Bool.toNat_false]
      omega
    · simp only [if_pos c1, if_neg c2,
        (op_add8_result_carry s.f x 6 false hA (by decide)).1, Bool.toNat_false]
      omega
    · simp only [if_neg c1, if_pos c2, h60,
        (op_add8_result_carry s.f x 0x60 false hA (by decide)).1, Bool.toNat_false]
      omega
    · simp only [if_neg c1, if_neg c2,
        (op_add8_result_carry s.f x 0 false hA (by decide)).1, Bool.toNat_false]
      omega
  · by_cases c2 : x / 16 * 16 > 0x90 ∨ (x / 16 * 16 ≥ 0x90 ∧ x % 16 > 9) ∨ cf = true
    · rw [if_pos c2]
      exact ⟨fun _ => c2, fun _ => rfl⟩
    · rw [if_neg c2]
      exact ⟨fun h => absurd (Or.inr (Or.inr h)) c2, fun h => absurd h c2⟩

theorem dispatch_27 (h : Host) (d : Cpu) (hb0 : d._b0 = 0x27) :
    dispatch h d = Outcome.loop_head (advance_ip (case_27 d)) := by
  unfold dispatch
  rw [hb0]
  rfl

theorem op_add8_aux (f : Flags) (lhs rhs : Nat) (carry : Bool) :
    ((op_add8 f lhs rhs carry).2.fAuxCarry = true ↔
      16 ≤ lhs % 16 + rhs % 16 + carry.toNat) := by
  simp only [op_add8, set_PZS8, (and_lit_bne _).1, (and_mask _).2.2.2.2.1, decide_eq_true_eq]
  cases carry <;> simp <;> omega

theorem after_add8_fields (s : Cpu) (a b : Nat) (c : Bool) :
    al (after_add8 s a b c) = (op_add8 s.f a b c).1 % 0x100 ∧
    (after_add8 s a b c).f = (op_add8 s.f a b c).2 :=
  ⟨al_set_al s _, rfl⟩

theorem bool_eq_decide (b : Bool) (p : Prop) [Decidable p] (h : b = true ↔ p) :
    b = decide p := by
  by_cases hp : p
  · rw [h.2 hp, decide_eq_true hp]
  · rw [decide_eq_false hp]
    cases b
    · rfl
    · exact absurd (h.1 rfl) hp

/-- The decimal adjustment tabulated over the sum `lo` of the low digits and the carry and
the sum `hi` of the high digits. -/
theorem daa_table : ∀ lo < 20, ∀ hi < 19,
    ((16 * hi + lo) % 256 +
        (if decide (16 ≤ lo) = true ∨ (16 * hi + lo) % 256 % 16 > 9 then 6 else 0) +
        (if (16 * hi + lo) % 256 / 16 * 16 > 0x90 ∨
            ((16 * hi + lo) % 256 / 16 * 16 ≥ 0x90 ∧ (16 * hi + lo) % 256 % 16 > 9) ∨
            decide (256 ≤ 16 * hi + lo) = true
          then 0x60 else 0)) % 0x100 =
      16 * ((10 * hi + lo) % 100 / 10) + (10 * hi + lo) % 100 % 10 ∧
    (((16 * hi + lo) % 256 / 16 * 16 > 0x90 ∨
        ((16 * hi + lo) % 256 / 16 * 16 ≥ 0x90 ∧ (16 * hi + lo) % 256 % 16 > 9) ∨
        decide (256 ≤ 16 * hi + lo) = true) ↔
      100 ≤ 10 * hi + lo) := by
  decide

/-- The decimal adjustment on numbers: `x` is the binary sum of two packed-BCD bytes and a
carry, `af` and `cf` say whether the low nibbles and the bytes overflowed. -/
theorem daa_arith (a b c x : Nat) (af cf : Bool)
    (ha : a < 0x100 ∧ a / 16 ≤ 9 ∧ a % 16 ≤ 9) (hb : b < 0x100 ∧ b / 16 ≤ 9 ∧ b % 16 ≤ 9)
    (hc : c ≤ 1) (hx : x = (a + b + c) % 256)
    (haf : af = true ↔ 16 ≤ a % 16 + b % 16 + c) (hcf : cf = true ↔ 256 ≤ a + b + c) :
    (x + (if af = true ∨ x % 16 > 9 then 6 else 0) +
        (if x / 16 * 16 > 0x90 ∨ (x / 16 * 16 ≥ 0x90 ∧ x % 16 > 9) ∨ cf = true
          then 0x60 else 0)) % 0x100 =
      16 * ((10 * (a / 16) + a % 16 + (10 * (b / 16) + b % 16) + c) % 100 / 10) +
        (10 * (a / 16) + a % 16 + (10 * (b / 16) + b % 16) + c) % 100 % 10 ∧
    ((x / 16 * 16 > 0x90 ∨ (x / 16 * 16 ≥ 0x90 ∧ x % 16 > 9) ∨ cf = true) ↔
      100 ≤ 10 * (a / 16) + a % 16 + (10 * (b / 16) + b % 16) + c) := by
  obtain ⟨_, ha2, ha3⟩ := ha
  obtain ⟨_, hb2, hb3⟩ := hb
  have hsum : a + b + c = 16 * (a / 16 + b / 16) + (a % 16 + b % 16 + c) := by omega
  have hdec : 10 * (a / 16) + a % 16 + (10 * (b / 16) + b % 16) + c =
      10 * (a / 16 + b / 16) + (a % 16 + b % 16 + c) := by omega
  have e1 := bool_eq_decide af _ haf
  have e2 := bool_eq_decide cf _ hcf
  rw [hsum] at hx e2
  rw [hdec, hx, e1, e2]
  exact daa_table (a % 16 + b % 16 + c) (by omega) (a / 16 + b / 16) (by omega)

/-- C35: for all packed-BCD bytes `a` and `b` (each nibble at most 9) and every carry-in
`c`, after AL and the flags are set by `op_add8(a, b, c)` the DAA handler (opcode 0x27)
leaves in AL the packed-BCD encoding of `(dec(a) + dec(b) + c) mod 100` and sets C exactly
when `dec(a) + dec(b) + c >= 100`. -/
theorem daa_after_bcd_add (s : Cpu) (a b : Nat) (c : Bool)
    (ha : packed_bcd a) (hb : packed_bcd b) :
    al (case_27 (after_add8 s a b c)) =
      bcd_encode ((bcd_value a + bcd_value b + c.toNat) % 100) ∧
    ((case_27 (after_add8 s a b c)).f.fCarry = true ↔
      100 ≤ bcd_value a + bcd_value b + c.toNat) := by
  obtain ⟨r1, r2⟩ := case_27_result (after_add8 s a b c)
  obtain ⟨g1, g2⟩ := after_add8_fields s a b c
  obtain ⟨p1, p2⟩ := op_add8_result_carry s.f a b c ha.1 hb.1
  have p3 := op_add8_aux s.f a b c
  rw [g2] at r1 r2
  rw [g1, p1] at r1 r2
  have hc : c.toNat ≤ 1 := by cases c <;> decide
  have hx : (a + b + c.toNat) % 256 % 256 = (a + b + c.toNat) % 256 := Nat.mod_mod _ _
  obtain ⟨q1, q2⟩ := daa_arith a b c.toNat ((a + b + c.toNat) % 256 % 256)
    (op_add8 s.f a b c).2.fAuxCarry (op_add8 s.f a b c).2.fCarry ha hb hc hx p3 p2
  unfold bcd_encode bcd_value
  exact ⟨r1.trans q1, r2.trans q2⟩

theorem daa_after_bcd_add_witness :
    packed_bcd 0x38 ∧ packed_bcd 0x45 ∧
    al (case_27 (after_add8 cpu0 0x38 0x45 false)) = 0x83 ∧
    ((case_27 (after_add8 cpu0 0x38 0x45 false)).f.fCarry = true ↔
      100 ≤ bcd_value 0x38 + bcd_value 0x45 + false.toNat) :=
  ⟨⟨by decide, by decide, by decide⟩, ⟨by decide, by decide, by decide⟩,
    (daa_after_bcd_add cpu0 0x38 0x45 false ⟨by decide, by decide, by decide⟩
      ⟨by decide, by decide, by decide⟩).1.trans (by decide),
    (daa_after_bcd_add cpu0 0x38 0x45 false ⟨by decide, by decide, by decide⟩
      ⟨by decide, by decide, by decide⟩).2⟩

end I8086
